import Mathlib

/-!
# Sudoku solver (sud_solve.h): shallow embedding and verification

The C++ class `SudokuPuzzle` keeps a 9x9 array `m_grid` of `Cell`s and solves it
by recursive backtracking with constraint propagation.  Below, the mutable grid
is an explicit value of type `Grid` that every operation takes and returns; C++
`int`s are `Int` (no count ever leaves 0..9 on grids built by the constructor);
arrays of 9 are vectors of length 9 indexed by `Fin 9`; a loop
`for (i = 0; i < 9; i++)` is a traversal of the list `idx9`.  The recursion of
`solveSudoku` is bounded by a fuel argument: any fuel above the number of empty
cells gives a result (`solveSudoku_total`), and the result does not depend on the
fuel (`solveSudoku_agrees_doSolve`).  File input and console output are not
modelled: a puzzle is given by its 81 integers.

Two further renderings of the same methods serve the properties that speak about the
course of a run: `solveSudokuLog` also returns the grids on which `solveSudoku` was
entered, and the `Raw` functions take `int` positions and check every array index.
Both are proved to compute what the first rendering computes (`solveSudokuLog_dropLog`,
`solveSudokuRaw_eq`, `setInitialCellConstraintsRaw_eq`).
-/

namespace Sudoku

/-! ## The program -/

/-- An array position 0..8. -/
abbrev Idx := Fin 9

/-- The struct `Cell`: value, constraint count and the nine constraint flags
(`0` = free, `-1` = constrained; flag `k` is about digit `k + 1`). -/
structure Cell where
  nVal : Int
  nConstraintCount : Int
  constraintsOnCell : Mathlib.Vector Int 9
  deriving DecidableEq

/-- The default constructor `Cell()`: `nVal = -1`, no constraints. -/
def Cell.fresh : Cell := ⟨-1, 0, Mathlib.Vector.replicate 9 0⟩

/-- The constructor `Cell(int val)`. -/
def Cell.ofVal (val : Int) : Cell := ⟨val, 0, Mathlib.Vector.replicate 9 0⟩

/-- The method `Cell::setConstraint(constraint)`: if flag `constraint - 1` is `0`, set it to `-1`
and increment the count.  The source indexes the array without a range check; an
index outside 0..8 (undefined behaviour in C++) is modelled as leaving the cell as is. -/
def Cell.setConstraint (c : Cell) (constraint : Int) : Cell :=
  if h : 1 ≤ constraint ∧ constraint ≤ 9 then
    let k : Idx := ⟨(constraint - 1).toNat, by omega⟩
    if c.constraintsOnCell.get k = 0 then
      { nVal := c.nVal
        nConstraintCount := c.nConstraintCount + 1
        constraintsOnCell := c.constraintsOnCell.set k (-1) }
    else c
  else c

/-- The loop range `0, 1, ..., 8`. -/
def idx9 : List Idx := [0, 1, 2, 3, 4, 5, 6, 7, 8]

/-- The loop range `0, 1, 2`. -/
def idx3 : List (Fin 3) := [0, 1, 2]

/-- The method `Cell::getLastRemainingValue()`: `i + 1` for the first flag `i` that is `0`, else `-1`. -/
def Cell.getLastRemainingValue (c : Cell) : Int :=
  match idx9.find? (fun i => decide (c.constraintsOnCell.get i = 0)) with
  | some i => (i.val : Int) + 1
  | none => -1

/-- The array `Cell m_grid[9][9]`. -/
abbrev Grid := Mathlib.Vector (Mathlib.Vector Cell 9) 9

/-- The cell `m_grid[r][c]`. -/
def cellAt (g : Grid) (r c : Idx) : Cell := (g.get r).get c

/-- The assignment `m_grid[r][c] = x`. -/
def setCell (g : Grid) (r c : Idx) (x : Cell) : Grid :=
  g.set r ((g.get r).set c x)

/-- The assignment `m_grid[r][c].nVal = v`. -/
def setVal (g : Grid) (r c : Idx) (v : Int) : Grid :=
  setCell g r c { nVal := v
                  nConstraintCount := (cellAt g r c).nConstraintCount
                  constraintsOnCell := (cellAt g r c).constraintsOnCell }

/-- The call `m_grid[r][c].setConstraint(d)`. -/
def markCell (g : Grid) (r c : Idx) (d : Int) : Grid :=
  setCell g r c ((cellAt g r c).setConstraint d)

/-- The box index `r - (r % 3) + i` for `i` in 0..2. -/
def boxIdx (r : Idx) (i : Fin 3) : Idx :=
  ⟨r.val - r.val % 3 + i.val, by have := r.isLt; have := i.isLt; omega⟩

/-- The cells `[i][col]`, `i = 0..8`, in loop order. -/
def colCells (col : Idx) : List (Idx × Idx) := idx9.map fun i => (i, col)

/-- The cells `[row][j]`, `j = 0..8`, in loop order. -/
def rowCells (row : Idx) : List (Idx × Idx) := idx9.map fun j => (row, j)

/-- The cells `[row - row%3 + i][col - col%3 + j]`, `i, j = 0..2`, in loop order. -/
def boxCells (row col : Idx) : List (Idx × Idx) :=
  idx3.flatMap fun i => idx3.map fun j => (boxIdx row i, boxIdx col j)

/-- All 81 positions in row-major order (the nested `for i` / `for j` loops). -/
def scanOrder : List (Idx × Idx) := idx9.flatMap fun i => idx9.map fun j => (i, j)

/-- One iteration of the scan in `getNextEmptyCellByConstraintCount`; the state is the
pair `(row, col)` found so far (`none` for `row = col = -1`) and `nMostConstrained`. -/
def nextStep (g : Grid) (st : Option (Idx × Idx) × Int) (p : Idx × Idx) :
    Option (Idx × Idx) × Int :=
  if (cellAt g p.1 p.2).nVal = 0 ∧ (cellAt g p.1 p.2).nConstraintCount > st.2 then
    (some p, (cellAt g p.1 p.2).nConstraintCount)
  else st

/-- The method `getNextEmptyCellByConstraintCount`: `some (row, col)` when it returns true with
those coordinates, `none` when it returns false (`row` still `-1`). -/
def getNextEmptyCellByConstraintCount (g : Grid) : Option (Idx × Idx) :=
  (scanOrder.foldl (nextStep g) (none, -1)).1

/-- The method `getNextEmptyCell` (not called by the solver): the first empty cell in row-major order. -/
def getNextEmptyCell (g : Grid) : Option (Idx × Idx) :=
  scanOrder.find? fun p => decide ((cellAt g p.1 p.2).nVal = 0)

/-- The method `isValidAssignment(row, col, val)`: false for `val == -1`, else the column
loop, the row loop and the box loop, each returning false on a cell holding `val`. -/
def isValidAssignment (g : Grid) (row col : Idx) (val : Int) : Bool :=
  if val = -1 then false
  else if (colCells col).any (fun p => decide ((cellAt g p.1 p.2).nVal = val)) then false
  else if (rowCells row).any (fun p => decide ((cellAt g p.1 p.2).nVal = val)) then false
  else if (boxCells row col).any (fun p => decide ((cellAt g p.1 p.2).nVal = val)) then false
  else true

/-- One of the inner loops of `setInitialCellConstraints` for the cell `(i, j)`: every
non-empty cell of `src` has its value marked as a constraint on `(i, j)`. -/
def constrainFrom (i j : Idx) (g : Grid) (src : List (Idx × Idx)) : Grid :=
  src.foldl (fun g p => if (cellAt g p.1 p.2).nVal ≠ 0 then markCell g i j (cellAt g p.1 p.2).nVal else g) g

/-- The body of the double loop of `setInitialCellConstraints`. -/
def initCell (g : Grid) (p : Idx × Idx) : Grid :=
  if (cellAt g p.1 p.2).nVal = 0 then
    constrainFrom p.1 p.2
      (constrainFrom p.1 p.2 (constrainFrom p.1 p.2 g (rowCells p.1)) (colCells p.2))
      (boxCells p.1 p.2)
  else g

/-- The method `setInitialCellConstraints`: the double loop over all cells. -/
def setInitialCellConstraints (g : Grid) : Grid := scanOrder.foldl initCell g

/-- The grid the constructor builds from the 81 parsed integers before it calls
`setInitialCellConstraints`: `m_grid[i][j] = Cell(vals i j)`. -/
def mkGrid (vals : Idx → Idx → Int) : Grid :=
  Mathlib.Vector.ofFn fun i => Mathlib.Vector.ofFn fun j => Cell.ofVal (vals i j)

/-- The grid of a constructed `SudokuPuzzle`. -/
def loadGrid (vals : Idx → Idx → Int) : Grid := setInitialCellConstraints (mkGrid vals)

/-- The loop body of `propogateConstraint` at cell `(r, c)`: mark `val`, then if the cell
is empty with 8 or more constraints assign its last remaining value when that is a valid
assignment, else stop with `false`. -/
def propStep (val : Int) (g : Grid) (r c : Idx) : Bool × Grid :=
  let g1 := markCell g r c val
  if (cellAt g1 r c).nVal = 0 ∧ (cellAt g1 r c).nConstraintCount ≥ 8 then
    if isValidAssignment g1 r c (cellAt g1 r c).getLastRemainingValue then
      (true, setVal g1 r c (cellAt g1 r c).getLastRemainingValue)
    else (false, g1)
  else (true, g1)

/-- A loop of `propogateConstraint` over the cells `ps`, with its early `return false`. -/
def propLoop (val : Int) : List (Idx × Idx) → Grid → Bool × Grid
  | [], g => (true, g)
  | p :: ps, g =>
    match propStep val g p.1 p.2 with
    | (true, g1) => propLoop val ps g1
    | (false, g1) => (false, g1)

/-- The method `propogateConstraint(row, col, val)`: the column loop, the row loop, the box loop.
The grid is returned in both cases (on `false` it is the half-updated grid). -/
def propogateConstraint (g : Grid) (row col : Idx) (val : Int) : Bool × Grid :=
  match propLoop val (colCells col) g with
  | (false, g1) => (false, g1)
  | (true, g1) =>
    match propLoop val (rowCells row) g1 with
    | (false, g2) => (false, g2)
    | (true, g2) => propLoop val (boxCells row col) g2

/-- One loop of `copyUnit`: `to[p] = from[p]` for each `p` of `ps`. -/
def copyCells (src : Grid) (ps : List (Idx × Idx)) (dst : Grid) : Grid :=
  ps.foldl (fun t p => setCell t p.1 p.2 (cellAt src p.1 p.2)) dst

/-- The method `copyUnit(row, col, from, to)`; the result is the new content of `to`. -/
def copyUnit (row col : Idx) (src dst : Grid) : Grid :=
  copyCells src (boxCells row col) (copyCells src (rowCells row) (copyCells src (colCells col) dst))

/-- The local `Cell tempGridCopy[9][9]`: 81 default-constructed cells. -/
def freshGrid : Grid := Mathlib.Vector.replicate 9 (Mathlib.Vector.replicate 9 Cell.fresh)

/-- The `for (val = 1; val <= 9; val++)` loop of `solveSudoku` for the branch cell
`(nRow, nCol)`, over the remaining digits `k + 1` for `k` in `ks`; `again` is the
recursive call `solveSudoku()` (`none` = that call ran out of fuel). -/
def solveLoop (again : Grid → Option (Bool × Grid)) (nRow nCol : Idx) :
    List Idx → Grid → Option (Bool × Grid)
  | [], g => some (false, g)
  | k :: ks, g =>
    if (cellAt g nRow nCol).constraintsOnCell.get k = -1 then solveLoop again nRow nCol ks g
    else if isValidAssignment g nRow nCol ((k.val : Int) + 1) then
      let tempGridCopy := copyUnit nRow nCol g freshGrid
      match propogateConstraint (setVal g nRow nCol ((k.val : Int) + 1)) nRow nCol
          ((k.val : Int) + 1) with
      | (true, g2) =>
        match again g2 with
        | none => none
        | some (true, g3) => some (true, g3)
        | some (false, g3) => solveLoop again nRow nCol ks (copyUnit nRow nCol tempGridCopy g3)
      | (false, g2) => solveLoop again nRow nCol ks (copyUnit nRow nCol tempGridCopy g2)
    else solveLoop again nRow nCol ks g

/-- The method `solveSudoku()` with a bound on the recursion depth: `none` when the bound is
exhausted, else the returned boolean and the grid left behind. -/
def solveSudoku : Nat → Grid → Option (Bool × Grid)
  | 0, _ => none
  | fuel + 1, g =>
    match getNextEmptyCellByConstraintCount g with
    | none => some (true, g)
    | some (nRow, nCol) => solveLoop (solveSudoku fuel) nRow nCol idx9 g

/-- The number of empty cells (value 0) of a grid. -/
def emptyCount (g : Grid) : Nat := scanOrder.countP fun p => decide ((cellAt g p.1 p.2).nVal = 0)

/-- The method `doSolve()`: calls `solveSudoku()`.  A 9x9 grid has at most 81 empty cells, so the
depth bound 82 is never reached (`solveSudoku_total`). -/
def doSolve (g : Grid) : Option (Bool × Grid) := solveSudoku 82 g

/-! ## The program with a record of the calls of `solveSudoku`

The same loop and the same recursion as `solveLoop` and `solveSudoku`, returning in
addition the list of the grids on which `solveSudoku` was entered, in call order.
Nothing is decided from the list. -/

/-- The digit loop of `solveSudoku`, also returning the grids on which the recursive
calls made by the loop entered `solveSudoku`. -/
def solveLoopLog (again : Grid → Option (Bool × Grid × List Grid)) (nRow nCol : Idx) :
    List Idx → Grid → Option (Bool × Grid × List Grid)
  | [], g => some (false, g, [])
  | k :: ks, g =>
    if (cellAt g nRow nCol).constraintsOnCell.get k = -1 then solveLoopLog again nRow nCol ks g
    else if isValidAssignment g nRow nCol ((k.val : Int) + 1) then
      let tempGridCopy := copyUnit nRow nCol g freshGrid
      match propogateConstraint (setVal g nRow nCol ((k.val : Int) + 1)) nRow nCol
          ((k.val : Int) + 1) with
      | (true, g2) =>
        match again g2 with
        | none => none
        | some (true, g3, log) => some (true, g3, log)
        | some (false, g3, log) =>
          match solveLoopLog again nRow nCol ks (copyUnit nRow nCol tempGridCopy g3) with
          | none => none
          | some (b, g4, log2) => some (b, g4, log ++ log2)
      | (false, g2) => solveLoopLog again nRow nCol ks (copyUnit nRow nCol tempGridCopy g2)
    else solveLoopLog again nRow nCol ks g

/-- The method `solveSudoku()` with the record of the grids on which it was entered: the
grid of this call first, then those of the calls below it. -/
def solveSudokuLog : Nat → Grid → Option (Bool × Grid × List Grid)
  | 0, _ => none
  | fuel + 1, g =>
    match getNextEmptyCellByConstraintCount g with
    | none => some (true, g, [g])
    | some (nRow, nCol) =>
      match solveLoopLog (solveSudokuLog fuel) nRow nCol idx9 g with
      | none => none
      | some (b, g2, log) => some (b, g2, g :: log)

/-- The method `doSolve()` with the record of the calls of `solveSudoku`. -/
def doSolveLog (g : Grid) : Option (Bool × Grid × List Grid) := solveSudokuLog 82 g

/-- Dropping the record from a result. -/
def dropLog (res : Option (Bool × Grid × List Grid)) : Option (Bool × Grid) :=
  match res with
  | none => none
  | some (b, g, _) => some (b, g)

/-! ## The program with `int` indices and checked array accesses

A second rendering of the same methods in which every position is a pair of `int`s, as in
the source, and every access `m_grid[i][j]` or `constraintsOnCell[val - 1]` checks its
index: the result is `none` (for the solver: `Outcome.fault`) as soon as an index is out
of range.  The operator `%` is only applied to values 0..8, where the C++ remainder and
`Int.emod` agree. -/

/-- The loop range `0, 1, ..., 8` as `int`s. -/
def int9 : List Int := [0, 1, 2, 3, 4, 5, 6, 7, 8]

/-- The loop range `0, 1, 2` as `int`s. -/
def int3 : List Int := [0, 1, 2]

/-- The loop range `val = 1, ..., 9` of `solveSudoku`. -/
def digits : List Int := [1, 2, 3, 4, 5, 6, 7, 8, 9]

/-- An index of an array of 9, when the `int` is in range 0..8. -/
def gridIndex (i : Int) : Option Idx :=
  if h : 0 ≤ i ∧ i ≤ 8 then some ⟨i.toNat, by omega⟩ else none

/-- The index `val - 1` into `constraintsOnCell`, when it is in range. -/
def flagIndex (val : Int) : Option Idx := gridIndex (val - 1)

/-- The read `m_grid[i][j]`. -/
def cellRaw (g : Grid) (i j : Int) : Option Cell :=
  match gridIndex i, gridIndex j with
  | some r, some c => some (cellAt g r c)
  | _, _ => none

/-- The write `m_grid[i][j] = x`. -/
def setCellRaw (g : Grid) (i j : Int) (x : Cell) : Option Grid :=
  match gridIndex i, gridIndex j with
  | some r, some c => some (setCell g r c x)
  | _, _ => none

/-- The write `m_grid[i][j].nVal = v`. -/
def setValRaw (g : Grid) (i j : Int) (v : Int) : Option Grid :=
  match gridIndex i, gridIndex j with
  | some r, some c => some (setVal g r c v)
  | _, _ => none

/-- The method `Cell::setConstraint(constraint)` with the index `constraint - 1` checked. -/
def Cell.setConstraintRaw (c : Cell) (constraint : Int) : Option Cell :=
  match flagIndex constraint with
  | none => none
  | some k =>
    if c.constraintsOnCell.get k = 0 then
      some { nVal := c.nVal
             nConstraintCount := c.nConstraintCount + 1
             constraintsOnCell := c.constraintsOnCell.set k (-1) }
    else some c

/-- The call `m_grid[i][j].setConstraint(d)`. -/
def markRaw (g : Grid) (i j : Int) (d : Int) : Option Grid :=
  match cellRaw g i j with
  | none => none
  | some c =>
    match c.setConstraintRaw d with
    | none => none
    | some x => setCellRaw g i j x

/-- The positions `[i][col]`, `i = 0..8`. -/
def colCellsRaw (col : Int) : List (Int × Int) := int9.map fun i => (i, col)

/-- The positions `[row][j]`, `j = 0..8`. -/
def rowCellsRaw (row : Int) : List (Int × Int) := int9.map fun j => (row, j)

/-- The positions `[row - (row % 3) + i][col - (col % 3) + j]`, `i, j = 0..2`. -/
def boxCellsRaw (row col : Int) : List (Int × Int) :=
  int3.flatMap fun i => int3.map fun j => (row - row % 3 + i, col - col % 3 + j)

/-- The positions of the double loop `for i`, `for j`. -/
def scanOrderRaw : List (Int × Int) := int9.flatMap fun i => int9.map fun j => (i, j)

/-- A loop of `isValidAssignment` over the positions `ps`: `some true` when a cell holding
`val` is met. -/
def anyValRaw (g : Grid) (val : Int) : List (Int × Int) → Option Bool
  | [] => some false
  | p :: ps =>
    match cellRaw g p.1 p.2 with
    | none => none
    | some c => if c.nVal = val then some true else anyValRaw g val ps

/-- The method `isValidAssignment(row, col, val)` with checked accesses. -/
def isValidAssignmentRaw (g : Grid) (row col val : Int) : Option Bool :=
  if val = -1 then some false
  else
    match anyValRaw g val (colCellsRaw col) with
    | none => none
    | some true => some false
    | some false =>
      match anyValRaw g val (rowCellsRaw row) with
      | none => none
      | some true => some false
      | some false =>
        match anyValRaw g val (boxCellsRaw row col) with
        | none => none
        | some true => some false
        | some false => some true

/-- An inner loop of `setInitialCellConstraints` for the cell `(i, j)`, checked. -/
def constrainFromRaw (i j : Int) : List (Int × Int) → Grid → Option Grid
  | [], g => some g
  | p :: src, g =>
    match cellRaw g p.1 p.2 with
    | none => none
    | some cp =>
      if cp.nVal ≠ 0 then
        match markRaw g i j cp.nVal with
        | none => none
        | some g1 => constrainFromRaw i j src g1
      else constrainFromRaw i j src g

/-- The body of the double loop of `setInitialCellConstraints`, checked. -/
def initCellRaw (g : Grid) (p : Int × Int) : Option Grid :=
  match cellRaw g p.1 p.2 with
  | none => none
  | some c =>
    if c.nVal = 0 then
      match constrainFromRaw p.1 p.2 (rowCellsRaw p.1) g with
      | none => none
      | some g1 =>
        match constrainFromRaw p.1 p.2 (colCellsRaw p.2) g1 with
        | none => none
        | some g2 => constrainFromRaw p.1 p.2 (boxCellsRaw p.1 p.2) g2
    else some g

/-- The double loop of `setInitialCellConstraints` over the positions `ps`, checked. -/
def initLoopRaw : List (Int × Int) → Grid → Option Grid
  | [], g => some g
  | p :: ps, g =>
    match initCellRaw g p with
    | none => none
    | some g1 => initLoopRaw ps g1

/-- The method `setInitialCellConstraints` with checked accesses. -/
def setInitialCellConstraintsRaw (g : Grid) : Option Grid := initLoopRaw scanOrderRaw g

/-- The loop body of `propogateConstraint` at position `(r, c)`, checked. -/
def propStepRaw (val : Int) (g : Grid) (r c : Int) : Option (Bool × Grid) :=
  match markRaw g r c val with
  | none => none
  | some g1 =>
    match cellRaw g1 r c with
    | none => none
    | some c1 =>
      if c1.nVal = 0 ∧ c1.nConstraintCount ≥ 8 then
        match isValidAssignmentRaw g1 r c c1.getLastRemainingValue with
        | none => none
        | some true =>
          match setValRaw g1 r c c1.getLastRemainingValue with
          | none => none
          | some g2 => some (true, g2)
        | some false => some (false, g1)
      else some (true, g1)

/-- A loop of `propogateConstraint` over the positions `ps`, checked. -/
def propLoopRaw (val : Int) : List (Int × Int) → Grid → Option (Bool × Grid)
  | [], g => some (true, g)
  | p :: ps, g =>
    match propStepRaw val g p.1 p.2 with
    | none => none
    | some (true, g1) => propLoopRaw val ps g1
    | some (false, g1) => some (false, g1)

/-- The method `propogateConstraint(row, col, val)` with checked accesses. -/
def propogateConstraintRaw (g : Grid) (row col val : Int) : Option (Bool × Grid) :=
  match propLoopRaw val (colCellsRaw col) g with
  | none => none
  | some (false, g1) => some (false, g1)
  | some (true, g1) =>
    match propLoopRaw val (rowCellsRaw row) g1 with
    | none => none
    | some (false, g2) => some (false, g2)
    | some (true, g2) => propLoopRaw val (boxCellsRaw row col) g2

/-- One loop of `copyUnit` over the positions `ps`, checked. -/
def copyCellsRaw (src : Grid) : List (Int × Int) → Grid → Option Grid
  | [], dst => some dst
  | p :: ps, dst =>
    match cellRaw src p.1 p.2 with
    | none => none
    | some x =>
      match setCellRaw dst p.1 p.2 x with
      | none => none
      | some dst1 => copyCellsRaw src ps dst1

/-- The method `copyUnit(row, col, from, to)` with checked accesses. -/
def copyUnitRaw (row col : Int) (src dst : Grid) : Option Grid :=
  match copyCellsRaw src (colCellsRaw col) dst with
  | none => none
  | some d1 =>
    match copyCellsRaw src (rowCellsRaw row) d1 with
    | none => none
    | some d2 => copyCellsRaw src (boxCellsRaw row col) d2

/-- The scan of `getNextEmptyCellByConstraintCount` over the positions `ps`, checked; the
state is `(row, col, nMostConstrained)`. -/
def nextLoopRaw (g : Grid) : List (Int × Int) → Int × Int × Int → Option (Int × Int × Int)
  | [], st => some st
  | p :: ps, st =>
    match cellRaw g p.1 p.2 with
    | none => none
    | some c =>
      if c.nVal = 0 ∧ c.nConstraintCount > st.2.2 then
        nextLoopRaw g ps (p.1, p.2, c.nConstraintCount)
      else nextLoopRaw g ps st

/-- The method `getNextEmptyCellByConstraintCount(row, col)` with checked accesses: the
returned boolean and the final `row` and `col`, which start as `-1`. -/
def getNextEmptyCellByConstraintCountRaw (g : Grid) : Option (Bool × Int × Int) :=
  match nextLoopRaw g scanOrderRaw (-1, -1, -1) with
  | none => none
  | some st => some (decide (st.1 ≠ -1), st.1, st.2.1)

/-- How a run of the checked solver ends: the depth bound is exhausted, an index is out of
range, or `solveSudoku` returns `b` with grid `g`. -/
inductive Outcome where
  | timeout : Outcome
  | fault : Outcome
  | done (b : Bool) (g : Grid) : Outcome

/-- The digit loop of `solveSudoku` for the branch cell `(nRow, nCol)`, checked. -/
def solveLoopRaw (again : Grid → Outcome) (nRow nCol : Int) : List Int → Grid → Outcome
  | [], g => Outcome.done false g
  | val :: rest, g =>
    match cellRaw g nRow nCol with
    | none => Outcome.fault
    | some c =>
      match flagIndex val with
      | none => Outcome.fault
      | some k =>
        if c.constraintsOnCell.get k = -1 then solveLoopRaw again nRow nCol rest g
        else
          match isValidAssignmentRaw g nRow nCol val with
          | none => Outcome.fault
          | some false => solveLoopRaw again nRow nCol rest g
          | some true =>
            match copyUnitRaw nRow nCol g freshGrid with
            | none => Outcome.fault
            | some tempGridCopy =>
              match setValRaw g nRow nCol val with
              | none => Outcome.fault
              | some g1 =>
                match propogateConstraintRaw g1 nRow nCol val with
                | none => Outcome.fault
                | some (true, g2) =>
                  match again g2 with
                  | Outcome.timeout => Outcome.timeout
                  | Outcome.fault => Outcome.fault
                  | Outcome.done true g3 => Outcome.done true g3
                  | Outcome.done false g3 =>
                    match copyUnitRaw nRow nCol tempGridCopy g3 with
                    | none => Outcome.fault
                    | some g4 => solveLoopRaw again nRow nCol rest g4
                | some (false, g2) =>
                  match copyUnitRaw nRow nCol tempGridCopy g2 with
                  | none => Outcome.fault
                  | some g4 => solveLoopRaw again nRow nCol rest g4

/-- The method `solveSudoku()` with checked accesses and a bound on the recursion depth. -/
def solveSudokuRaw : Nat → Grid → Outcome
  | 0, _ => Outcome.timeout
  | fuel + 1, g =>
    match getNextEmptyCellByConstraintCountRaw g with
    | none => Outcome.fault
    | some (false, _, _) => Outcome.done true g
    | some (true, nRow, nCol) => solveLoopRaw (solveSudokuRaw fuel) nRow nCol digits g

/-- The method `doSolve()` with checked accesses. -/
def doSolveRaw (g : Grid) : Outcome := solveSudokuRaw 82 g

/-- The outcome that corresponds to a result of the unchecked solver. -/
def toOutcome (res : Option (Bool × Grid)) : Outcome :=
  match res with
  | none => Outcome.timeout
  | some (b, g) => Outcome.done b g

/-- A position as a pair of `int`s. -/
def posInt (p : Idx × Idx) : Int × Int := ((p.1.val : Int), (p.2.val : Int))

/-! ## Notions used to state the properties -/

/-- The unit of `(row, col)` as the loops of `propogateConstraint` and `copyUnit` visit it:
the column, then the row, then the 3x3 box. -/
def unitCells (row col : Idx) : List (Idx × Idx) :=
  colCells col ++ rowCells row ++ boxCells row col

/-- Cell `(i, j)` lies in the unit of `(r, c)`: same column, same row or same 3x3 box. -/
def peer (r c i j : Idx) : Prop :=
  j = c ∨ i = r ∨ (i.val / 3 = r.val / 3 ∧ j.val / 3 = c.val / 3)

instance (r c i j : Idx) : Decidable (peer r c i j) := by
  unfold peer; infer_instance

/-- Row-major order on positions: the order in which the double loops visit the grid. -/
def rowMajorLt (p q : Idx × Idx) : Prop := p.1 < q.1 ∨ (p.1 = q.1 ∧ p.2 < q.2)

instance (p q : Idx × Idx) : Decidable (rowMajorLt p q) := by
  unfold rowMajorLt; infer_instance

/-- The attempt with digit `k + 1` at the branch cell `(r, c)` of grid `g` does not succeed:
the digit is constrained, or not a valid assignment, or propagation fails, or the
recursive call fails (leaving the grid it was given). -/
def attemptFails (again : Grid → Option (Bool × Grid)) (g : Grid) (r c k : Idx) : Prop :=
  (cellAt g r c).constraintsOnCell.get k = -1 ∨
  isValidAssignment g r c ((k.val : Int) + 1) = false ∨
  (propogateConstraint (setVal g r c ((k.val : Int) + 1)) r c ((k.val : Int) + 1)).1 = false ∨
  again (propogateConstraint (setVal g r c ((k.val : Int) + 1)) r c ((k.val : Int) + 1)).2
    = some (false, (propogateConstraint (setVal g r c ((k.val : Int) + 1)) r c
        ((k.val : Int) + 1)).2)

/-- The attempt with digit `k + 1` at the branch cell `(r, c)` of grid `g` succeeds and
leaves the grid `g3`. -/
def attemptSucceeds (again : Grid → Option (Bool × Grid)) (g : Grid) (r c k : Idx)
    (g3 : Grid) : Prop :=
  (cellAt g r c).constraintsOnCell.get k ≠ -1 ∧
  isValidAssignment g r c ((k.val : Int) + 1) = true ∧
  (propogateConstraint (setVal g r c ((k.val : Int) + 1)) r c ((k.val : Int) + 1)).1 = true ∧
  again (propogateConstraint (setVal g r c ((k.val : Int) + 1)) r c ((k.val : Int) + 1)).2
    = some (true, g3)

/-- The two elementary changes the solver makes to a grid, each with the condition under
which the code makes it: writing a digit 1..9 that passed `isValidAssignment` into an
empty cell, and marking on a cell a digit 1..9 that some cell of its unit holds. -/
inductive Move : Grid → Grid → Prop
  | assign (g : Grid) (r c : Idx) (v : Int) :
      (cellAt g r c).nVal = 0 → isValidAssignment g r c v = true → 1 ≤ v → v ≤ 9 →
      Move g (setVal g r c v)
  | mark (g : Grid) (r c : Idx) (d : Int) (i j : Idx) :
      peer r c i j → (cellAt g i j).nVal = d → 1 ≤ d → d ≤ 9 →
      Move g (markCell g r c d)

/-- Grid `g2` is obtained from `g1` by a sequence of elementary changes. -/
def Reach (g1 g2 : Grid) : Prop := Relation.ReflTransGen Move g1 g2

/-- The values of a grid, cell by cell. -/
def gridVals (g : Grid) : Idx → Idx → Int := fun i j => (cellAt g i j).nVal

/-- Cell `a` (0..2) of the block `b` (0..2) of rows or columns: index `3 * b + a`. -/
def boxCell (b a : Fin 3) : Idx :=
  ⟨3 * b.val + a.val, by have := b.isLt; have := a.isLt; omega⟩

/-- A solved Sudoku: every row, every column and every 3x3 box contains each of the
digits 1..9 exactly once. -/
def isSolution (s : Idx → Idx → Int) : Prop :=
  ∀ d : Int, 1 ≤ d → d ≤ 9 →
    (∀ r : Idx, ∃! c : Idx, s r c = d) ∧
    (∀ c : Idx, ∃! r : Idx, s r c = d) ∧
    (∀ br bc : Fin 3, ∃! ab : Fin 3 × Fin 3, s (boxCell br ab.1) (boxCell bc ab.2) = d)

/-- Two different cells of a common row, column or box hold the same non-zero value. -/
def conflict (s : Idx → Idx → Int) (i j i2 j2 : Idx) : Prop :=
  ¬ (i = i2 ∧ j = j2) ∧ peer i j i2 j2 ∧ s i j ≠ 0 ∧ s i j = s i2 j2

instance (s : Idx → Idx → Int) (i j i2 j2 : Idx) : Decidable (conflict s i j i2 j2) := by
  unfold conflict; infer_instance

/-- No two non-empty cells sharing a row, column or box hold the same value. -/
def conflictFree (s : Idx → Idx → Int) : Prop :=
  ∀ i j i2 j2, ¬ conflict s i j i2 j2

instance (s : Idx → Idx → Int) : Decidable (conflictFree s) := by
  unfold conflictFree; infer_instance

/-- The loader contract: 81 integers in 0..9. -/
def wellFormed (vals : Idx → Idx → Int) : Prop := ∀ i j, 0 ≤ vals i j ∧ vals i j ≤ 9

instance (vals : Idx → Idx → Int) : Decidable (wellFormed vals) := by
  unfold wellFormed; infer_instance

/-- Grid `g2` comes from `g1` by elementary changes that left every value as it was. -/
def MarkedFrom (g1 g2 : Grid) : Prop :=
  Reach g1 g2 ∧ ∀ i j, (cellAt g2 i j).nVal = (cellAt g1 i j).nVal

/-- The number of constraint flags of a cell that are set (`-1`). -/
def numBlocked (c : Cell) : Nat :=
  idx9.countP fun k => decide (c.constraintsOnCell.get k = -1)

/-- Every flag of every cell is `0` or `-1`, and every constraint count is the number of
flags that are set. -/
def countsExact (g : Grid) : Prop :=
  ∀ i j, (∀ k, (cellAt g i j).constraintsOnCell.get k = 0 ∨
      (cellAt g i j).constraintsOnCell.get k = -1) ∧
    (cellAt g i j).nConstraintCount = (numBlocked (cellAt g i j) : Int)

/-- Every digit constrained on a cell is the value of some cell of that cell's unit. -/
def justified (g : Grid) : Prop :=
  ∀ i j k, (cellAt g i j).constraintsOnCell.get k = -1 →
    ∃ i2 j2, peer i j i2 j2 ∧ (cellAt g i2 j2).nVal = (k.val : Int) + 1

/-- The assignment `s` agrees with every non-empty cell of `g`. -/
def agrees (s : Idx → Idx → Int) (g : Grid) : Prop :=
  ∀ i j, (cellAt g i j).nVal ≠ 0 → s i j = (cellAt g i j).nVal

/-- Any two different cells of a common row, column or box hold different values. -/
def distinctPeers (s : Idx → Idx → Int) : Prop :=
  ∀ i j i2 j2, ¬ (i = i2 ∧ j = j2) → peer i j i2 j2 → s i j ≠ s i2 j2

/-- Cell `(i, j)` stops the propagation: it is empty, has 8 or more constraints, and its
last remaining value is not a valid assignment (none is left, or the value is already in
the unit of the cell). -/
def stuck (g : Grid) (i j : Idx) : Prop :=
  (cellAt g i j).nVal = 0 ∧ (cellAt g i j).nConstraintCount ≥ 8 ∧
    isValidAssignment g i j (cellAt g i j).getLastRemainingValue = false

instance (g : Grid) (i j : Idx) : Decidable (stuck g i j) := by
  unfold stuck; infer_instance

/-- Cell `(i, j)` has been dealt with by the propagation of digit `k + 1`: the digit is
marked on it, and it is not an empty cell with 8 or more constraints. -/
def settled (k : Idx) (g : Grid) (i j : Idx) : Prop :=
  (cellAt g i j).constraintsOnCell.get k ≠ 0 ∧
    ¬ ((cellAt g i j).nVal = 0 ∧ (cellAt g i j).nConstraintCount ≥ 8)

/-- Cell `(i, j)` holds the value the propagation of digit `k + 1` forced on it: the digit
`k + 1` is marked, the cell holds a digit 1..9 which is its last remaining value, it has 8
or more constraints, and no other cell of its unit holds the same value. -/
def forcedCell (k : Idx) (g : Grid) (i j : Idx) : Prop :=
  (cellAt g i j).constraintsOnCell.get k ≠ 0 ∧
  1 ≤ (cellAt g i j).nVal ∧ (cellAt g i j).nVal ≤ 9 ∧
  (cellAt g i j).nVal = (cellAt g i j).getLastRemainingValue ∧
  (cellAt g i j).nConstraintCount ≥ 8 ∧
  ∀ i2 j2, peer i j i2 j2 → ¬ (i2 = i ∧ j2 = j) → (cellAt g i2 j2).nVal ≠ (cellAt g i j).nVal

/-! ## Sample inputs -/

/-- The value function of a grid written as a list of rows (0 where the list is short). -/
def valsOf (rows : List (List Int)) : Idx → Idx → Int :=
  fun i j => (rows.getD i.val []).getD j.val 0

/-- A puzzle with three empty cells and a solution. -/
def puzzleVals : Idx → Idx → Int := valsOf
  [[0, 3, 4, 6, 7, 8, 9, 1, 2],
   [6, 7, 2, 1, 9, 5, 3, 4, 8],
   [1, 9, 8, 3, 4, 2, 5, 6, 7],
   [8, 5, 9, 7, 6, 1, 4, 2, 3],
   [4, 2, 6, 8, 0, 3, 7, 9, 1],
   [7, 1, 3, 9, 2, 4, 8, 5, 6],
   [9, 6, 1, 5, 3, 7, 2, 8, 4],
   [2, 8, 7, 4, 1, 9, 6, 3, 5],
   [3, 4, 5, 2, 8, 6, 1, 7, 0]]

/-- A grid without solution: the one empty cell, (0, 0), sees all nine digits. -/
def deadVals : Idx → Idx → Int := valsOf
  [[0, 5, 4, 6, 7, 8, 9, 1, 2],
   [6, 7, 2, 1, 9, 5, 3, 4, 8],
   [1, 9, 8, 3, 4, 2, 5, 6, 7],
   [8, 5, 9, 7, 6, 1, 4, 2, 3],
   [4, 2, 6, 8, 5, 3, 7, 9, 1],
   [7, 1, 3, 9, 2, 4, 8, 5, 6],
   [9, 6, 1, 5, 3, 7, 2, 8, 4],
   [2, 8, 7, 4, 1, 9, 6, 3, 5],
   [3, 4, 5, 2, 8, 6, 1, 7, 9]]

/-- The grid whose only clues are two 5s in row 0. -/
def twoFives : Idx → Idx → Int :=
  fun i j => if i = 0 ∧ (j = 0 ∨ j = 1) then 5 else 0

/-- A full grid with two 3s in row 0 (and in box 0), except for the empty cell (8, 8). -/
def repeatVals : Idx → Idx → Int := valsOf
  [[3, 3, 4, 6, 7, 8, 9, 1, 2],
   [6, 7, 2, 1, 9, 5, 3, 4, 8],
   [1, 9, 8, 3, 4, 2, 5, 6, 7],
   [8, 5, 9, 7, 6, 1, 4, 2, 3],
   [4, 2, 6, 8, 5, 3, 7, 9, 1],
   [7, 1, 3, 9, 2, 4, 8, 5, 6],
   [9, 6, 1, 5, 3, 7, 2, 8, 4],
   [2, 8, 7, 4, 1, 9, 6, 3, 5],
   [3, 4, 5, 2, 8, 6, 1, 7, 0]]

/-- A grid in which the three empty cells of row 0 can only take 8 or 9. -/
def triVals : Idx → Idx → Int := valsOf
  [[0, 0, 0, 1, 2, 3, 4, 5, 6],
   [7, 0, 0, 0, 0, 0, 0, 0, 0]]

/-- A grid in which the two empty cells of row 0 can only take 8 or 9. -/
def pairVals : Idx → Idx → Int := valsOf
  [[0, 0, 7, 1, 2, 3, 4, 5, 6]]

/-! ## Basic facts about the grid and the loop ranges -/


theorem cellAt_setCell (g : Grid) (r c : Idx) (x : Cell) (i j : Idx) :
    cellAt (setCell g r c x) i j = if i = r ∧ j = c then x else cellAt g i j := by
  unfold cellAt setCell
  rw [Mathlib.Vector.get_set_eq_if]
  by_cases hi : r = i
  · subst hi
    simp only [if_true, true_and]
    rw [Mathlib.Vector.get_set_eq_if]
    by_cases hj : c = j
    · subst hj; simp
    · have : ¬ j = c := fun h => hj h.symm
      simp [hj, this]
  · have : ¬ i = r := fun h => hi h.symm
    simp [hi, this]

theorem grid_ext {g h : Grid} (hgh : ∀ i j, cellAt g i j = cellAt h i j) : g = h := by
  apply Mathlib.Vector.ext
  intro i
  apply Mathlib.Vector.ext
  intro j
  exact hgh i j

theorem mem_idx9 (i : Idx) : i ∈ idx9 := by
  fin_cases i <;> simp [idx9]

theorem mem_idx3 (i : Fin 3) : i ∈ idx3 := by
  fin_cases i <;> simp [idx3]

theorem mem_colCells (col : Idx) (p : Idx × Idx) : p ∈ colCells col ↔ p.2 = col := by
  unfold colCells
  constructor
  · intro h
    obtain ⟨i, _, rfl⟩ := List.mem_map.1 h
    rfl
  · intro h
    exact List.mem_map.2 ⟨p.1, mem_idx9 _, by rw [← h]⟩

theorem mem_rowCells (row : Idx) (p : Idx × Idx) : p ∈ rowCells row ↔ p.1 = row := by
  unfold rowCells
  constructor
  · intro h
    obtain ⟨i, _, rfl⟩ := List.mem_map.1 h
    rfl
  · intro h
    exact List.mem_map.2 ⟨p.2, mem_idx9 _, by rw [← h]⟩

theorem mem_scanOrder (p : Idx × Idx) : p ∈ scanOrder := by
  unfold scanOrder
  rw [List.mem_flatMap]
  exact ⟨p.1, mem_idx9 _, List.mem_map.2 ⟨p.2, mem_idx9 _, rfl⟩⟩

theorem mem_boxCells (row col : Idx) (p : Idx × Idx) :
    p ∈ boxCells row col ↔ p.1.val / 3 = row.val / 3 ∧ p.2.val / 3 = col.val / 3 := by
  unfold boxCells
  rw [List.mem_flatMap]
  constructor
  · rintro ⟨a, _, h⟩
    obtain ⟨b, _, rfl⟩ := List.mem_map.1 h
    have ha := a.isLt
    have hb := b.isLt
    have hr := row.isLt
    have hc := col.isLt
    simp only [boxIdx]
    constructor <;> omega
  · rintro ⟨h1, h2⟩
    have hp1 := p.1.isLt
    have hp2 := p.2.isLt
    have hr := row.isLt
    have hc := col.isLt
    refine ⟨⟨p.1.val % 3, Nat.mod_lt _ (by norm_num)⟩, mem_idx3 _, ?_⟩
    refine List.mem_map.2 ⟨⟨p.2.val % 3, Nat.mod_lt _ (by norm_num)⟩, mem_idx3 _, ?_⟩
    apply Prod.ext <;> apply Fin.ext <;> simp only [boxIdx] <;> omega

/-! ## The validity check -/

theorem mem_unitCells (row col : Idx) (p : Idx × Idx) :
    p ∈ unitCells row col ↔ peer row col p.1 p.2 := by
  unfold unitCells peer
  rw [List.mem_append, List.mem_append, mem_colCells, mem_rowCells, mem_boxCells]
  tauto

theorem peer_self (r c : Idx) : peer r c r c := Or.inl rfl

theorem peer_symm {r c i j : Idx} (h : peer r c i j) : peer i j r c := by
  unfold peer at *
  rcases h with h | h | ⟨h1, h2⟩
  · exact Or.inl h.symm
  · exact Or.inr (Or.inl h.symm)
  · exact Or.inr (Or.inr ⟨h1.symm, h2.symm⟩)

theorem any_nVal_eq_false (g : Grid) (v : Int) (ps : List (Idx × Idx)) :
    ps.any (fun p => decide ((cellAt g p.1 p.2).nVal = v)) = false ↔
      ∀ p ∈ ps, (cellAt g p.1 p.2).nVal ≠ v := by
  rw [← Bool.not_eq_true, List.any_eq_true]
  constructor
  · intro h p hp hv
    exact h ⟨p, hp, by simpa using hv⟩
  · rintro h ⟨p, hp, hv⟩
    exact h p hp (by simpa using hv)

theorem isValidAssignment_eq_true (g : Grid) (row col : Idx) (val : Int) :
    isValidAssignment g row col val = true ↔
      val ≠ -1 ∧ (∀ p ∈ colCells col, (cellAt g p.1 p.2).nVal ≠ val) ∧
        (∀ p ∈ rowCells row, (cellAt g p.1 p.2).nVal ≠ val) ∧
        (∀ p ∈ boxCells row col, (cellAt g p.1 p.2).nVal ≠ val) := by
  unfold isValidAssignment
  simp only [← any_nVal_eq_false]
  by_cases h0 : val = -1
  · simp [h0]
  · cases h1 : (colCells col).any (fun p => decide ((cellAt g p.1 p.2).nVal = val)) <;>
    cases h2 : (rowCells row).any (fun p => decide ((cellAt g p.1 p.2).nVal = val)) <;>
    cases h3 : (boxCells row col).any (fun p => decide ((cellAt g p.1 p.2).nVal = val)) <;>
    simp [h0]

theorem isValidAssignment_iff_peer (g : Grid) (row col : Idx) (val : Int) :
    isValidAssignment g row col val = true ↔
      val ≠ -1 ∧ ∀ i j, peer row col i j → (cellAt g i j).nVal ≠ val := by
  rw [isValidAssignment_eq_true]
  constructor
  · rintro ⟨h0, h1, h2, h3⟩
    refine ⟨h0, ?_⟩
    intro i j hp
    rcases hp with h | h | h
    · exact h1 (i, j) ((mem_colCells _ _).2 h)
    · exact h2 (i, j) ((mem_rowCells _ _).2 h)
    · exact h3 (i, j) ((mem_boxCells _ _ _).2 h)
  · rintro ⟨h0, h⟩
    refine ⟨h0, ?_, ?_, ?_⟩
    · intro p hp
      exact h p.1 p.2 (Or.inl ((mem_colCells _ _).1 hp))
    · intro p hp
      exact h p.1 p.2 (Or.inr (Or.inl ((mem_rowCells _ _).1 hp)))
    · intro p hp
      exact h p.1 p.2 (Or.inr (Or.inr ((mem_boxCells _ _ _).1 hp)))

theorem isValidAssignment_neg_one (g : Grid) (row col : Idx) :
    isValidAssignment g row col (-1) = false := by
  rw [← Bool.not_eq_true, isValidAssignment_iff_peer]
  rintro ⟨h, _⟩
  exact h rfl

/-! ## Selection of the branch cell -/

set_option maxRecDepth 100000 in
theorem scanOrder_sorted : scanOrder.Pairwise rowMajorLt := by
  decide

theorem nextStep_eq (g : Grid) (st : Option (Idx × Idx) × Int) (p : Idx × Idx) :
    nextStep g st p = if (cellAt g p.1 p.2).nVal = 0 ∧ (cellAt g p.1 p.2).nConstraintCount > st.2
      then (some p, (cellAt g p.1 p.2).nConstraintCount) else st := rfl

theorem nextScan_spec (g : Grid) (l : List (Idx × Idx)) :
    ((l.foldl (nextStep g) (none, -1)).1 = none ∧ (l.foldl (nextStep g) (none, -1)).2 = -1 ∧
        ∀ q ∈ l, (cellAt g q.1 q.2).nVal = 0 → (cellAt g q.1 q.2).nConstraintCount ≤ -1) ∨
    (∃ p l1 l2, l.foldl (nextStep g) (none, -1) = (some p, (cellAt g p.1 p.2).nConstraintCount) ∧
        l = l1 ++ p :: l2 ∧ (cellAt g p.1 p.2).nVal = 0 ∧
        -1 < (cellAt g p.1 p.2).nConstraintCount ∧
        (∀ q ∈ l1, (cellAt g q.1 q.2).nVal = 0 →
          (cellAt g q.1 q.2).nConstraintCount < (cellAt g p.1 p.2).nConstraintCount) ∧
        (∀ q ∈ l2, (cellAt g q.1 q.2).nVal = 0 →
          (cellAt g q.1 q.2).nConstraintCount ≤ (cellAt g p.1 p.2).nConstraintCount)) := by
  induction l using List.reverseRecOn with
  | nil => left; simp
  | append_singleton l a ih =>
    rw [List.foldl_append]
    simp only [List.foldl_cons, List.foldl_nil]
    rcases ih with ⟨h1, h2, h3⟩ | ⟨p, l1, l2, hst, hl, hp, hpc, hlt, hle⟩
    · by_cases ha : (cellAt g a.1 a.2).nVal = 0 ∧ (cellAt g a.1 a.2).nConstraintCount > -1
      · right
        refine ⟨a, l, [], ?_, rfl, ha.1, ha.2, ?_, by simp⟩
        · rw [nextStep_eq, h2, if_pos ha]
        · intro q hq hq0
          have := h3 q hq hq0
          omega
      · left
        have hs : nextStep g (l.foldl (nextStep g) (none, -1)) a = l.foldl (nextStep g) (none, -1) := by
          rw [nextStep_eq, h2, if_neg ha]
        rw [hs]
        refine ⟨h1, h2, ?_⟩
        intro q hq hq0
        rcases List.mem_append.1 hq with hq | hq
        · exact h3 q hq hq0
        · have : q = a := by simpa using hq
          subst this
          by_contra hc
          exact ha ⟨hq0, by omega⟩
    · right
      by_cases ha : (cellAt g a.1 a.2).nVal = 0 ∧
          (cellAt g a.1 a.2).nConstraintCount > (cellAt g p.1 p.2).nConstraintCount
      · refine ⟨a, l, [], ?_, rfl, ha.1, by omega, ?_, by simp⟩
        · rw [nextStep_eq, hst, if_pos ha]
        · intro q hq hq0
          rw [hl] at hq
          rcases List.mem_append.1 hq with hq | hq
          · have := hlt q hq hq0; omega
          · rcases List.mem_cons.1 hq with hq | hq
            · subst hq; omega
            · have := hle q hq hq0; omega
      · refine ⟨p, l1, l2 ++ [a], ?_, by rw [hl]; simp, hp, hpc, hlt, ?_⟩
        · rw [nextStep_eq, hst, if_neg ha]
        · intro q hq hq0
          rcases List.mem_append.1 hq with hq | hq
          · exact hle q hq hq0
          · have : q = a := by simpa using hq
            subst this
            by_contra hc
            exact ha ⟨hq0, by omega⟩


theorem getNext_none_iff (g : Grid) :
    getNextEmptyCellByConstraintCount g = none ↔
      ∀ i j, (cellAt g i j).nVal = 0 → (cellAt g i j).nConstraintCount ≤ -1 := by
  unfold getNextEmptyCellByConstraintCount
  rcases nextScan_spec g scanOrder with ⟨h1, _, h3⟩ | ⟨p, l1, l2, hst, hl, hp, hpc, hlt, _⟩
  · simp only [h1, true_iff]
    intro i j h
    exact h3 (i, j) (mem_scanOrder _) h
  · rw [hst]
    simp only [false_iff, reduceCtorEq]
    intro h
    have h0 := h p.1 p.2 hp
    omega

theorem getNext_some (g : Grid) (r c : Idx)
    (h : getNextEmptyCellByConstraintCount g = some (r, c)) :
    (cellAt g r c).nVal = 0 ∧ -1 < (cellAt g r c).nConstraintCount ∧
      (∀ i j, (cellAt g i j).nVal = 0 →
        (cellAt g i j).nConstraintCount ≤ (cellAt g r c).nConstraintCount) ∧
      (∀ i j, (cellAt g i j).nVal = 0 → rowMajorLt (i, j) (r, c) →
        (cellAt g i j).nConstraintCount < (cellAt g r c).nConstraintCount) := by
  unfold getNextEmptyCellByConstraintCount at h
  rcases nextScan_spec g scanOrder with ⟨h1, _, _⟩ | ⟨p, l1, l2, hst, hl, hp, hpc, hlt, hle⟩
  · rw [h1] at h; cases h
  · rw [hst] at h
    simp only [Option.some.injEq] at h
    subst h
    have hsorted := scanOrder_sorted
    rw [hl] at hsorted
    have hmem : ∀ q : Idx × Idx, q ∈ l1 ∨ q = (r, c) ∨ q ∈ l2 := by
      intro q
      have := mem_scanOrder q
      rw [hl] at this
      simpa [List.mem_append, List.mem_cons] using this
    refine ⟨hp, hpc, ?_, ?_⟩
    · intro i j h0
      rcases hmem (i, j) with hq | hq | hq
      · exact le_of_lt (hlt _ hq h0)
      · obtain ⟨rfl, rfl⟩ := Prod.mk.inj hq
        exact le_refl _
      · exact hle _ hq h0
    · intro i j h0 hlt2
      rcases hmem (i, j) with hq | hq | hq
      · exact hlt _ hq h0
      · obtain ⟨rfl, rfl⟩ := Prod.mk.inj hq
        unfold rowMajorLt at hlt2
        rcases hlt2 with h | ⟨_, h⟩ <;> exact absurd h (lt_irrefl _)
      · have h2 := (List.pairwise_cons.1 (List.pairwise_append.1 hsorted).2.1).1 (i, j) hq
        unfold rowMajorLt at hlt2 h2
        simp only at hlt2 h2
        rcases hlt2 with h | ⟨h, h'⟩ <;> rcases h2 with k | ⟨k, k'⟩
        · exact absurd (lt_trans h k) (lt_irrefl _)
        · rw [k] at h; exact absurd h (lt_irrefl _)
        · rw [h] at k; exact absurd k (lt_irrefl _)
        · exact absurd (lt_trans h' k') (lt_irrefl _)

/-! ## Frame properties: what each operation leaves alone -/

theorem cellAt_setVal (g : Grid) (r c : Idx) (v : Int) (i j : Idx) :
    cellAt (setVal g r c v) i j =
      if i = r ∧ j = c then
        { nVal := v, nConstraintCount := (cellAt g r c).nConstraintCount,
          constraintsOnCell := (cellAt g r c).constraintsOnCell }
      else cellAt g i j := by
  unfold setVal; rw [cellAt_setCell]

theorem cellAt_markCell (g : Grid) (r c : Idx) (d : Int) (i j : Idx) :
    cellAt (markCell g r c d) i j =
      if i = r ∧ j = c then (cellAt g r c).setConstraint d else cellAt g i j := by
  unfold markCell; rw [cellAt_setCell]

theorem copyCells_apply (src : Grid) (ps : List (Idx × Idx)) (dst : Grid) (i j : Idx) :
    cellAt (copyCells src ps dst) i j =
      if (i, j) ∈ ps then cellAt src i j else cellAt dst i j := by
  induction ps generalizing dst with
  | nil => simp [copyCells]
  | cons p ps ih =>
    have hstep : copyCells src (p :: ps) dst
        = copyCells src ps (setCell dst p.1 p.2 (cellAt src p.1 p.2)) := rfl
    rw [hstep, ih, cellAt_setCell]
    by_cases hmem : (i, j) ∈ ps
    · simp [hmem]
    · by_cases hp : (i, j) = p
      · subst hp; simp
      · have h1 : ¬ (i = p.1 ∧ j = p.2) := fun h => hp (Prod.ext h.1 h.2)
        simp [hmem, hp, h1]

theorem copyUnit_apply (row col : Idx) (src dst : Grid) (i j : Idx) :
    cellAt (copyUnit row col src dst) i j =
      if peer row col i j then cellAt src i j else cellAt dst i j := by
  unfold copyUnit
  rw [copyCells_apply, copyCells_apply, copyCells_apply]
  have hu := mem_unitCells row col (i, j)
  unfold unitCells at hu
  rw [List.mem_append, List.mem_append] at hu
  by_cases hp : peer row col i j
  · rw [if_pos hp]
    rcases hu.2 hp with (h | h) | h
    · by_cases hb : (i, j) ∈ boxCells row col
      · rw [if_pos hb]
      · rw [if_neg hb]
        by_cases hr : (i, j) ∈ rowCells row
        · rw [if_pos hr]
        · rw [if_neg hr, if_pos h]
    · by_cases hb : (i, j) ∈ boxCells row col
      · rw [if_pos hb]
      · rw [if_neg hb, if_pos h]
    · rw [if_pos h]
  · rw [if_neg hp]
    have h1 : (i, j) ∉ boxCells row col := fun h => hp (hu.1 (Or.inr h))
    have h2 : (i, j) ∉ rowCells row := fun h => hp (hu.1 (Or.inl (Or.inr h)))
    have h3 : (i, j) ∉ colCells col := fun h => hp (hu.1 (Or.inl (Or.inl h)))
    rw [if_neg h1, if_neg h2, if_neg h3]

/-- Restoring the snapshot of a unit gives back the grid the snapshot was taken from, as
long as nothing outside the unit was changed in between. -/
theorem copyUnit_restore (row col : Idx) (g g3 : Grid)
    (hframe : ∀ i j, ¬ peer row col i j → cellAt g3 i j = cellAt g i j) :
    copyUnit row col (copyUnit row col g freshGrid) g3 = g := by
  apply grid_ext
  intro i j
  rw [copyUnit_apply]
  by_cases hp : peer row col i j
  · rw [if_pos hp, copyUnit_apply, if_pos hp]
  · rw [if_neg hp]; exact hframe i j hp

theorem propStep_eq (val : Int) (g : Grid) (r c : Idx) :
    propStep val g r c =
      if (cellAt (markCell g r c val) r c).nVal = 0 ∧
          (cellAt (markCell g r c val) r c).nConstraintCount ≥ 8 then
        if isValidAssignment (markCell g r c val) r c
            (cellAt (markCell g r c val) r c).getLastRemainingValue then
          (true, setVal (markCell g r c val) r c
            (cellAt (markCell g r c val) r c).getLastRemainingValue)
        else (false, markCell g r c val)
      else (true, markCell g r c val) := rfl

theorem propStep_frame (val : Int) (g : Grid) (r c : Idx) (i j : Idx)
    (hne : ¬ (i = r ∧ j = c)) :
    cellAt (propStep val g r c).2 i j = cellAt g i j := by
  rw [propStep_eq]
  split
  · split
    · simp only; rw [cellAt_setVal, if_neg hne, cellAt_markCell, if_neg hne]
    · simp only; rw [cellAt_markCell, if_neg hne]
  · simp only; rw [cellAt_markCell, if_neg hne]

theorem propLoop_cons (val : Int) (p : Idx × Idx) (ps : List (Idx × Idx)) (g : Grid) :
    propLoop val (p :: ps) g =
      if (propStep val g p.1 p.2).1 = true then propLoop val ps (propStep val g p.1 p.2).2
      else (false, (propStep val g p.1 p.2).2) := by
  rw [propLoop]
  rcases h : propStep val g p.1 p.2 with ⟨b, g1⟩
  cases b <;> simp

theorem propLoop_append (val : Int) (ps qs : List (Idx × Idx)) (g : Grid) :
    propLoop val (ps ++ qs) g =
      if (propLoop val ps g).1 = true then propLoop val qs (propLoop val ps g).2
      else (false, (propLoop val ps g).2) := by
  induction ps generalizing g with
  | nil => simp [propLoop]
  | cons p ps ih =>
    rw [List.cons_append, propLoop_cons, propLoop_cons]
    by_cases h : (propStep val g p.1 p.2).1 = true
    · rw [if_pos h, if_pos h, ih]
    · rw [if_neg h, if_neg h]; simp

theorem propogateConstraint_eq (g : Grid) (row col : Idx) (val : Int) :
    propogateConstraint g row col val = propLoop val (unitCells row col) g := by
  unfold propogateConstraint unitCells
  rw [propLoop_append, propLoop_append]
  rcases h1 : propLoop val (colCells col) g with ⟨b1, g1⟩
  cases b1
  · simp
  · simp only [if_true]
    rcases h2 : propLoop val (rowCells row) g1 with ⟨b2, g2⟩
    cases b2 <;> simp

theorem propLoop_frame (val : Int) (ps : List (Idx × Idx)) (g : Grid) (i j : Idx)
    (hnot : (i, j) ∉ ps) :
    cellAt (propLoop val ps g).2 i j = cellAt g i j := by
  induction ps generalizing g with
  | nil => simp [propLoop]
  | cons p ps ih =>
    have hp : ¬ (i = p.1 ∧ j = p.2) := fun h => hnot (by
      have : (i, j) = p := Prod.ext h.1 h.2
      rw [this]; exact List.mem_cons_self _ _)
    have hps : (i, j) ∉ ps := fun h => hnot (List.mem_cons_of_mem _ h)
    rw [propLoop_cons]
    split
    · rw [ih _ hps, propStep_frame _ _ _ _ _ _ hp]
    · simp only; rw [propStep_frame _ _ _ _ _ _ hp]

theorem propogateConstraint_frame (g : Grid) (row col : Idx) (val : Int) (i j : Idx)
    (hnot : ¬ peer row col i j) :
    cellAt (propogateConstraint g row col val).2 i j = cellAt g i j := by
  rw [propogateConstraint_eq]
  exact propLoop_frame _ _ _ _ _ (fun h => hnot ((mem_unitCells _ _ _).1 h))

/-! ## The digit loop of `solveSudoku` and rollback -/

theorem solveLoop_cons (again : Grid → Option (Bool × Grid)) (r c k : Idx) (ks : List Idx)
    (g : Grid) :
    solveLoop again r c (k :: ks) g =
      if (cellAt g r c).constraintsOnCell.get k = -1 then solveLoop again r c ks g
      else if isValidAssignment g r c ((k.val : Int) + 1) = true then
        if (propogateConstraint (setVal g r c ((k.val : Int) + 1)) r c ((k.val : Int) + 1)).1
            = true then
          match again (propogateConstraint (setVal g r c ((k.val : Int) + 1)) r c
              ((k.val : Int) + 1)).2 with
          | none => none
          | some (true, g3) => some (true, g3)
          | some (false, g3) =>
            solveLoop again r c ks (copyUnit r c (copyUnit r c g freshGrid) g3)
        else solveLoop again r c ks (copyUnit r c (copyUnit r c g freshGrid)
          (propogateConstraint (setVal g r c ((k.val : Int) + 1)) r c ((k.val : Int) + 1)).2)
      else solveLoop again r c ks g := by
  rw [solveLoop]
  rcases h : propogateConstraint (setVal g r c ((k.val : Int) + 1)) r c ((k.val : Int) + 1)
    with ⟨b, g2⟩
  cases b
  · simp
  · rfl

/-- Everything outside the unit of the branch cell is as before after the tentative
assignment and the propagation. -/
theorem attempt_frame (g : Grid) (r c : Idx) (v : Int) (i j : Idx) (hnot : ¬ peer r c i j) :
    cellAt (propogateConstraint (setVal g r c v) r c v).2 i j = cellAt g i j := by
  rw [propogateConstraint_frame _ _ _ _ _ _ hnot, cellAt_setVal]
  have : ¬ (i = r ∧ j = c) := fun h => hnot (by rw [h.1, h.2]; exact peer_self r c)
  rw [if_neg this]

theorem solveLoop_spec (again : Grid → Option (Bool × Grid))
    (hrec : ∀ x y, again x = some (false, y) → y = x) (r c : Idx) (g : Grid)
    (ks : List Idx) (res : Bool × Grid) (h : solveLoop again r c ks g = some res) :
    (res.1 = false → res.2 = g ∧ ∀ k ∈ ks, attemptFails again g r c k) ∧
    (res.1 = true → ∃ k ∈ ks, attemptSucceeds again g r c k res.2) := by
  induction ks with
  | nil =>
    rw [solveLoop] at h
    cases h
    simp
  | cons k ks ih =>
    rw [solveLoop_cons] at h
    have hrestore := copyUnit_restore r c g
      (propogateConstraint (setVal g r c ((k.val : Int) + 1)) r c ((k.val : Int) + 1)).2
      (attempt_frame g r c _)
    -- every way of going on to the next digit
    have hnext : attemptFails again g r c k → solveLoop again r c ks g = some res →
        (res.1 = false → res.2 = g ∧ ∀ k' ∈ k :: ks, attemptFails again g r c k') ∧
        (res.1 = true → ∃ k' ∈ k :: ks, attemptSucceeds again g r c k' res.2) := by
      intro hf h'
      obtain ⟨ih1, ih2⟩ := ih h'
      constructor
      · intro hb
        obtain ⟨e, hall⟩ := ih1 hb
        refine ⟨e, ?_⟩
        intro k' hk'
        rcases List.mem_cons.1 hk' with hk' | hk'
        · rw [hk']; exact hf
        · exact hall k' hk'
      · intro hb
        obtain ⟨k', hk', hs⟩ := ih2 hb
        exact ⟨k', List.mem_cons_of_mem _ hk', hs⟩
    by_cases h1 : (cellAt g r c).constraintsOnCell.get k = -1
    · rw [if_pos h1] at h
      exact hnext (Or.inl h1) h
    · rw [if_neg h1] at h
      by_cases h2 : isValidAssignment g r c ((k.val : Int) + 1) = true
      · rw [if_pos h2] at h
        by_cases h3 : (propogateConstraint (setVal g r c ((k.val : Int) + 1)) r c
            ((k.val : Int) + 1)).1 = true
        · rw [if_pos h3] at h
          rcases h4 : again (propogateConstraint (setVal g r c ((k.val : Int) + 1)) r c
              ((k.val : Int) + 1)).2 with _ | ⟨b, g3⟩
          · rw [h4] at h; cases h
          · rw [h4] at h
            cases b
            · simp only at h
              have hg3 := hrec _ _ h4
              subst hg3
              rw [hrestore] at h
              exact hnext (Or.inr (Or.inr (Or.inr h4))) h
            · simp only [Option.some.injEq] at h
              subst h
              constructor
              · intro hb; cases hb
              · intro _
                exact ⟨k, List.mem_cons_self _ _, h1, h2, h3, h4⟩
        · rw [if_neg h3, hrestore] at h
          exact hnext (Or.inr (Or.inr (Or.inl (by simpa using h3)))) h
      · rw [if_neg h2] at h
        exact hnext (Or.inr (Or.inl (by simpa using h2))) h

/-- A failed `solveSudoku` leaves the grid exactly as it found it. -/
theorem solveSudoku_false (fuel : Nat) :
    ∀ (g g' : Grid), solveSudoku fuel g = some (false, g') → g' = g := by
  induction fuel with
  | zero => intro g g' h; rw [solveSudoku] at h; cases h
  | succ n ih =>
    intro g g' h
    rw [solveSudoku] at h
    rcases hn : getNextEmptyCellByConstraintCount g with _ | ⟨r, c⟩
    · rw [hn] at h; cases h
    · rw [hn] at h
      exact ((solveLoop_spec _ ih r c g idx9 _ h).1 rfl).1

/-! ## Every change the solver makes is an elementary move -/

theorem Reach.refl (g : Grid) : Reach g g := Relation.ReflTransGen.refl

theorem Reach.trans {a b c : Grid} (h1 : Reach a b) (h2 : Reach b c) : Reach a c :=
  Relation.ReflTransGen.trans h1 h2

theorem Reach.single {a b : Grid} (h : Move a b) : Reach a b :=
  Relation.ReflTransGen.single h

theorem setConstraint_nVal (c : Cell) (d : Int) : (c.setConstraint d).nVal = c.nVal := by
  unfold Cell.setConstraint
  split
  · simp only
    split <;> rfl
  · rfl

theorem Move.keeps_nVal {g g' : Grid} (h : Move g g') (i j : Idx)
    (hne : (cellAt g i j).nVal ≠ 0) : (cellAt g' i j).nVal = (cellAt g i j).nVal := by
  cases h with
  | assign r c v h0 _ _ _ =>
    rw [cellAt_setVal]
    split
    · rename_i hij
      rw [hij.1, hij.2] at hne
      exact absurd h0 hne
    · rfl
  | mark r c d i' j' _ _ _ _ =>
    rw [cellAt_markCell]
    split
    · rename_i hij
      rw [setConstraint_nVal, hij.1, hij.2]
    · rfl

theorem Reach.nVal_keep {g g' : Grid} (h : Reach g g') (i j : Idx)
    (hne : (cellAt g i j).nVal ≠ 0) : (cellAt g' i j).nVal = (cellAt g i j).nVal := by
  induction h with
  | refl => rfl
  | tail _ hm ih =>
    rw [hm.keeps_nVal i j (by rw [ih]; exact hne), ih]

theorem getLastRemainingValue_range (c : Cell) :
    c.getLastRemainingValue = -1 ∨ (1 ≤ c.getLastRemainingValue ∧ c.getLastRemainingValue ≤ 9) := by
  unfold Cell.getLastRemainingValue
  split
  · rename_i i _
    right
    have := i.isLt
    constructor <;> omega
  · left; rfl

theorem propStep_reach (val : Int) (g : Grid) (r c : Idx) (i j : Idx) (hp : peer r c i j)
    (hv : (cellAt g i j).nVal = val) (h1 : 1 ≤ val) (h9 : val ≤ 9) :
    Reach g (propStep val g r c).2 := by
  have hm : Reach g (markCell g r c val) := Reach.single (Move.mark g r c val i j hp hv h1 h9)
  rw [propStep_eq]
  split
  · rename_i hc
    split
    · rename_i hvalid
      simp only
      refine hm.trans (Reach.single (Move.assign _ r c _ hc.1 hvalid ?_ ?_))
      · rcases getLastRemainingValue_range (cellAt (markCell g r c val) r c) with h | h
        · rw [h] at hvalid
          exact absurd hvalid (by rw [isValidAssignment_neg_one]; simp)
        · exact h.1
      · rcases getLastRemainingValue_range (cellAt (markCell g r c val) r c) with h | h
        · rw [h] at hvalid
          exact absurd hvalid (by rw [isValidAssignment_neg_one]; simp)
        · exact h.2
    · exact hm
  · exact hm

theorem propLoop_reach (val : Int) (r0 c0 : Idx) (h1 : 1 ≤ val) (h9 : val ≤ 9)
    (ps : List (Idx × Idx)) (hps : ∀ p ∈ ps, peer p.1 p.2 r0 c0) (g : Grid)
    (hv : (cellAt g r0 c0).nVal = val) :
    Reach g (propLoop val ps g).2 := by
  induction ps generalizing g with
  | nil => exact Reach.refl g
  | cons p ps ih =>
    have hstep := propStep_reach val g p.1 p.2 r0 c0 (hps p (List.mem_cons_self _ _)) hv h1 h9
    rw [propLoop_cons]
    split
    · refine hstep.trans (ih (fun q hq => hps q (List.mem_cons_of_mem _ hq)) _ ?_)
      rw [hstep.nVal_keep r0 c0 (by rw [hv]; omega), hv]
    · exact hstep

theorem propogateConstraint_reach (g : Grid) (row col : Idx) (val : Int)
    (h1 : 1 ≤ val) (h9 : val ≤ 9) (hv : (cellAt g row col).nVal = val) :
    Reach g (propogateConstraint g row col val).2 := by
  rw [propogateConstraint_eq]
  apply propLoop_reach val row col h1 h9 _ _ g hv
  intro p hp
  exact peer_symm ((mem_unitCells _ _ _).1 hp)

/-! ## Termination: the number of empty cells decreases -/

theorem countP_lt_of_imp {α : Type} (p q : α → Bool) (l : List α) (x : α) (hx : x ∈ l)
    (himp : ∀ y ∈ l, p y = true → q y = true) (hq : q x = true) (hp : p x = false) :
    l.countP p < l.countP q := by
  induction l with
  | nil => cases hx
  | cons a l ih =>
    have hmono : l.countP p ≤ l.countP q :=
      List.countP_mono_left (fun y hy h => himp y (List.mem_cons_of_mem _ hy) h)
    rcases List.mem_cons.1 hx with hxa | hxl
    · subst hxa
      rw [List.countP_cons_of_pos _ _ hq, List.countP_cons_of_neg _ _ (by simp [hp])]
      omega
    · have ih' := ih hxl (fun y hy h => himp y (List.mem_cons_of_mem _ hy) h)
      by_cases hpa : p a = true
      · rw [List.countP_cons_of_pos _ _ hpa,
          List.countP_cons_of_pos _ _ (himp a (List.mem_cons_self _ _) hpa)]
        omega
      · rw [List.countP_cons_of_neg _ _ hpa]
        by_cases hqa : q a = true
        · rw [List.countP_cons_of_pos _ _ hqa]; omega
        · rw [List.countP_cons_of_neg _ _ hqa]; exact ih'

theorem emptyCount_le_81 (g : Grid) : emptyCount g ≤ 81 := by
  unfold emptyCount
  exact le_trans (List.countP_le_length _) (by decide)

theorem emptyCount_le_of_keep (g g' : Grid)
    (hkeep : ∀ i j, (cellAt g i j).nVal ≠ 0 → (cellAt g' i j).nVal ≠ 0) :
    emptyCount g' ≤ emptyCount g := by
  unfold emptyCount
  apply List.countP_mono_left
  intro p _ h
  simp only [decide_eq_true_eq] at h ⊢
  by_contra hc
  exact hkeep p.1 p.2 hc h

theorem emptyCount_lt_of_fill (g g' : Grid) (r c : Idx)
    (hkeep : ∀ i j, (cellAt g i j).nVal ≠ 0 → (cellAt g' i j).nVal ≠ 0)
    (h0 : (cellAt g r c).nVal = 0) (h1 : (cellAt g' r c).nVal ≠ 0) :
    emptyCount g' < emptyCount g := by
  unfold emptyCount
  apply countP_lt_of_imp _ _ _ (r, c) (mem_scanOrder _)
  · intro p _ h
    simp only [decide_eq_true_eq] at h ⊢
    by_contra hc
    exact hkeep p.1 p.2 hc h
  · simpa using h0
  · simpa using h1

theorem Reach.emptyCount_le {g g' : Grid} (h : Reach g g') : emptyCount g' ≤ emptyCount g :=
  emptyCount_le_of_keep g g' (fun i j hne => by rw [h.nVal_keep i j hne]; exact hne)

theorem cellAt_setVal_self (g : Grid) (r c : Idx) (v : Int) :
    (cellAt (setVal g r c v) r c).nVal = v := by
  rw [cellAt_setVal, if_pos ⟨rfl, rfl⟩]

theorem setVal_nVal_keep (g : Grid) (r c : Idx) (v : Int) (h0 : (cellAt g r c).nVal = 0)
    (i j : Idx) (hne : (cellAt g i j).nVal ≠ 0) :
    (cellAt (setVal g r c v) i j).nVal = (cellAt g i j).nVal := by
  rw [cellAt_setVal]
  split
  · rename_i hij
    rw [hij.1, hij.2] at hne
    exact absurd h0 hne
  · rfl

/-- The grid handed to the recursive call has strictly fewer empty cells than the grid
the branch cell was chosen in. -/
theorem attempt_emptyCount_lt (g : Grid) (r c : Idx) (v : Int) (h1 : 1 ≤ v) (h9 : v ≤ 9)
    (h0 : (cellAt g r c).nVal = 0) :
    emptyCount (propogateConstraint (setVal g r c v) r c v).2 < emptyCount g := by
  have hreach := propogateConstraint_reach (setVal g r c v) r c v h1 h9 (cellAt_setVal_self g r c v)
  apply emptyCount_lt_of_fill g _ r c
  · intro i j hne
    rw [hreach.nVal_keep i j (by rw [setVal_nVal_keep g r c v h0 i j hne]; exact hne),
      setVal_nVal_keep g r c v h0 i j hne]
    exact hne
  · exact h0
  · rw [hreach.nVal_keep r c (by rw [cellAt_setVal_self]; omega), cellAt_setVal_self]
    omega

theorem solveLoop_isSome (again : Grid → Option (Bool × Grid))
    (hrec : ∀ x y, again x = some (false, y) → y = x) (r c : Idx) (g : Grid)
    (htot : ∀ k : Idx, ∃ res, again (propogateConstraint (setVal g r c ((k.val : Int) + 1)) r c
      ((k.val : Int) + 1)).2 = some res)
    (ks : List Idx) : ∃ res, solveLoop again r c ks g = some res := by
  induction ks with
  | nil => exact ⟨(false, g), by rw [solveLoop]⟩
  | cons k ks ih =>
    rw [solveLoop_cons]
    have hrestore := copyUnit_restore r c g
      (propogateConstraint (setVal g r c ((k.val : Int) + 1)) r c ((k.val : Int) + 1)).2
      (attempt_frame g r c _)
    split
    · exact ih
    · split
      · split
        · obtain ⟨⟨b, g3⟩, hres⟩ := htot k
          rw [hres]
          cases b
          · simp only
            have hg3 := hrec _ _ hres
            subst hg3
            rw [hrestore]
            exact ih
          · exact ⟨_, rfl⟩
        · rw [hrestore]; exact ih
      · exact ih

/-- Fuel above the number of empty cells is enough: `solveSudoku` returns. -/
theorem solveSudoku_total (fuel : Nat) :
    ∀ g : Grid, emptyCount g < fuel → ∃ res, solveSudoku fuel g = some res := by
  induction fuel with
  | zero => intro g h; omega
  | succ n ih =>
    intro g h
    rw [solveSudoku]
    rcases hn : getNextEmptyCellByConstraintCount g with _ | ⟨r, c⟩
    · exact ⟨_, rfl⟩
    · simp only
      apply solveLoop_isSome _ (solveSudoku_false n)
      intro k
      apply ih
      have hk := k.isLt
      have := attempt_emptyCount_lt g r c ((k.val : Int) + 1) (by omega) (by omega)
        (getNext_some g r c hn).1
      omega

/-! ## Invariants of the moves -/

/-! ### Values stay in range, counts stay non-negative -/

theorem Move.keeps_range {g g' : Grid} (h : Move g g')
    (hr : ∀ i j, 0 ≤ (cellAt g i j).nVal ∧ (cellAt g i j).nVal ≤ 9) :
    ∀ i j, 0 ≤ (cellAt g' i j).nVal ∧ (cellAt g' i j).nVal ≤ 9 := by
  intro i j
  cases h with
  | assign r c v h0 _ h1 h9 =>
    rw [cellAt_setVal]
    split
    · exact ⟨by simp only; omega, h9⟩
    · exact hr i j
  | mark r c d i' j' _ _ _ _ =>
    rw [cellAt_markCell]
    split
    · rw [setConstraint_nVal]; exact hr r c
    · exact hr i j

theorem Reach.range {g g' : Grid} (h : Reach g g')
    (hr : ∀ i j, 0 ≤ (cellAt g i j).nVal ∧ (cellAt g i j).nVal ≤ 9) :
    ∀ i j, 0 ≤ (cellAt g' i j).nVal ∧ (cellAt g' i j).nVal ≤ 9 := by
  induction h with
  | refl => exact hr
  | tail _ hm ih => exact hm.keeps_range ih

theorem setConstraint_count_ge (c : Cell) (d : Int) :
    c.nConstraintCount ≤ (c.setConstraint d).nConstraintCount := by
  unfold Cell.setConstraint
  split
  · simp only
    split
    · simp only; omega
    · exact le_refl _
  · exact le_refl _

theorem Move.keeps_count_nonneg {g g' : Grid} (h : Move g g')
    (hc : ∀ i j, 0 ≤ (cellAt g i j).nConstraintCount) :
    ∀ i j, 0 ≤ (cellAt g' i j).nConstraintCount := by
  intro i j
  cases h with
  | assign r c v h0 _ h1 h9 =>
    rw [cellAt_setVal]
    split
    · exact hc r c
    · exact hc i j
  | mark r c d i' j' _ _ _ _ =>
    rw [cellAt_markCell]
    split
    · exact le_trans (hc r c) (setConstraint_count_ge _ _)
    · exact hc i j

theorem Reach.count_nonneg {g g' : Grid} (h : Reach g g')
    (hc : ∀ i j, 0 ≤ (cellAt g i j).nConstraintCount) :
    ∀ i j, 0 ≤ (cellAt g' i j).nConstraintCount := by
  induction h with
  | refl => exact hc
  | tail _ hm ih => exact hm.keeps_count_nonneg ih

/-! ### No move creates a conflict -/

theorem Move.no_new_conflict {g g' : Grid} (h : Move g g') (i j i2 j2 : Idx)
    (hc : conflict (gridVals g') i j i2 j2) : conflict (gridVals g) i j i2 j2 := by
  cases h with
  | assign r c v h0 hvalid h1 h9 =>
    obtain ⟨hne, hp, hnz, heq⟩ := hc
    have hv := ((isValidAssignment_iff_peer g r c v).1 hvalid).2
    unfold gridVals at hnz heq
    rw [cellAt_setVal] at hnz heq
    rw [cellAt_setVal] at heq
    by_cases ha : i = r ∧ j = c
    · rw [if_pos ha] at hnz heq
      simp only at heq
      have hb : ¬ (i2 = r ∧ j2 = c) := fun hb => hne ⟨ha.1.trans hb.1.symm, ha.2.trans hb.2.symm⟩
      rw [if_neg hb] at heq
      rw [ha.1, ha.2] at hp
      exact absurd heq.symm (hv i2 j2 hp)
    · rw [if_neg ha] at hnz heq
      by_cases hb : i2 = r ∧ j2 = c
      · rw [if_pos hb] at heq
        simp only at heq
        rw [hb.1, hb.2] at hp
        exact absurd heq (hv i j (peer_symm hp))
      · rw [if_neg hb] at heq
        exact ⟨hne, hp, hnz, heq⟩
  | mark r c d i' j' _ _ _ _ =>
    obtain ⟨hne, hp, hnz, heq⟩ := hc
    have hsame : ∀ a b, (cellAt (markCell g r c d) a b).nVal = (cellAt g a b).nVal := by
      intro a b
      rw [cellAt_markCell]
      split
      · rename_i hab; rw [setConstraint_nVal, hab.1, hab.2]
      · rfl
    unfold gridVals at hnz heq
    rw [hsame] at hnz heq
    rw [hsame] at heq
    exact ⟨hne, hp, hnz, heq⟩

theorem Reach.conflict_old {g g' : Grid} (h : Reach g g') (i j i2 j2 : Idx)
    (hc : conflict (gridVals g') i j i2 j2) : conflict (gridVals g) i j i2 j2 := by
  induction h with
  | refl => exact hc
  | tail _ hm ih => exact ih (hm.no_new_conflict i j i2 j2 hc)

/-! ### What `solveSudoku` reaches -/

theorem solveSudoku_reach (fuel : Nat) :
    ∀ (g : Grid) (b : Bool) (g' : Grid), solveSudoku fuel g = some (b, g') → Reach g g' := by
  induction fuel with
  | zero => intro g b g' h; rw [solveSudoku] at h; cases h
  | succ n ih =>
    intro g b g' h
    cases b
    · rw [solveSudoku_false _ _ _ h]; exact Reach.refl g
    · rw [solveSudoku] at h
      rcases hn : getNextEmptyCellByConstraintCount g with _ | ⟨r, c⟩
      · rw [hn] at h
        simp only [Option.some.injEq, Prod.mk.injEq, true_and] at h
        rw [← h]; exact Reach.refl g
      · rw [hn] at h
        obtain ⟨k, _, _, hvalid, _, hagain⟩ :=
          (solveLoop_spec _ (solveSudoku_false n) r c g idx9 _ h).2 rfl
        have hk := k.isLt
        have h1 : (1 : Int) ≤ (k.val : Int) + 1 := by omega
        have h9 : (k.val : Int) + 1 ≤ 9 := by omega
        have hm : Reach g (setVal g r c ((k.val : Int) + 1)) :=
          Reach.single (Move.assign g r c _ (getNext_some g r c hn).1 hvalid h1 h9)
        exact (hm.trans (propogateConstraint_reach _ r c _ h1 h9 (cellAt_setVal_self g r c _))).trans
          (ih _ _ _ hagain)

/-- When `solveSudoku` returns true, the scan for a branch cell finds nothing in the grid
it leaves. -/
theorem solveSudoku_true_done (fuel : Nat) :
    ∀ (g g' : Grid), solveSudoku fuel g = some (true, g') →
      getNextEmptyCellByConstraintCount g' = none := by
  induction fuel with
  | zero => intro g g' h; rw [solveSudoku] at h; cases h
  | succ n ih =>
    intro g g' h
    rw [solveSudoku] at h
    rcases hn : getNextEmptyCellByConstraintCount g with _ | ⟨r, c⟩
    · rw [hn] at h
      simp only [Option.some.injEq, Prod.mk.injEq, true_and] at h
      rw [← h]; exact hn
    · rw [hn] at h
      obtain ⟨k, _, _, _, _, hagain⟩ :=
        (solveLoop_spec _ (solveSudoku_false n) r c g idx9 _ h).2 rfl
      exact ih _ _ hagain

/-! ## The initial constraints -/

theorem foldl_invariant {α β : Type} (P : β → Prop) (f : β → α → β) (l : List α)
    (hf : ∀ b a, a ∈ l → P b → P (f b a)) (b : β) (hb : P b) : P (l.foldl f b) := by
  induction l generalizing b with
  | nil => exact hb
  | cons a l ih =>
    rw [List.foldl_cons]
    exact ih (fun b' a' ha' => hf b' a' (List.mem_cons_of_mem _ ha')) _
      (hf b a (List.mem_cons_self _ _) hb)

theorem cellAt_mkGrid (vals : Idx → Idx → Int) (i j : Idx) :
    cellAt (mkGrid vals) i j = Cell.ofVal (vals i j) := by
  unfold cellAt mkGrid
  rw [Mathlib.Vector.get_ofFn, Mathlib.Vector.get_ofFn]

theorem markCell_nVal (g : Grid) (r c : Idx) (d : Int) (i j : Idx) :
    (cellAt (markCell g r c d) i j).nVal = (cellAt g i j).nVal := by
  rw [cellAt_markCell]
  split
  · rename_i hij; rw [setConstraint_nVal, hij.1, hij.2]
  · rfl


theorem constrainFrom_marked (g0 : Grid)
    (hr : ∀ i j, 0 ≤ (cellAt g0 i j).nVal ∧ (cellAt g0 i j).nVal ≤ 9) (i j : Idx)
    (src : List (Idx × Idx)) (hsrc : ∀ p ∈ src, peer i j p.1 p.2) (g : Grid)
    (hg : MarkedFrom g0 g) : MarkedFrom g0 (constrainFrom i j g src) := by
  unfold constrainFrom
  apply foldl_invariant (MarkedFrom g0) _ src _ g hg
  intro b p hp hb
  split
  · rename_i hne
    have hv := hb.2 p.1 p.2
    have hrange := hr p.1 p.2
    refine ⟨hb.1.trans (Reach.single (Move.mark b i j _ p.1 p.2 (hsrc p hp) rfl ?_ ?_)), ?_⟩
    · rw [hv] at hne ⊢; omega
    · rw [hv]; exact hrange.2
    · intro a b'
      rw [markCell_nVal]; exact hb.2 a b'
  · exact hb

theorem initCell_marked (g0 : Grid)
    (hr : ∀ i j, 0 ≤ (cellAt g0 i j).nVal ∧ (cellAt g0 i j).nVal ≤ 9) (g : Grid)
    (p : Idx × Idx) (hg : MarkedFrom g0 g) : MarkedFrom g0 (initCell g p) := by
  unfold initCell
  split
  · apply constrainFrom_marked g0 hr
    · intro q hq
      exact Or.inr (Or.inr ((mem_boxCells _ _ _).1 hq))
    apply constrainFrom_marked g0 hr
    · intro q hq
      exact Or.inl ((mem_colCells _ _).1 hq)
    apply constrainFrom_marked g0 hr
    · intro q hq
      exact Or.inr (Or.inl ((mem_rowCells _ _).1 hq))
    exact hg
  · exact hg

theorem setInitialCellConstraints_marked (g0 : Grid)
    (hr : ∀ i j, 0 ≤ (cellAt g0 i j).nVal ∧ (cellAt g0 i j).nVal ≤ 9) :
    MarkedFrom g0 (setInitialCellConstraints g0) := by
  unfold setInitialCellConstraints
  apply foldl_invariant (MarkedFrom g0) _ scanOrder _ g0 ⟨Reach.refl g0, fun _ _ => rfl⟩
  intro b p _ hb
  exact initCell_marked g0 hr b p hb

theorem mkGrid_range (vals : Idx → Idx → Int) (hwf : wellFormed vals) :
    ∀ i j, 0 ≤ (cellAt (mkGrid vals) i j).nVal ∧ (cellAt (mkGrid vals) i j).nVal ≤ 9 := by
  intro i j
  rw [cellAt_mkGrid]
  exact hwf i j

theorem loadGrid_reach (vals : Idx → Idx → Int) (hwf : wellFormed vals) :
    Reach (mkGrid vals) (loadGrid vals) :=
  (setInitialCellConstraints_marked _ (mkGrid_range vals hwf)).1

theorem loadGrid_nVal (vals : Idx → Idx → Int) (hwf : wellFormed vals) (i j : Idx) :
    (cellAt (loadGrid vals) i j).nVal = vals i j := by
  have h := (setInitialCellConstraints_marked _ (mkGrid_range vals hwf)).2 i j
  rw [cellAt_mkGrid] at h
  exact h

theorem loadGrid_count_nonneg (vals : Idx → Idx → Int) (hwf : wellFormed vals) :
    ∀ i j, 0 ≤ (cellAt (loadGrid vals) i j).nConstraintCount := by
  apply (loadGrid_reach vals hwf).count_nonneg
  intro i j
  rw [cellAt_mkGrid]
  exact le_refl _

/-! ### Nine different digits are all nine digits -/

theorem exactly_once {α : Type} [Fintype α] (hcard : Fintype.card α = 9) (f : α → Int)
    (hr : ∀ a, 1 ≤ f a ∧ f a ≤ 9) (hinj : ∀ a b, f a = f b → a = b)
    (d : Int) (h1 : 1 ≤ d) (h9 : d ≤ 9) : ∃! a, f a = d := by
  let F : α → Fin 9 := fun a => ⟨(f a - 1).toNat, by have := hr a; omega⟩
  have hF : Function.Injective F := by
    intro a b hab
    apply hinj
    have h := congrArg Fin.val hab
    simp only [F] at h
    have := hr a
    have := hr b
    omega
  have hbij : Function.Bijective F :=
    (Fintype.bijective_iff_injective_and_card F).2 ⟨hF, by rw [hcard]; rfl⟩
  obtain ⟨a, ha⟩ := hbij.2 ⟨(d - 1).toNat, by omega⟩
  refine ⟨a, ?_, ?_⟩
  · have h := congrArg Fin.val ha
    simp only [F] at h
    have := hr a
    show f a = d
    omega
  · intro b hb
    apply hinj
    rw [hb]
    have h := congrArg Fin.val ha
    simp only [F] at h
    have := hr a
    omega

/-- A full grid of digits without conflicts is a solved Sudoku. -/
theorem isSolution_of_conflictFree (s : Idx → Idx → Int)
    (hr : ∀ i j, 1 ≤ s i j ∧ s i j ≤ 9) (hcf : conflictFree s) : isSolution s := by
  intro d h1 h9
  have hnz : ∀ i j, s i j ≠ 0 := fun i j => by have := hr i j; omega
  refine ⟨?_, ?_, ?_⟩
  · intro r
    apply exactly_once (by simp) (fun c => s r c) (fun c => hr r c) _ d h1 h9
    intro a b hab
    by_contra hne
    exact hcf r a r b ⟨fun h => hne h.2, Or.inr (Or.inl rfl), hnz r a, hab⟩
  · intro c
    apply exactly_once (by simp) (fun r => s r c) (fun r => hr r c) _ d h1 h9
    intro a b hab
    by_contra hne
    exact hcf a c b c ⟨fun h => hne h.1, Or.inl rfl, hnz a c, hab⟩
  · intro br bc
    apply exactly_once (by simp) (fun ab : Fin 3 × Fin 3 => s (boxCell br ab.1) (boxCell bc ab.2))
      (fun ab => hr _ _) _ d h1 h9
    intro a b hab
    by_contra hne
    apply hcf (boxCell br a.1) (boxCell bc a.2) (boxCell br b.1) (boxCell bc b.2)
    refine ⟨?_, ?_, hnz _ _, hab⟩
    · intro h
      apply hne
      have e1 := congrArg Fin.val h.1
      have e2 := congrArg Fin.val h.2
      simp only [boxCell] at e1 e2
      apply Prod.ext <;> apply Fin.ext <;> omega
    · right; right
      have := a.1.isLt
      have := a.2.isLt
      have := b.1.isLt
      have := b.2.isLt
      simp only [boxCell]
      constructor <;> omega

/-! ## Facts about `solveSudoku` and `doSolve` -/

theorem propStep_nVal_keep (val : Int) (g : Grid) (r c : Idx) (i j : Idx)
    (hne : (cellAt g i j).nVal ≠ 0) :
    (cellAt (propStep val g r c).2 i j).nVal = (cellAt g i j).nVal := by
  rw [propStep_eq]
  split
  · rename_i hc
    split
    · simp only
      rw [cellAt_setVal]
      split
      · rename_i hij
        have h0 := hc.1
        rw [markCell_nVal, ← hij.1, ← hij.2] at h0
        exact absurd h0 hne
      · exact markCell_nVal _ _ _ _ _ _
    · exact markCell_nVal _ _ _ _ _ _
  · exact markCell_nVal _ _ _ _ _ _

theorem propLoop_nVal_keep (val : Int) (ps : List (Idx × Idx)) (g : Grid) (i j : Idx)
    (hne : (cellAt g i j).nVal ≠ 0) :
    (cellAt (propLoop val ps g).2 i j).nVal = (cellAt g i j).nVal := by
  induction ps generalizing g with
  | nil => rfl
  | cons p ps ih =>
    have hstep := propStep_nVal_keep val g p.1 p.2 i j hne
    rw [propLoop_cons]
    split
    · rw [ih _ (by rw [hstep]; exact hne), hstep]
    · exact hstep

theorem propogateConstraint_nVal_keep (g : Grid) (row col : Idx) (val : Int) (i j : Idx)
    (hne : (cellAt g i j).nVal ≠ 0) :
    (cellAt (propogateConstraint g row col val).2 i j).nVal = (cellAt g i j).nVal := by
  rw [propogateConstraint_eq]
  exact propLoop_nVal_keep _ _ _ _ _ hne

theorem solveSudoku_full (g : Grid) (hfull : ∀ i j, (cellAt g i j).nVal ≠ 0) (fuel : Nat) :
    solveSudoku (fuel + 1) g = some (true, g) := by
  have hn : getNextEmptyCellByConstraintCount g = none :=
    (getNext_none_iff g).2 (fun i j h => absurd h (hfull i j))
  rw [solveSudoku, hn]

/-- A larger depth bound does not change a result. -/
theorem solveLoop_mono (again again2 : Grid → Option (Bool × Grid))
    (hext : ∀ x res, again x = some res → again2 x = some res) (r c : Idx)
    (ks : List Idx) : ∀ (g : Grid) (res : Bool × Grid),
      solveLoop again r c ks g = some res → solveLoop again2 r c ks g = some res := by
  induction ks with
  | nil => intro g res h; rw [solveLoop] at h ⊢; exact h
  | cons k ks ih =>
    intro g res h
    rw [solveLoop_cons] at h ⊢
    split
    · rename_i h1; rw [if_pos h1] at h; exact ih _ _ h
    · rename_i h1
      rw [if_neg h1] at h
      split
      · rename_i h2
        rw [if_pos h2] at h
        split
        · rename_i h3
          rw [if_pos h3] at h
          rcases h4 : again (propogateConstraint (setVal g r c ((k.val : Int) + 1)) r c
              ((k.val : Int) + 1)).2 with _ | ⟨b, g3⟩
          · rw [h4] at h; cases h
          · rw [h4] at h
            rw [hext _ _ h4]
            cases b
            · exact ih _ _ h
            · exact h
        · rename_i h3; rw [if_neg h3] at h; exact ih _ _ h
      · rename_i h2; rw [if_neg h2] at h; exact ih _ _ h

theorem solveSudoku_mono (fuel : Nat) :
    ∀ (g : Grid) (res : Bool × Grid), solveSudoku fuel g = some res →
      solveSudoku (fuel + 1) g = some res := by
  induction fuel with
  | zero => intro g res h; rw [solveSudoku] at h; cases h
  | succ n ih =>
    intro g res h
    rw [solveSudoku] at h ⊢
    rcases hn : getNextEmptyCellByConstraintCount g with _ | ⟨r, c⟩
    · rw [hn] at h; exact h
    · rw [hn] at h
      exact solveLoop_mono _ _ ih r c idx9 g res h

theorem solveSudoku_mono_le (fuel fuel2 : Nat) (hle : fuel ≤ fuel2) (g : Grid)
    (res : Bool × Grid) (h : solveSudoku fuel g = some res) :
    solveSudoku fuel2 g = some res := by
  induction hle with
  | refl => exact h
  | step _ ih => exact solveSudoku_mono _ _ _ ih

theorem doSolve_total (g : Grid) : ∃ res, doSolve g = some res :=
  solveSudoku_total 82 g (by have := emptyCount_le_81 g; omega)

/-- Whatever the depth bound, a result of `solveSudoku` is the result of `doSolve`. -/
theorem solveSudoku_agrees_doSolve (fuel : Nat) (g : Grid) (res : Bool × Grid)
    (h : solveSudoku fuel g = some res) : doSolve g = some res := by
  by_cases hle : fuel ≤ 82
  · exact solveSudoku_mono_le fuel 82 hle g res h
  · obtain ⟨res2, h2⟩ := doSolve_total g
    have h3 := solveSudoku_mono_le 82 fuel (by omega) g res2 h2
    rw [h] at h3
    rw [h2]
    exact h3.symm

theorem gridVals_loadGrid (vals : Idx → Idx → Int) (hwf : wellFormed vals) :
    gridVals (loadGrid vals) = vals := by
  funext i j
  exact loadGrid_nVal vals hwf i j

/-- When `solveSudoku` returns true on a grid with values in 0..9 and non-negative
constraint counts, every cell of the grid it leaves holds a digit 1..9. -/
theorem solveSudoku_true_digits (fuel : Nat) (g g' : Grid)
    (hr : ∀ i j, 0 ≤ (cellAt g i j).nVal ∧ (cellAt g i j).nVal ≤ 9)
    (hc : ∀ i j, 0 ≤ (cellAt g i j).nConstraintCount)
    (h : solveSudoku fuel g = some (true, g')) :
    ∀ i j, 1 ≤ (cellAt g' i j).nVal ∧ (cellAt g' i j).nVal ≤ 9 := by
  have hreach := solveSudoku_reach fuel g true g' h
  have hdone := (getNext_none_iff g').1 (solveSudoku_true_done fuel g g' h)
  intro i j
  have h1 := hreach.range hr i j
  have h2 := hreach.count_nonneg hc i j
  have h3 : (cellAt g' i j).nVal ≠ 0 := by
    intro h0
    have := hdone i j h0
    omega
  omega

/-! ## Constraint counts and flags -/

theorem idx9_nodup : idx9.Nodup := by decide

theorem countP_succ_of_flip {α : Type} (p q : α → Bool) (l : List α) (k : α)
    (hnd : l.Nodup) (hk : k ∈ l) (hpk : p k = false) (hqk : q k = true)
    (hsame : ∀ x, x ≠ k → q x = p x) : l.countP q = l.countP p + 1 := by
  induction l with
  | nil => cases hk
  | cons a l ih =>
    rw [List.nodup_cons] at hnd
    by_cases hak : a = k
    · subst hak
      have hrest : l.countP q = l.countP p := by
        apply List.countP_congr
        intro x hx
        have hxa : x ≠ a := fun h => hnd.1 (h ▸ hx)
        rw [hsame x hxa]
      rw [List.countP_cons_of_pos _ _ hqk, List.countP_cons_of_neg _ _ (by simp [hpk]), hrest]
    · have hkl : k ∈ l := by
        rcases List.mem_cons.1 hk with h | h
        · exact absurd h.symm hak
        · exact h
      have ih' := ih hnd.2 hkl
      have hqa := hsame a hak
      by_cases hpa : p a = true
      · rw [List.countP_cons_of_pos _ _ hpa, List.countP_cons_of_pos _ _ (by rw [hqa]; exact hpa), ih']
      · rw [List.countP_cons_of_neg _ _ hpa, List.countP_cons_of_neg _ _ (by rw [hqa]; exact hpa), ih']

theorem countP_add_two_le {α : Type} (p : α → Bool) (l : List α) (a b : α) (hab : a ≠ b)
    (ha : a ∈ l) (hb : b ∈ l) (hpa : p a = false) (hpb : p b = false) :
    l.countP p + 2 ≤ l.length := by
  have hlen := List.length_eq_countP_add_countP p l
  have hmem : ∀ x, x ∈ l → p x = false → x ∈ l.filter (fun y => !p y) := by
    intro x hx hp
    exact List.mem_filter.2 ⟨hx, by simp [hp]⟩
  have h2 : 2 ≤ (l.filter (fun y => !p y)).length := by
    have hma := hmem a ha hpa
    have hmb := hmem b hb hpb
    match hm : l.filter (fun y => !p y) with
    | [] => rw [hm] at hma; cases hma
    | [x] =>
      rw [hm] at hma hmb
      have e1 : a = x := by simpa using hma
      have e2 : b = x := by simpa using hmb
      exact absurd (e1.trans e2.symm) hab
    | _ :: _ :: _ => simp
  have hc : l.countP (fun y => !p y) = (l.filter (fun y => !p y)).length :=
    List.countP_eq_length_filter _ _
  have hc2 : List.countP (fun a => decide ¬p a = true) l = l.countP (fun y => !p y) := by
    apply List.countP_congr
    intro x _
    cases p x <;> simp
  omega

theorem setConstraint_flag_neg (c : Cell) (d : Int) (k : Idx)
    (h : (c.setConstraint d).constraintsOnCell.get k = -1) :
    c.constraintsOnCell.get k = -1 ∨ (k.val : Int) + 1 = d := by
  unfold Cell.setConstraint at h
  split at h
  · rename_i hd
    simp only at h
    split at h
    · simp only at h
      rw [Mathlib.Vector.get_set_eq_if] at h
      split at h
      · rename_i hk
        right
        rw [← hk]
        simp only
        omega
      · left; exact h
    · left; exact h
  · left; exact h

theorem setConstraint_cellOK (c : Cell) (d : Int)
    (hflags : ∀ k, c.constraintsOnCell.get k = 0 ∨ c.constraintsOnCell.get k = -1)
    (hcount : c.nConstraintCount = (numBlocked c : Int)) :
    (∀ k, (c.setConstraint d).constraintsOnCell.get k = 0 ∨
      (c.setConstraint d).constraintsOnCell.get k = -1) ∧
    (c.setConstraint d).nConstraintCount = (numBlocked (c.setConstraint d) : Int) := by
  unfold Cell.setConstraint
  split
  · rename_i hd
    simp only
    split
    · rename_i h0
      constructor
      · intro k
        simp only
        rw [Mathlib.Vector.get_set_eq_if]
        split
        · right; rfl
        · exact hflags k
      · simp only
        have hflip : numBlocked
            { nVal := c.nVal, nConstraintCount := c.nConstraintCount + 1,
              constraintsOnCell := c.constraintsOnCell.set ⟨(d - 1).toNat, by omega⟩ (-1) }
            = numBlocked c + 1 := by
          unfold numBlocked
          apply countP_succ_of_flip _ _ idx9 ⟨(d - 1).toNat, by omega⟩ idx9_nodup (mem_idx9 _)
          · simp only [decide_eq_false_iff_not]
            rw [h0]; decide
          · simp only [decide_eq_true_eq]
            rw [Mathlib.Vector.get_set_same]
          · intro x hx
            simp only
            rw [Mathlib.Vector.get_set_of_ne (fun h => hx h.symm)]
        rw [hflip, hcount]
        push_cast
        rfl
    · exact ⟨hflags, hcount⟩
  · exact ⟨hflags, hcount⟩

theorem Move.keeps_countsExact {g g' : Grid} (h : Move g g') (hc : countsExact g) :
    countsExact g' := by
  intro i j
  cases h with
  | assign r c v h0 _ h1 h9 =>
    rw [cellAt_setVal]
    split
    · exact hc r c
    · exact hc i j
  | mark r c d i' j' _ _ _ _ =>
    rw [cellAt_markCell]
    split
    · exact setConstraint_cellOK _ d (hc r c).1 (hc r c).2
    · exact hc i j

theorem Reach.countsExact {g g' : Grid} (h : Reach g g') (hc : countsExact g) :
    countsExact g' := by
  induction h with
  | refl => exact hc
  | tail _ hm ih => exact hm.keeps_countsExact ih

theorem Move.keeps_justified {g g' : Grid} (h : Move g g') (hj : justified g) :
    justified g' := by
  intro i j k hk
  cases h with
  | assign r c v h0 _ h1 h9 =>
    have hflag : (cellAt g i j).constraintsOnCell.get k = -1 := by
      rw [cellAt_setVal] at hk
      split at hk
      · rename_i hij; rw [hij.1, hij.2]; exact hk
      · exact hk
    obtain ⟨i2, j2, hp, hv⟩ := hj i j k hflag
    refine ⟨i2, j2, hp, ?_⟩
    rw [setVal_nVal_keep g r c v h0 i2 j2 (by rw [hv]; omega), hv]
  | mark r c d i' j' hp' hv' _ _ =>
    have hcases : (cellAt g i j).constraintsOnCell.get k = -1 ∨
        ((i = r ∧ j = c) ∧ (k.val : Int) + 1 = d) := by
      rw [cellAt_markCell] at hk
      split at hk
      · rename_i hij
        rcases setConstraint_flag_neg _ _ _ hk with h | h
        · left; rw [hij.1, hij.2]; exact h
        · right; exact ⟨hij, h⟩
      · left; exact hk
    rcases hcases with hflag | ⟨hij, hd⟩
    · obtain ⟨i2, j2, hp, hv⟩ := hj i j k hflag
      exact ⟨i2, j2, hp, by rw [markCell_nVal, hv]⟩
    · refine ⟨i', j', by rw [hij.1, hij.2]; exact hp', ?_⟩
      rw [markCell_nVal, hv', hd]

theorem Reach.justified {g g' : Grid} (h : Reach g g') (hj : justified g) :
    justified g' := by
  induction h with
  | refl => exact hj
  | tail _ hm ih => exact hm.keeps_justified ih

/-- With eight or more flags set, every digit other than the one `getLastRemainingValue`
reports is constrained. -/
theorem last_remaining_forced (c : Cell)
    (hflags : ∀ k, c.constraintsOnCell.get k = 0 ∨ c.constraintsOnCell.get k = -1)
    (hcount : c.nConstraintCount = (numBlocked c : Int)) (h8 : c.nConstraintCount ≥ 8)
    (k : Idx) (hk : (k.val : Int) + 1 ≠ c.getLastRemainingValue) :
    c.constraintsOnCell.get k = -1 := by
  by_contra hne
  have hk0 : c.constraintsOnCell.get k = 0 := by
    rcases hflags k with h | h
    · exact h
    · exact absurd h hne
  unfold Cell.getLastRemainingValue at hk
  rcases hf : idx9.find? (fun i => decide (c.constraintsOnCell.get i = 0)) with _ | i0
  · have := List.find?_eq_none.1 hf k (mem_idx9 k)
    simp only [decide_eq_true_eq] at this
    exact this hk0
  · rw [hf] at hk
    simp only at hk
    have hi0 : c.constraintsOnCell.get i0 = 0 := by
      have := List.find?_some hf
      simpa using this
    have hki : k ≠ i0 := fun h => hk (by rw [h])
    have h2 := countP_add_two_le (fun i => decide (c.constraintsOnCell.get i = -1)) idx9 k i0 hki
      (mem_idx9 k) (mem_idx9 i0) (by simp only [decide_eq_false_iff_not]; rw [hk0]; decide)
      (by simp only [decide_eq_false_iff_not]; rw [hi0]; decide)
    have hlen : idx9.length = 9 := rfl
    unfold numBlocked at hcount
    omega

/-! ## No solution is lost -/

theorem isSolution_distinctPeers (s : Idx → Idx → Int) (hsol : isSolution s)
    (hs : ∀ i j, 1 ≤ s i j ∧ s i j ≤ 9) : distinctPeers s := by
  intro i j i2 j2 hne hp heq
  obtain ⟨hrow, hcol, hbox⟩ := hsol (s i j) (hs i j).1 (hs i j).2
  rcases hp with h | h | ⟨h1, h2⟩
  · subst h
    obtain ⟨r, _, hu⟩ := hcol j2
    have e1 := hu i rfl
    have e2 := hu i2 heq.symm
    exact hne ⟨e1.trans e2.symm, rfl⟩
  · subst h
    obtain ⟨c, _, hu⟩ := hrow i2
    have e1 := hu j rfl
    have e2 := hu j2 heq.symm
    exact hne ⟨rfl, e1.trans e2.symm⟩
  · have hi := i.isLt
    have hj := j.isLt
    have hi2 := i2.isLt
    have hj2 := j2.isLt
    obtain ⟨ab, _, hu⟩ := hbox ⟨i.val / 3, by omega⟩ ⟨j.val / 3, by omega⟩
    have b1 : boxCell ⟨i.val / 3, by omega⟩ ⟨i.val % 3, Nat.mod_lt _ (by norm_num)⟩ = i := by
      apply Fin.ext; simp only [boxCell]; omega
    have b2 : boxCell ⟨j.val / 3, by omega⟩ ⟨j.val % 3, Nat.mod_lt _ (by norm_num)⟩ = j := by
      apply Fin.ext; simp only [boxCell]; omega
    have b3 : boxCell ⟨i.val / 3, by omega⟩ ⟨i2.val % 3, Nat.mod_lt _ (by norm_num)⟩ = i2 := by
      apply Fin.ext; simp only [boxCell]; omega
    have b4 : boxCell ⟨j.val / 3, by omega⟩ ⟨j2.val % 3, Nat.mod_lt _ (by norm_num)⟩ = j2 := by
      apply Fin.ext; simp only [boxCell]; omega
    have e1 := hu (⟨i.val % 3, Nat.mod_lt _ (by norm_num)⟩, ⟨j.val % 3, Nat.mod_lt _ (by norm_num)⟩)
      (by simp only; rw [b1, b2])
    have e2 := hu (⟨i2.val % 3, Nat.mod_lt _ (by norm_num)⟩,
      ⟨j2.val % 3, Nat.mod_lt _ (by norm_num)⟩) (by simp only; rw [b3, b4]; exact heq.symm)
    have e := e1.trans e2.symm
    have ea := congrArg (fun p : Fin 3 × Fin 3 => p.1.val) e
    have eb := congrArg (fun p : Fin 3 × Fin 3 => p.2.val) e
    simp only at ea eb
    apply hne
    constructor <;> apply Fin.ext <;> omega

/-- A digit constrained on an empty cell is not the value of that cell in any solution
that agrees with the grid. -/
theorem blocked_not_solution (g : Grid) (s : Idx → Idx → Int) (hj : justified g)
    (ha : agrees s g) (hd : distinctPeers s) (i j k : Idx) (h0 : (cellAt g i j).nVal = 0)
    (hk : (cellAt g i j).constraintsOnCell.get k = -1) : s i j ≠ (k.val : Int) + 1 := by
  obtain ⟨i2, j2, hp, hv⟩ := hj i j k hk
  have hs2 : s i2 j2 = (k.val : Int) + 1 := by rw [ha i2 j2 (by rw [hv]; omega), hv]
  have hne : ¬ (i = i2 ∧ j = j2) := by
    rintro ⟨rfl, rfl⟩
    rw [h0] at hv
    omega
  rw [← hs2]
  exact hd i j i2 j2 hne hp

/-- A digit that is not a valid assignment for an empty cell is not the value of that cell
in any solution that agrees with the grid. -/
theorem invalid_not_solution (g : Grid) (s : Idx → Idx → Int) (ha : agrees s g)
    (hd : distinctPeers s) (i j : Idx) (v : Int) (hv0 : v ≠ 0) (hv1 : v ≠ -1)
    (h0 : (cellAt g i j).nVal = 0) (hinv : isValidAssignment g i j v = false) : s i j ≠ v := by
  have hex : ∃ i2 j2, peer i j i2 j2 ∧ (cellAt g i2 j2).nVal = v := by
    by_contra hc
    have hvalid : isValidAssignment g i j v = true := by
      rw [isValidAssignment_iff_peer]
      refine ⟨hv1, ?_⟩
      intro i2 j2 hp hv
      exact hc ⟨i2, j2, hp, hv⟩
    rw [hinv] at hvalid
    cases hvalid
  obtain ⟨i2, j2, hp, hv⟩ := hex
  have hs2 : s i2 j2 = v := by rw [ha i2 j2 (by rw [hv]; exact hv0), hv]
  have hne : ¬ (i = i2 ∧ j = j2) := by
    rintro ⟨rfl, rfl⟩
    rw [h0] at hv
    exact hv0 hv.symm
  rw [← hs2]
  exact hd i j i2 j2 hne hp

theorem agrees_markCell (s : Idx → Idx → Int) (g : Grid) (r c : Idx) (d : Int)
    (ha : agrees s g) : agrees s (markCell g r c d) := by
  intro i j hne
  rw [markCell_nVal] at hne ⊢
  exact ha i j hne

theorem agrees_setVal (s : Idx → Idx → Int) (g : Grid) (r c : Idx) (ha : agrees s g) :
    agrees s (setVal g r c (s r c)) := by
  intro i j hne
  rw [cellAt_setVal] at hne ⊢
  split
  · rename_i hij; rw [hij.1, hij.2]
  · rename_i hij
    rw [if_neg hij] at hne
    exact ha i j hne

/-- A step of the propagation keeps every solution that agrees with the grid: it does not
fail, and the solution agrees with the grid after the step. -/
theorem propStep_solution (val : Int) (g : Grid) (s : Idx → Idx → Int) (r c : Idx)
    (hc : countsExact g) (hj : justified g) (ha : agrees s g) (hd : distinctPeers s)
    (hs : ∀ i j, 1 ≤ s i j ∧ s i j ≤ 9) (i j : Idx) (hp : peer r c i j)
    (hv : (cellAt g i j).nVal = val) (h1 : 1 ≤ val) (h9 : val ≤ 9) :
    (propStep val g r c).1 = true ∧ agrees s (propStep val g r c).2 := by
  have hmove : Move g (markCell g r c val) := Move.mark g r c val i j hp hv h1 h9
  have hc1 := hmove.keeps_countsExact hc
  have hj1 := hmove.keeps_justified hj
  have ha1 := agrees_markCell s g r c val ha
  rw [propStep_eq]
  split
  · rename_i hcond
    have hsr := hs r c
    -- the value of the solution at this cell is the last remaining value
    have hlast : (cellAt (markCell g r c val) r c).getLastRemainingValue = s r c := by
      by_contra hne
      have hk : (((⟨(s r c - 1).toNat, by omega⟩ : Idx).val : Int)) + 1 ≠
          (cellAt (markCell g r c val) r c).getLastRemainingValue := by
        simp only
        intro h
        apply hne
        rw [← h]
        omega
      have hflag := last_remaining_forced _ (hc1 r c).1 (hc1 r c).2 hcond.2 _ hk
      have := blocked_not_solution _ s hj1 ha1 hd r c _ hcond.1 hflag
      simp only at this
      omega
    rw [hlast]
    have hvalid : isValidAssignment (markCell g r c val) r c (s r c) = true := by
      by_contra hinv
      have := invalid_not_solution _ s ha1 hd r c (s r c) (by omega) (by omega) hcond.1
        (by simpa using hinv)
      exact this rfl
    rw [if_pos hvalid]
    exact ⟨rfl, agrees_setVal s _ r c ha1⟩
  · exact ⟨rfl, ha1⟩

theorem propLoop_solution (val : Int) (s : Idx → Idx → Int) (r0 c0 : Idx)
    (hd : distinctPeers s) (hs : ∀ i j, 1 ≤ s i j ∧ s i j ≤ 9) (h1 : 1 ≤ val) (h9 : val ≤ 9)
    (ps : List (Idx × Idx)) (hps : ∀ p ∈ ps, peer p.1 p.2 r0 c0) (g : Grid)
    (hc : countsExact g) (hj : justified g) (ha : agrees s g)
    (hv : (cellAt g r0 c0).nVal = val) :
    (propLoop val ps g).1 = true ∧ agrees s (propLoop val ps g).2 := by
  induction ps generalizing g with
  | nil => exact ⟨rfl, ha⟩
  | cons p ps ih =>
    have hp := hps p (List.mem_cons_self _ _)
    have hstep := propStep_solution val g s p.1 p.2 hc hj ha hd hs r0 c0 hp hv h1 h9
    have hreach := propStep_reach val g p.1 p.2 r0 c0 hp hv h1 h9
    rw [propLoop_cons, if_pos hstep.1]
    apply ih (fun q hq => hps q (List.mem_cons_of_mem _ hq)) _ (hreach.countsExact hc)
      (hreach.justified hj) hstep.2
    rw [hreach.nVal_keep r0 c0 (by rw [hv]; omega), hv]

theorem propogateConstraint_solution (g : Grid) (s : Idx → Idx → Int) (row col : Idx)
    (val : Int) (hd : distinctPeers s) (hs : ∀ i j, 1 ≤ s i j ∧ s i j ≤ 9) (h1 : 1 ≤ val)
    (h9 : val ≤ 9) (hc : countsExact g) (hj : justified g) (ha : agrees s g)
    (hv : (cellAt g row col).nVal = val) :
    (propogateConstraint g row col val).1 = true ∧
      agrees s (propogateConstraint g row col val).2 := by
  rw [propogateConstraint_eq]
  apply propLoop_solution val s row col hd hs h1 h9 _ _ g hc hj ha hv
  intro p hp
  exact peer_symm ((mem_unitCells _ _ _).1 hp)

/-- If `solveSudoku` returns false on a grid whose flags and counts are exact and
justified, no solved Sudoku agrees with the grid. -/
theorem solveSudoku_false_complete (fuel : Nat) :
    ∀ (g g' : Grid), countsExact g → justified g → solveSudoku fuel g = some (false, g') →
      ∀ s : Idx → Idx → Int, (∀ i j, 1 ≤ s i j ∧ s i j ≤ 9) → distinctPeers s →
        ¬ agrees s g := by
  induction fuel with
  | zero => intro g g' _ _ h; rw [solveSudoku] at h; cases h
  | succ n ih =>
    intro g g' hc hj h s hs hd ha
    rw [solveSudoku] at h
    rcases hn : getNextEmptyCellByConstraintCount g with _ | ⟨r, c⟩
    · rw [hn] at h; cases h
    · rw [hn] at h
      have h0 := (getNext_some g r c hn).1
      have hsr := hs r c
      have hfail := ((solveLoop_spec _ (solveSudoku_false n) r c g idx9 _ h).1 rfl).2
        ⟨(s r c - 1).toNat, by omega⟩ (mem_idx9 _)
      have hval : (((⟨(s r c - 1).toNat, by omega⟩ : Idx).val : Int)) + 1 = s r c := by
        simp only; omega
      unfold attemptFails at hfail
      rw [hval] at hfail
      have hnb : ¬ (cellAt g r c).constraintsOnCell.get ⟨(s r c - 1).toNat, by omega⟩ = -1 := by
        intro hb
        have := blocked_not_solution g s hj ha hd r c _ h0 hb
        exact this hval.symm
      have hvalid : isValidAssignment g r c (s r c) = true := by
        by_contra hinv
        exact invalid_not_solution g s ha hd r c (s r c) (by omega) (by omega) h0
          (by simpa using hinv) rfl
      have hmove : Move g (setVal g r c (s r c)) :=
        Move.assign g r c _ h0 hvalid hsr.1 hsr.2
      have hprop := propogateConstraint_solution (setVal g r c (s r c)) s r c (s r c) hd hs
        hsr.1 hsr.2 (hmove.keeps_countsExact hc) (hmove.keeps_justified hj)
        (agrees_setVal s g r c ha) (cellAt_setVal_self g r c _)
      have hreach := propogateConstraint_reach (setVal g r c (s r c)) r c (s r c) hsr.1 hsr.2
        (cellAt_setVal_self g r c _)
      rcases hfail with hb | hinv | hpf | hrec
      · exact hnb hb
      · rw [hvalid] at hinv; cases hinv
      · rw [hprop.1] at hpf; cases hpf
      · exact ih _ _ (hreach.countsExact (hmove.keeps_countsExact hc))
          (hreach.justified (hmove.keeps_justified hj)) hrec s hs hd hprop.2

theorem numBlocked_ofVal (v : Int) : numBlocked (Cell.ofVal v) = 0 := by
  unfold numBlocked
  rw [List.countP_eq_zero]
  intro k _
  simp only [Cell.ofVal, Mathlib.Vector.get_replicate]
  decide

theorem mkGrid_countsExact (vals : Idx → Idx → Int) : countsExact (mkGrid vals) := by
  intro i j
  rw [cellAt_mkGrid]
  refine ⟨?_, ?_⟩
  · intro k
    left
    simp only [Cell.ofVal, Mathlib.Vector.get_replicate]
  · rw [numBlocked_ofVal]; rfl

theorem mkGrid_justified (vals : Idx → Idx → Int) : justified (mkGrid vals) := by
  intro i j k hk
  rw [cellAt_mkGrid] at hk
  simp only [Cell.ofVal, Mathlib.Vector.get_replicate] at hk
  exact absurd hk (by decide)

theorem loadGrid_countsExact (vals : Idx → Idx → Int) (hwf : wellFormed vals) :
    countsExact (loadGrid vals) :=
  (loadGrid_reach vals hwf).countsExact (mkGrid_countsExact vals)

theorem loadGrid_justified (vals : Idx → Idx → Int) (hwf : wellFormed vals) :
    justified (loadGrid vals) :=
  (loadGrid_reach vals hwf).justified (mkGrid_justified vals)

/-! ## A repeated clue in a row -/

theorem sum_indicator_eq_one {α : Type} [Fintype α] [DecidableEq α] (p : α → Prop)
    [DecidablePred p] (h : ∃! x, p x) : (∑ x : α, if p x then 1 else 0) = 1 := by
  obtain ⟨x0, hx0, hu⟩ := h
  rw [Finset.sum_eq_single x0]
  · rw [if_pos hx0]
  · intro y _ hy
    rw [if_neg (fun hp => hy (hu y hp))]
  · intro hx
    exact absurd (Finset.mem_univ x0) hx

theorem two_le_sum_indicator {α : Type} [Fintype α] [DecidableEq α] (p : α → Prop)
    [DecidablePred p] (a b : α) (hab : a ≠ b) (ha : p a) (hb : p b) :
    2 ≤ (∑ x : α, if p x then 1 else 0) := by
  have hsub : ({a, b} : Finset α) ⊆ Finset.univ := Finset.subset_univ _
  have hle := Finset.sum_le_sum_of_subset (f := fun x => if p x then 1 else 0) hsub
  rw [Finset.sum_pair hab, if_pos ha, if_pos hb] at hle
  exact hle

/-- A full grid of digits cannot have all columns and all rows but one free of repeated
digits while that one row repeats a digit. -/
theorem no_grid_with_row_pair (f : Idx → Idx → Int) (hr : ∀ i j, 1 ≤ f i j ∧ f i j ≤ 9)
    (r a b : Idx) (hab : a ≠ b) (heq : f r a = f r b)
    (hcol : ∀ i i2 j, f i j = f i2 j → i = i2)
    (hrow : ∀ i j j2, i ≠ r → f i j = f i j2 → j = j2) : False := by
  have hd := hr r a
  have hcols : ∀ j : Idx, (∑ i : Idx, if f i j = f r a then 1 else 0) = 1 := by
    intro j
    apply sum_indicator_eq_one
    exact exactly_once (by simp) (fun i => f i j) (fun i => hr i j) (fun x y h => hcol x y j h)
      (f r a) hd.1 hd.2
  have hrows : ∀ i : Idx, i ≠ r → (∑ j : Idx, if f i j = f r a then 1 else 0) = 1 := by
    intro i hi
    apply sum_indicator_eq_one
    exact exactly_once (by simp) (fun j => f i j) (fun j => hr i j) (fun x y h => hrow i x y hi h)
      (f r a) hd.1 hd.2
  have hrowr : 2 ≤ (∑ j : Idx, if f r j = f r a then 1 else 0) :=
    two_le_sum_indicator (fun j => f r j = f r a) a b hab rfl heq.symm
  have hcomm : (∑ i : Idx, ∑ j : Idx, if f i j = f r a then 1 else 0)
      = ∑ j : Idx, ∑ i : Idx, if f i j = f r a then 1 else 0 := Finset.sum_comm
  have hright : (∑ j : Idx, ∑ i : Idx, if f i j = f r a then 1 else 0) = 9 := by
    rw [Finset.sum_congr rfl (fun j _ => hcols j)]
    simp
  have hleft : 10 ≤ (∑ i : Idx, ∑ j : Idx, if f i j = f r a then 1 else 0) := by
    rw [← Finset.add_sum_erase Finset.univ _ (Finset.mem_univ r)]
    have herase : (∑ i ∈ Finset.univ.erase r, ∑ j : Idx, if f i j = f r a then 1 else 0) = 8 := by
      rw [Finset.sum_congr rfl (fun i hi => hrows i (Finset.ne_of_mem_erase hi))]
      simp
    omega
  omega

/-! ## The two methods of `Cell` -/

theorem setConstraint_digit (c : Cell) (k : Idx) :
    c.setConstraint ((k.val : Int) + 1) =
      if c.constraintsOnCell.get k = 0 then
        { nVal := c.nVal
          nConstraintCount := c.nConstraintCount + 1
          constraintsOnCell := c.constraintsOnCell.set k (-1) }
      else c := by
  have hk := k.isLt
  have hidx : (⟨((k.val : Int) + 1 - 1).toNat, by omega⟩ : Idx) = k := by
    apply Fin.ext
    simp
  unfold Cell.setConstraint
  rw [dif_pos (by omega)]
  simp only
  rw [hidx]

theorem setConstraint_digit_flag (c : Cell) (k : Idx) :
    (c.setConstraint ((k.val : Int) + 1)).constraintsOnCell.get k ≠ 0 := by
  rw [setConstraint_digit]
  split
  · simp only
    rw [Mathlib.Vector.get_set_same]
    decide
  · assumption

theorem setConstraint_twice (c : Cell) (k : Idx) :
    (c.setConstraint ((k.val : Int) + 1)).setConstraint ((k.val : Int) + 1)
      = c.setConstraint ((k.val : Int) + 1) := by
  rw [setConstraint_digit (c.setConstraint ((k.val : Int) + 1)) k,
    if_neg (setConstraint_digit_flag c k)]

theorem find?_sorted_eq_some {α : Type} [LinearOrder α] (p : α → Bool) (l : List α)
    (hs : l.Pairwise (· < ·)) (a : α) :
    l.find? p = some a ↔ a ∈ l ∧ p a = true ∧ ∀ x ∈ l, x < a → p x = false := by
  induction l with
  | nil => simp
  | cons b l ih =>
    rw [List.pairwise_cons] at hs
    by_cases hb : p b = true
    · rw [List.find?_cons_of_pos _ hb]
      constructor
      · intro h
        have hab : b = a := Option.some.inj h
        subst hab
        refine ⟨List.mem_cons_self _ _, hb, ?_⟩
        intro x hx hlt
        rcases List.mem_cons.1 hx with h | h
        · rw [h] at hlt; exact absurd hlt (lt_irrefl _)
        · exact absurd (lt_trans (hs.1 x h) hlt) (lt_irrefl _)
      · rintro ⟨hmem, hpa, hmin⟩
        rcases List.mem_cons.1 hmem with h | h
        · rw [h]
        · have := hmin b (List.mem_cons_self _ _) (hs.1 a h)
          rw [hb] at this; cases this
    · rw [List.find?_cons_of_neg _ hb, ih hs.2]
      constructor
      · rintro ⟨hmem, hpa, hmin⟩
        refine ⟨List.mem_cons_of_mem _ hmem, hpa, ?_⟩
        intro x hx hlt
        rcases List.mem_cons.1 hx with h | h
        · rw [h]; simpa using hb
        · exact hmin x h hlt
      · rintro ⟨hmem, hpa, hmin⟩
        rcases List.mem_cons.1 hmem with h | h
        · rw [h] at hpa; exact absurd hpa hb
        · exact ⟨h, hpa, fun x hx hlt => hmin x (List.mem_cons_of_mem _ hx) hlt⟩

theorem idx9_sorted : idx9.Pairwise (· < ·) := by decide

theorem getLastRemainingValue_eq_digit (c : Cell) (k : Idx) :
    c.getLastRemainingValue = (k.val : Int) + 1 ↔
      c.constraintsOnCell.get k = 0 ∧ ∀ k2 : Idx, k2 < k → c.constraintsOnCell.get k2 ≠ 0 := by
  unfold Cell.getLastRemainingValue
  rcases hf : idx9.find? (fun i => decide (c.constraintsOnCell.get i = 0)) with _ | i0
  · have hnone := List.find?_eq_none.1 hf
    simp only
    constructor
    · intro h; have := k.isLt; omega
    · rintro ⟨h0, _⟩
      have := hnone k (mem_idx9 k)
      simp only [decide_eq_true_eq] at this
      exact absurd h0 this
  · have hsome := (find?_sorted_eq_some _ idx9 idx9_sorted i0).1 hf
    simp only [decide_eq_true_eq, decide_eq_false_iff_not] at hsome
    simp only
    constructor
    · intro h
      have hik : i0 = k := by apply Fin.ext; omega
      subst hik
      exact ⟨hsome.2.1, fun k2 hlt => hsome.2.2 k2 (mem_idx9 _) hlt⟩
    · rintro ⟨h0, hmin⟩
      have h1 : ¬ i0 < k := fun hlt => hmin i0 hlt hsome.2.1
      have h2 : ¬ k < i0 := fun hlt => hsome.2.2 k (mem_idx9 _) hlt h0
      have hik : i0 = k := le_antisymm (not_lt.1 h2) (not_lt.1 h1)
      rw [hik]

theorem getLastRemainingValue_eq_neg_one (c : Cell) :
    c.getLastRemainingValue = -1 ↔ ∀ k : Idx, c.constraintsOnCell.get k ≠ 0 := by
  unfold Cell.getLastRemainingValue
  rcases hf : idx9.find? (fun i => decide (c.constraintsOnCell.get i = 0)) with _ | i0
  · have hnone := List.find?_eq_none.1 hf
    simp only [true_iff]
    intro k
    have := hnone k (mem_idx9 k)
    simpa using this
  · have hsome := List.find?_some hf
    simp only [decide_eq_true_eq] at hsome
    simp only
    constructor
    · intro h; have := i0.isLt; omega
    · intro h; exact absurd hsome (h i0)

/-! ## What `setInitialCellConstraints` records -/

/-! ### Flags, once set, stay set -/

theorem setConstraint_flag_keep (c : Cell) (d : Int) (k : Idx)
    (h : c.constraintsOnCell.get k = -1) : (c.setConstraint d).constraintsOnCell.get k = -1 := by
  unfold Cell.setConstraint
  split
  · simp only
    split
    · rename_i h0
      simp only
      rw [Mathlib.Vector.get_set_eq_if]
      split
      · rfl
      · exact h
    · exact h
  · exact h

theorem markCell_flag_keep (g : Grid) (r c : Idx) (d : Int) (i j k : Idx)
    (h : (cellAt g i j).constraintsOnCell.get k = -1) :
    (cellAt (markCell g r c d) i j).constraintsOnCell.get k = -1 := by
  rw [cellAt_markCell]
  split
  · rename_i hij
    rw [hij.1, hij.2] at h
    exact setConstraint_flag_keep _ d k h
  · exact h

theorem markCell_frame (g : Grid) (r c : Idx) (d : Int) (i j : Idx) (hne : ¬ (i = r ∧ j = c)) :
    cellAt (markCell g r c d) i j = cellAt g i j := by
  rw [cellAt_markCell, if_neg hne]

theorem markCell_countsExact (g : Grid) (r c : Idx) (d : Int) (hc : countsExact g) :
    countsExact (markCell g r c d) := by
  intro i j
  rw [cellAt_markCell]
  split
  · exact setConstraint_cellOK _ d (hc r c).1 (hc r c).2
  · exact hc i j

theorem setVal_countsExact (g : Grid) (r c : Idx) (v : Int) (hc : countsExact g) :
    countsExact (setVal g r c v) := by
  intro i j
  rw [cellAt_setVal]
  split
  · exact hc r c
  · exact hc i j

/-- Marking digit `k + 1` on a cell whose flag for it is `0` or `-1` leaves the flag `-1`. -/
theorem markCell_sets (g : Grid) (r c k : Idx)
    (hflag : (cellAt g r c).constraintsOnCell.get k = 0 ∨
      (cellAt g r c).constraintsOnCell.get k = -1) :
    (cellAt (markCell g r c ((k.val : Int) + 1)) r c).constraintsOnCell.get k = -1 := by
  rw [cellAt_markCell, if_pos ⟨rfl, rfl⟩, setConstraint_digit]
  split
  · simp only
    rw [Mathlib.Vector.get_set_same]
  · rename_i h0
    rcases hflag with h | h
    · exact absurd h h0
    · exact h

/-! ### The loops of `setInitialCellConstraints` -/

theorem constrainFrom_cons (i j : Idx) (g : Grid) (p : Idx × Idx) (src : List (Idx × Idx)) :
    constrainFrom i j g (p :: src) =
      constrainFrom i j
        (if (cellAt g p.1 p.2).nVal ≠ 0 then markCell g i j (cellAt g p.1 p.2).nVal else g) src :=
  rfl

theorem constrainFrom_frame (i j : Idx) (src : List (Idx × Idx)) (g : Grid) (a b : Idx)
    (hne : ¬ (a = i ∧ b = j)) : cellAt (constrainFrom i j g src) a b = cellAt g a b := by
  induction src generalizing g with
  | nil => rfl
  | cons p src ih =>
    rw [constrainFrom_cons, ih]
    split
    · exact markCell_frame g i j _ a b hne
    · rfl

theorem constrainFrom_nVal (i j : Idx) (src : List (Idx × Idx)) (g : Grid) (a b : Idx) :
    (cellAt (constrainFrom i j g src) a b).nVal = (cellAt g a b).nVal := by
  induction src generalizing g with
  | nil => rfl
  | cons p src ih =>
    rw [constrainFrom_cons, ih]
    split
    · exact markCell_nVal g i j _ a b
    · rfl

theorem constrainFrom_countsExact (i j : Idx) (src : List (Idx × Idx)) (g : Grid)
    (hc : countsExact g) : countsExact (constrainFrom i j g src) := by
  induction src generalizing g with
  | nil => exact hc
  | cons p src ih =>
    rw [constrainFrom_cons]
    apply ih
    split
    · exact markCell_countsExact g i j _ hc
    · exact hc

theorem constrainFrom_flag_keep (i j : Idx) (src : List (Idx × Idx)) (g : Grid) (a b k : Idx)
    (h : (cellAt g a b).constraintsOnCell.get k = -1) :
    (cellAt (constrainFrom i j g src) a b).constraintsOnCell.get k = -1 := by
  induction src generalizing g with
  | nil => exact h
  | cons p src ih =>
    rw [constrainFrom_cons]
    apply ih
    split
    · exact markCell_flag_keep g i j _ a b k h
    · exact h

/-- After the loop over `src`, the digit of every non-empty cell of `src` is marked. -/
theorem constrainFrom_sets (i j : Idx) (src : List (Idx × Idx)) (g : Grid)
    (hc : countsExact g) (q : Idx × Idx) (hq : q ∈ src) (k : Idx)
    (hv : (cellAt g q.1 q.2).nVal = (k.val : Int) + 1) :
    (cellAt (constrainFrom i j g src) i j).constraintsOnCell.get k = -1 := by
  induction src generalizing g with
  | nil => cases hq
  | cons p src ih =>
    rw [constrainFrom_cons]
    rcases List.mem_cons.1 hq with hqp | hqs
    · subst hqp
      have hne : (cellAt g q.1 q.2).nVal ≠ 0 := by rw [hv]; omega
      rw [if_pos hne]
      apply constrainFrom_flag_keep
      rw [hv]
      exact markCell_sets g i j k ((hc i j).1 k)
    · split
      · exact ih _ (markCell_countsExact g i j _ hc) hqs (by rw [markCell_nVal]; exact hv)
      · exact ih _ hc hqs hv

theorem initCell_frame (g : Grid) (p : Idx × Idx) (a b : Idx) (hne : ¬ (a = p.1 ∧ b = p.2)) :
    cellAt (initCell g p) a b = cellAt g a b := by
  unfold initCell
  split
  · rw [constrainFrom_frame _ _ _ _ _ _ hne, constrainFrom_frame _ _ _ _ _ _ hne,
      constrainFrom_frame _ _ _ _ _ _ hne]
  · rfl

theorem initCell_nVal (g : Grid) (p : Idx × Idx) (a b : Idx) :
    (cellAt (initCell g p) a b).nVal = (cellAt g a b).nVal := by
  unfold initCell
  split
  · rw [constrainFrom_nVal, constrainFrom_nVal, constrainFrom_nVal]
  · rfl

theorem initCell_countsExact (g : Grid) (p : Idx × Idx) (hc : countsExact g) :
    countsExact (initCell g p) := by
  unfold initCell
  split
  · exact constrainFrom_countsExact _ _ _ _
      (constrainFrom_countsExact _ _ _ _ (constrainFrom_countsExact _ _ _ _ hc))
  · exact hc

theorem initCell_flag_keep (g : Grid) (p : Idx × Idx) (a b k : Idx)
    (h : (cellAt g a b).constraintsOnCell.get k = -1) :
    (cellAt (initCell g p) a b).constraintsOnCell.get k = -1 := by
  unfold initCell
  split
  · exact constrainFrom_flag_keep _ _ _ _ _ _ _
      (constrainFrom_flag_keep _ _ _ _ _ _ _ (constrainFrom_flag_keep _ _ _ _ _ _ _ h))
  · exact h

/-- The body of the double loop marks on an empty cell the digit of every non-empty cell of
its unit. -/
theorem initCell_sets (g : Grid) (p : Idx × Idx) (hc : countsExact g)
    (h0 : (cellAt g p.1 p.2).nVal = 0) (i2 j2 k : Idx) (hp : peer p.1 p.2 i2 j2)
    (hv : (cellAt g i2 j2).nVal = (k.val : Int) + 1) :
    (cellAt (initCell g p) p.1 p.2).constraintsOnCell.get k = -1 := by
  unfold initCell
  rw [if_pos h0]
  rcases hp with h | h | h
  · apply constrainFrom_flag_keep
    exact constrainFrom_sets p.1 p.2 _ _ (constrainFrom_countsExact _ _ _ _ hc) (i2, j2)
      ((mem_colCells _ _).2 h) k (by rw [constrainFrom_nVal]; exact hv)
  · apply constrainFrom_flag_keep
    apply constrainFrom_flag_keep
    exact constrainFrom_sets p.1 p.2 _ _ hc (i2, j2) ((mem_rowCells _ _).2 h) k hv
  · exact constrainFrom_sets p.1 p.2 _ _
      (constrainFrom_countsExact _ _ _ _ (constrainFrom_countsExact _ _ _ _ hc)) (i2, j2)
      ((mem_boxCells _ _ _).2 h) k (by rw [constrainFrom_nVal, constrainFrom_nVal]; exact hv)

theorem foldl_initCell_nVal (l : List (Idx × Idx)) (g : Grid) (a b : Idx) :
    (cellAt (l.foldl initCell g) a b).nVal = (cellAt g a b).nVal := by
  apply foldl_invariant (fun g2 => (cellAt g2 a b).nVal = (cellAt g a b).nVal) initCell l _ g rfl
  intro g2 p _ h
  rw [initCell_nVal]; exact h

theorem foldl_initCell_countsExact (l : List (Idx × Idx)) (g : Grid) (hc : countsExact g) :
    countsExact (l.foldl initCell g) :=
  foldl_invariant countsExact initCell l (fun g2 p _ h => initCell_countsExact g2 p h) g hc

theorem foldl_initCell_flag_keep (l : List (Idx × Idx)) (g : Grid) (a b k : Idx)
    (h : (cellAt g a b).constraintsOnCell.get k = -1) :
    (cellAt (l.foldl initCell g) a b).constraintsOnCell.get k = -1 :=
  foldl_invariant (fun g2 => (cellAt g2 a b).constraintsOnCell.get k = -1) initCell l
    (fun g2 p _ h2 => initCell_flag_keep g2 p a b k h2) g h

theorem setInitialCellConstraints_countsExact (g : Grid) (hc : countsExact g) :
    countsExact (setInitialCellConstraints g) :=
  foldl_initCell_countsExact scanOrder g hc

/-- After `setInitialCellConstraints`, the digit of every non-empty cell is marked on every
empty cell of its unit. -/
theorem setInitialCellConstraints_sets (g : Grid) (hc : countsExact g) (i j i2 j2 k : Idx)
    (h0 : (cellAt g i j).nVal = 0) (hp : peer i j i2 j2)
    (hv : (cellAt g i2 j2).nVal = (k.val : Int) + 1) :
    (cellAt (setInitialCellConstraints g) i j).constraintsOnCell.get k = -1 := by
  obtain ⟨l1, l2, hl⟩ := List.append_of_mem (mem_scanOrder (i, j))
  unfold setInitialCellConstraints
  rw [hl, List.foldl_append, List.foldl_cons]
  apply foldl_initCell_flag_keep
  exact initCell_sets _ (i, j) (foldl_initCell_countsExact l1 g hc)
    (by rw [foldl_initCell_nVal]; exact h0) i2 j2 k hp (by rw [foldl_initCell_nVal]; exact hv)

/-- A non-empty cell is not touched by `setInitialCellConstraints`. -/
theorem setInitialCellConstraints_nonempty (g : Grid) (i j : Idx)
    (hne : (cellAt g i j).nVal ≠ 0) :
    cellAt (setInitialCellConstraints g) i j = cellAt g i j := by
  unfold setInitialCellConstraints
  apply foldl_invariant (fun g2 => cellAt g2 i j = cellAt g i j) initCell scanOrder _ g rfl
  intro g2 p _ h
  by_cases hp : i = p.1 ∧ j = p.2
  · have hnz : ¬ (cellAt g2 p.1 p.2).nVal = 0 := by
      rw [← hp.1, ← hp.2, h]; exact hne
    unfold initCell
    rw [if_neg hnz]; exact h
  · rw [initCell_frame g2 p i j hp]; exact h

/-! ## Exact counts are kept by every operation -/

theorem propStep_countsExact (val : Int) (g : Grid) (r c : Idx) (hc : countsExact g) :
    countsExact (propStep val g r c).2 := by
  have hm := markCell_countsExact g r c val hc
  rw [propStep_eq]
  split
  · split
    · exact setVal_countsExact _ r c _ hm
    · exact hm
  · exact hm

theorem propLoop_countsExact (val : Int) (ps : List (Idx × Idx)) (g : Grid)
    (hc : countsExact g) : countsExact (propLoop val ps g).2 := by
  induction ps generalizing g with
  | nil => exact hc
  | cons p ps ih =>
    rw [propLoop_cons]
    split
    · exact ih _ (propStep_countsExact val g p.1 p.2 hc)
    · exact propStep_countsExact val g p.1 p.2 hc

theorem propogateConstraint_countsExact (g : Grid) (row col : Idx) (val : Int)
    (hc : countsExact g) : countsExact (propogateConstraint g row col val).2 := by
  rw [propogateConstraint_eq]
  exact propLoop_countsExact val _ g hc

theorem copyUnit_countsExact (row col : Idx) (src dst : Grid) (hs : countsExact src)
    (hd : countsExact dst) : countsExact (copyUnit row col src dst) := by
  intro i j
  rw [copyUnit_apply]
  split
  · exact hs i j
  · exact hd i j

theorem numBlocked_le (c : Cell) : numBlocked c ≤ 9 := by
  unfold numBlocked
  exact le_trans (List.countP_le_length _) (by decide)

theorem freshGrid_countsExact : countsExact freshGrid := by
  intro i j
  have hcell : cellAt freshGrid i j = Cell.fresh := by
    unfold cellAt freshGrid
    rw [Mathlib.Vector.get_replicate, Mathlib.Vector.get_replicate]
  rw [hcell]
  constructor
  · intro k
    left
    simp only [Cell.fresh, Mathlib.Vector.get_replicate]
  · decide

/-! ## The record of the calls of `solveSudoku` -/

theorem solveLoopLog_cons (again : Grid → Option (Bool × Grid × List Grid)) (r c k : Idx)
    (ks : List Idx) (g : Grid) :
    solveLoopLog again r c (k :: ks) g =
      if (cellAt g r c).constraintsOnCell.get k = -1 then solveLoopLog again r c ks g
      else if isValidAssignment g r c ((k.val : Int) + 1) = true then
        if (propogateConstraint (setVal g r c ((k.val : Int) + 1)) r c ((k.val : Int) + 1)).1
            = true then
          match again (propogateConstraint (setVal g r c ((k.val : Int) + 1)) r c
              ((k.val : Int) + 1)).2 with
          | none => none
          | some (true, g3, log) => some (true, g3, log)
          | some (false, g3, log) =>
            match solveLoopLog again r c ks (copyUnit r c (copyUnit r c g freshGrid) g3) with
            | none => none
            | some (b, g4, log2) => some (b, g4, log ++ log2)
        else solveLoopLog again r c ks (copyUnit r c (copyUnit r c g freshGrid)
          (propogateConstraint (setVal g r c ((k.val : Int) + 1)) r c ((k.val : Int) + 1)).2)
      else solveLoopLog again r c ks g := by
  rw [solveLoopLog]
  rcases h : propogateConstraint (setVal g r c ((k.val : Int) + 1)) r c ((k.val : Int) + 1)
    with ⟨b, g2⟩
  cases b
  · simp
  · rfl

/-- The loop with the record computes what the loop without it computes. -/
theorem solveLoopLog_dropLog (againL : Grid → Option (Bool × Grid × List Grid))
    (again : Grid → Option (Bool × Grid)) (hag : ∀ x, dropLog (againL x) = again x)
    (r c : Idx) (ks : List Idx) :
    ∀ g, dropLog (solveLoopLog againL r c ks g) = solveLoop again r c ks g := by
  induction ks with
  | nil => intro g; rw [solveLoopLog, solveLoop]; rfl
  | cons k ks ih =>
    intro g
    rw [solveLoopLog_cons, solveLoop_cons]
    split
    · exact ih g
    · split
      · split
        · rw [← hag]
          rcases againL (propogateConstraint (setVal g r c ((k.val : Int) + 1)) r c
              ((k.val : Int) + 1)).2 with _ | ⟨b, g3, log⟩
          · rfl
          · cases b
            · simp only [dropLog]
              rw [← ih]
              rcases solveLoopLog againL r c ks (copyUnit r c (copyUnit r c g freshGrid) g3)
                with _ | ⟨b2, g4, log2⟩
              · rfl
              · rfl
            · rfl
        · exact ih _
      · exact ih g

theorem solveSudokuLog_dropLog (fuel : Nat) :
    ∀ g, dropLog (solveSudokuLog fuel g) = solveSudoku fuel g := by
  induction fuel with
  | zero => intro g; rw [solveSudokuLog, solveSudoku]; rfl
  | succ n ih =>
    intro g
    rw [solveSudokuLog, solveSudoku]
    rcases getNextEmptyCellByConstraintCount g with _ | ⟨r, c⟩
    · rfl
    · simp only
      rw [← solveLoopLog_dropLog (solveSudokuLog n) (solveSudoku n) ih r c idx9 g]
      rcases solveLoopLog (solveSudokuLog n) r c idx9 g with _ | ⟨b, g2, log⟩
      · rfl
      · rfl

theorem doSolveLog_dropLog (g : Grid) : dropLog (doSolveLog g) = doSolve g :=
  solveSudokuLog_dropLog 82 g

theorem solveSudokuLog_false (fuel : Nat) (g g' : Grid) (log : List Grid)
    (h : solveSudokuLog fuel g = some (false, g', log)) : g' = g := by
  have hd := solveSudokuLog_dropLog fuel g
  rw [h] at hd
  exact solveSudoku_false fuel g g' hd.symm

theorem solveLoopLog_reach (againL : Grid → Option (Bool × Grid × List Grid))
    (hrec : ∀ x b y log, againL x = some (b, y, log) →
      (b = false → y = x) ∧ ∀ z ∈ log, Reach x z)
    (r c : Idx) (g : Grid) (ks : List Idx) :
    ∀ b y log, solveLoopLog againL r c ks g = some (b, y, log) →
      ∀ z ∈ log, ∃ k : Idx, isValidAssignment g r c ((k.val : Int) + 1) = true ∧
        Reach (propogateConstraint (setVal g r c ((k.val : Int) + 1)) r c
          ((k.val : Int) + 1)).2 z := by
  induction ks with
  | nil =>
    intro b y log h z hz
    rw [solveLoopLog] at h
    simp only [Option.some.injEq, Prod.mk.injEq] at h
    rw [← h.2.2] at hz
    cases hz
  | cons k ks ih =>
    intro b y log h z hz
    rw [solveLoopLog_cons] at h
    have hrestore := copyUnit_restore r c g
      (propogateConstraint (setVal g r c ((k.val : Int) + 1)) r c ((k.val : Int) + 1)).2
      (attempt_frame g r c _)
    by_cases h1 : (cellAt g r c).constraintsOnCell.get k = -1
    · rw [if_pos h1] at h
      exact ih b y log h z hz
    · rw [if_neg h1] at h
      by_cases h2 : isValidAssignment g r c ((k.val : Int) + 1) = true
      · rw [if_pos h2] at h
        by_cases h3 : (propogateConstraint (setVal g r c ((k.val : Int) + 1)) r c
            ((k.val : Int) + 1)).1 = true
        · rw [if_pos h3] at h
          rcases h4 : againL (propogateConstraint (setVal g r c ((k.val : Int) + 1)) r c
              ((k.val : Int) + 1)).2 with _ | ⟨b1, g3, log1⟩
          · rw [h4] at h; cases h
          · rw [h4] at h
            obtain ⟨hfalse, hlog1⟩ := hrec _ _ _ _ h4
            cases b1
            · simp only at h
              have hg3 := hfalse rfl
              subst hg3
              rw [hrestore] at h
              rcases h5 : solveLoopLog againL r c ks g with _ | ⟨b2, g4, log2⟩
              · rw [h5] at h; cases h
              · rw [h5] at h
                simp only [Option.some.injEq, Prod.mk.injEq] at h
                rw [← h.2.2] at hz
                rcases List.mem_append.1 hz with hz1 | hz2
                · exact ⟨k, h2, hlog1 z hz1⟩
                · exact ih b2 g4 log2 h5 z hz2
            · simp only [Option.some.injEq, Prod.mk.injEq] at h
              rw [← h.2.2] at hz
              exact ⟨k, h2, hlog1 z hz⟩
        · rw [if_neg h3, hrestore] at h
          exact ih b y log h z hz
      · rw [if_neg h2] at h
        exact ih b y log h z hz

/-- Every grid on which `solveSudoku` is entered is reached from the grid of the outermost
call by elementary moves; the first entry of the record is that grid itself. -/
theorem solveSudokuLog_reach (fuel : Nat) :
    ∀ g b g' log, solveSudokuLog fuel g = some (b, g', log) →
      g ∈ log ∧ ∀ z ∈ log, Reach g z := by
  induction fuel with
  | zero => intro g b g' log h; rw [solveSudokuLog] at h; cases h
  | succ n ih =>
    intro g b g' log h
    rw [solveSudokuLog] at h
    rcases hn : getNextEmptyCellByConstraintCount g with _ | ⟨r, c⟩
    · rw [hn] at h
      simp only [Option.some.injEq, Prod.mk.injEq] at h
      rw [← h.2.2]
      refine ⟨List.mem_singleton_self g, ?_⟩
      intro z hz
      rw [List.mem_singleton.1 hz]
      exact Reach.refl g
    · rw [hn] at h
      simp only at h
      rcases hl : solveLoopLog (solveSudokuLog n) r c idx9 g with _ | ⟨b2, g2, log2⟩
      · rw [hl] at h; cases h
      · rw [hl] at h
        simp only [Option.some.injEq, Prod.mk.injEq] at h
        rw [← h.2.2]
        refine ⟨List.mem_cons_self _ _, ?_⟩
        intro z hz
        rcases List.mem_cons.1 hz with hz | hz
        · rw [hz]; exact Reach.refl g
        · have hrec : ∀ x b y log, solveSudokuLog n x = some (b, y, log) →
              (b = false → y = x) ∧ ∀ z ∈ log, Reach x z := by
            intro x b3 y log3 hx
            refine ⟨?_, (ih x b3 y log3 hx).2⟩
            intro hb
            subst hb
            exact solveSudokuLog_false n x y log3 hx
          obtain ⟨k, hvalid, hreach⟩ :=
            solveLoopLog_reach _ hrec r c g idx9 b2 g2 log2 hl z hz
          have hk := k.isLt
          have h1 : (1 : Int) ≤ (k.val : Int) + 1 := by omega
          have h9 : (k.val : Int) + 1 ≤ 9 := by omega
          have hm : Reach g (setVal g r c ((k.val : Int) + 1)) :=
            Reach.single (Move.assign g r c _ (getNext_some g r c hn).1 hvalid h1 h9)
          exact (hm.trans (propogateConstraint_reach _ r c _ h1 h9
            (cellAt_setVal_self g r c _))).trans hreach

/-- The record exists whenever the result does. -/
theorem doSolveLog_total (g : Grid) :
    ∃ b g' log, doSolveLog g = some (b, g', log) ∧ doSolve g = some (b, g') := by
  obtain ⟨⟨b, g'⟩, hres⟩ := doSolve_total g
  have hd := doSolveLog_dropLog g
  rw [hres] at hd
  rcases hl : doSolveLog g with _ | ⟨b2, g2, log⟩
  · rw [hl] at hd; cases hd
  · rw [hl] at hd
    simp only [dropLog, Option.some.injEq, Prod.mk.injEq] at hd
    exact ⟨b2, g2, log, rfl, by rw [hres, hd.1, hd.2]⟩

/-! ## What `propogateConstraint` leaves behind -/

theorem setCell_same (g : Grid) (r c : Idx) : setCell g r c (cellAt g r c) = g := by
  apply grid_ext
  intro i j
  rw [cellAt_setCell]
  split
  · rename_i h; rw [h.1, h.2]
  · rfl

/-- Marking a digit whose flag is not `0` changes nothing. -/
theorem markCell_noop (g : Grid) (r c k : Idx)
    (h : (cellAt g r c).constraintsOnCell.get k ≠ 0) :
    markCell g r c ((k.val : Int) + 1) = g := by
  unfold markCell
  rw [setConstraint_digit, if_neg h]
  exact setCell_same g r c

theorem markCell_self_flag (g : Grid) (r c k : Idx) :
    (cellAt (markCell g r c ((k.val : Int) + 1)) r c).constraintsOnCell.get k ≠ 0 := by
  rw [cellAt_markCell, if_pos ⟨rfl, rfl⟩]
  exact setConstraint_digit_flag _ k

theorem propStep_fst_false (val : Int) (g : Grid) (r c : Idx) :
    (propStep val g r c).1 = false ↔ stuck (markCell g r c val) r c := by
  rw [propStep_eq]
  unfold stuck
  split
  · rename_i hc
    split
    · rename_i hv
      simp only [Bool.true_eq_false, false_iff]
      rintro ⟨_, _, h⟩
      rw [hv] at h; cases h
    · rename_i hv
      simp only [true_iff]
      exact ⟨hc.1, hc.2, by simpa using hv⟩
  · rename_i hc
    simp only [Bool.true_eq_false, false_iff]
    rintro ⟨h1, h2, _⟩
    exact hc ⟨h1, h2⟩

theorem propStep_snd_of_false (val : Int) (g : Grid) (r c : Idx)
    (h : (propStep val g r c).1 = false) : (propStep val g r c).2 = markCell g r c val := by
  rw [propStep_eq] at h ⊢
  split
  · rename_i hc
    rw [if_pos hc] at h
    split
    · rename_i hv; rw [if_pos hv] at h; cases h
    · rfl
  · rfl

/-- After a successful step the visited cell is settled. -/
theorem propStep_settles (g : Grid) (r c k : Idx)
    (h : (propStep ((k.val : Int) + 1) g r c).1 = true) :
    settled k (propStep ((k.val : Int) + 1) g r c).2 r c := by
  have hflag := markCell_self_flag g r c k
  rw [propStep_eq] at h ⊢
  split
  · rename_i hc
    rw [if_pos hc] at h
    split
    · rename_i hv
      simp only
      constructor
      · rw [cellAt_setVal, if_pos ⟨rfl, rfl⟩]; exact hflag
      · rintro ⟨h0, _⟩
        rw [cellAt_setVal_self] at h0
        rcases getLastRemainingValue_range (cellAt (markCell g r c ((k.val : Int) + 1)) r c)
          with hl | hl
        · rw [hl, isValidAssignment_neg_one] at hv; cases hv
        · omega
    · rename_i hv; rw [if_neg hv] at h; cases h
  · rename_i hc
    exact ⟨hflag, hc⟩

/-- A step at a settled cell changes nothing. -/
theorem propStep_at_settled (g : Grid) (r c k : Idx) (hs : settled k g r c) :
    propStep ((k.val : Int) + 1) g r c = (true, g) := by
  rw [propStep_eq, markCell_noop g r c k hs.1, if_neg hs.2]

theorem propStep_keeps_cell (g : Grid) (r c k i j : Idx) (hs : settled k g i j) :
    cellAt (propStep ((k.val : Int) + 1) g r c).2 i j = cellAt g i j := by
  by_cases hij : i = r ∧ j = c
  · rw [← hij.1, ← hij.2, propStep_at_settled g i j k hs]
  · exact propStep_frame _ g r c i j hij

theorem propStep_keeps_settled (g : Grid) (r c k i j : Idx) (hs : settled k g i j) :
    settled k (propStep ((k.val : Int) + 1) g r c).2 i j := by
  unfold settled
  rw [propStep_keeps_cell g r c k i j hs]
  exact hs

theorem propLoop_keeps_cell (k : Idx) (ps : List (Idx × Idx)) (g : Grid) (i j : Idx)
    (hs : settled k g i j) :
    cellAt (propLoop ((k.val : Int) + 1) ps g).2 i j = cellAt g i j := by
  induction ps generalizing g with
  | nil => rfl
  | cons p ps ih =>
    rw [propLoop_cons]
    split
    · rw [ih _ (propStep_keeps_settled g p.1 p.2 k i j hs), propStep_keeps_cell g p.1 p.2 k i j hs]
    · exact propStep_keeps_cell g p.1 p.2 k i j hs

/-- When a loop of the propagation runs to its end, every cell it visited is settled. -/
theorem propLoop_settles (k : Idx) (ps : List (Idx × Idx)) (g : Grid)
    (h : (propLoop ((k.val : Int) + 1) ps g).1 = true) :
    ∀ p ∈ ps, settled k (propLoop ((k.val : Int) + 1) ps g).2 p.1 p.2 := by
  induction ps generalizing g with
  | nil => intro p hp; cases hp
  | cons q ps ih =>
    rw [propLoop_cons] at h ⊢
    by_cases hq : (propStep ((k.val : Int) + 1) g q.1 q.2).1 = true
    · rw [if_pos hq] at h ⊢
      intro p hp
      rcases List.mem_cons.1 hp with hpq | hps
      · subst hpq
        have hs := propStep_settles g p.1 p.2 k hq
        unfold settled
        rw [propLoop_keeps_cell k ps _ p.1 p.2 hs]
        exact hs
      · exact ih _ h p hps
    · rw [if_neg hq] at h
      cases h

/-- When a loop of the propagation stops, the cell it stopped at is stuck. -/
theorem propLoop_false_stuck (val : Int) (ps : List (Idx × Idx)) (g : Grid)
    (h : (propLoop val ps g).1 = false) :
    ∃ p ∈ ps, stuck (propLoop val ps g).2 p.1 p.2 := by
  induction ps generalizing g with
  | nil => rw [propLoop] at h; cases h
  | cons q ps ih =>
    rw [propLoop_cons] at h ⊢
    by_cases hq : (propStep val g q.1 q.2).1 = true
    · rw [if_pos hq] at h ⊢
      obtain ⟨p, hp, hst⟩ := ih _ h
      exact ⟨p, List.mem_cons_of_mem _ hp, hst⟩
    · rw [if_neg hq]
      have hq2 : (propStep val g q.1 q.2).1 = false := by simpa using hq
      refine ⟨q, List.mem_cons_self _ _, ?_⟩
      simp only
      rw [propStep_snd_of_false val g q.1 q.2 hq2]
      exact (propStep_fst_false val g q.1 q.2).1 hq2

/-- The amended form of the declaration comment of `propogateConstraint`: it returns true
exactly when in the grid it leaves no cell of the unit is stuck. -/
theorem propogateConstraint_true_iff (g : Grid) (row col k : Idx) :
    (propogateConstraint g row col ((k.val : Int) + 1)).1 = true ↔
      ∀ i j, peer row col i j →
        ¬ stuck (propogateConstraint g row col ((k.val : Int) + 1)).2 i j := by
  rw [propogateConstraint_eq]
  constructor
  · intro h i j hp hst
    have hs := propLoop_settles k _ g h (i, j) ((mem_unitCells row col (i, j)).2 hp)
    exact hs.2 ⟨hst.1, hst.2.1⟩
  · intro h
    by_contra hne
    obtain ⟨p, hp, hst⟩ := propLoop_false_stuck _ _ g (by simpa using hne)
    exact h p.1 p.2 ((mem_unitCells row col p).1 hp) hst

theorem propStep_nVal_cases (val : Int) (g : Grid) (r c : Idx) :
    (cellAt (propStep val g r c).2 r c).nVal = (cellAt g r c).nVal ∨
    ((cellAt g r c).nVal = 0 ∧
      (cellAt (markCell g r c val) r c).nConstraintCount ≥ 8 ∧
      (propStep val g r c).2 = setVal (markCell g r c val) r c
        (cellAt (markCell g r c val) r c).getLastRemainingValue ∧
      isValidAssignment (markCell g r c val) r c
        (cellAt (markCell g r c val) r c).getLastRemainingValue = true) := by
  rw [propStep_eq]
  split
  · rename_i hc
    split
    · rename_i hv
      right
      refine ⟨?_, hc.2, rfl, hv⟩
      rw [← markCell_nVal g r c val r c]; exact hc.1
    · left; exact markCell_nVal _ _ _ _ _ _
  · left; exact markCell_nVal _ _ _ _ _ _

theorem getLastRemainingValue_congr (c1 c2 : Cell)
    (h : c1.constraintsOnCell = c2.constraintsOnCell) :
    c1.getLastRemainingValue = c2.getLastRemainingValue := by
  unfold Cell.getLastRemainingValue
  rw [h]

/-- A step that fills the cell it visits leaves a forced cell. -/
theorem propStep_forces (g : Grid) (r c k : Idx) (h0 : (cellAt g r c).nVal = 0)
    (hne : (cellAt (propStep ((k.val : Int) + 1) g r c).2 r c).nVal ≠ 0) :
    forcedCell k (propStep ((k.val : Int) + 1) g r c).2 r c := by
  rcases propStep_nVal_cases ((k.val : Int) + 1) g r c with h | ⟨_, h8, hres, hvalid⟩
  · rw [h] at hne; exact absurd h0 hne
  · have hflag := markCell_self_flag g r c k
    have hrange : 1 ≤ (cellAt (markCell g r c ((k.val : Int) + 1)) r c).getLastRemainingValue ∧
        (cellAt (markCell g r c ((k.val : Int) + 1)) r c).getLastRemainingValue ≤ 9 := by
      rcases getLastRemainingValue_range (cellAt (markCell g r c ((k.val : Int) + 1)) r c)
        with hl | hl
      · rw [hl, isValidAssignment_neg_one] at hvalid; cases hvalid
      · exact hl
    have hpeers := ((isValidAssignment_iff_peer _ r c _).1 hvalid).2
    rw [hres]
    unfold forcedCell
    rw [cellAt_setVal, if_pos ⟨rfl, rfl⟩]
    refine ⟨hflag, hrange.1, hrange.2, ?_, h8, ?_⟩
    · exact getLastRemainingValue_congr _ _ rfl
    · intro i2 j2 hp hne2
      rw [cellAt_setVal, if_neg hne2]
      exact hpeers i2 j2 hp

theorem forcedCell_settled (g : Grid) (k i j : Idx) (hf : forcedCell k g i j) :
    settled k g i j :=
  ⟨hf.1, fun h => by have := hf.2.1; omega⟩

/-- A later step keeps a forced cell forced. -/
theorem propStep_keeps_forced (g : Grid) (r c k i j : Idx) (hf : forcedCell k g i j) :
    forcedCell k (propStep ((k.val : Int) + 1) g r c).2 i j := by
  have hcell := propStep_keeps_cell g r c k i j (forcedCell_settled g k i j hf)
  unfold forcedCell
  rw [hcell]
  refine ⟨hf.1, hf.2.1, hf.2.2.1, hf.2.2.2.1, hf.2.2.2.2.1, ?_⟩
  intro i2 j2 hp hne2
  by_cases h2 : i2 = r ∧ j2 = c
  · rw [h2.1, h2.2]
    rcases propStep_nVal_cases ((k.val : Int) + 1) g r c with h | ⟨_, _, hres, hvalid⟩
    · rw [h, ← h2.1, ← h2.2]
      exact hf.2.2.2.2.2 i2 j2 hp hne2
    · have hpeers := ((isValidAssignment_iff_peer _ r c _).1 hvalid).2
      have hij : peer r c i j := by
        rw [← h2.1, ← h2.2]; exact peer_symm hp
      have := hpeers i j hij
      rw [markCell_nVal] at this
      rw [hres, cellAt_setVal_self]
      exact fun h => this h.symm
  · rw [propStep_frame _ g r c i2 j2 h2]
    exact hf.2.2.2.2.2 i2 j2 hp hne2

theorem propLoop_keeps_forced (k : Idx) (ps : List (Idx × Idx)) (g : Grid) (i j : Idx)
    (hf : forcedCell k g i j) : forcedCell k (propLoop ((k.val : Int) + 1) ps g).2 i j := by
  induction ps generalizing g with
  | nil => exact hf
  | cons p ps ih =>
    rw [propLoop_cons]
    split
    · exact ih _ (propStep_keeps_forced g p.1 p.2 k i j hf)
    · exact propStep_keeps_forced g p.1 p.2 k i j hf

/-- Every cell a loop of the propagation has filled is a forced cell in the grid the loop
leaves. -/
theorem propLoop_forces (k : Idx) (ps : List (Idx × Idx)) (g : Grid) (i j : Idx)
    (h0 : (cellAt g i j).nVal = 0)
    (hne : (cellAt (propLoop ((k.val : Int) + 1) ps g).2 i j).nVal ≠ 0) :
    forcedCell k (propLoop ((k.val : Int) + 1) ps g).2 i j := by
  induction ps generalizing g with
  | nil => exact absurd h0 hne
  | cons p ps ih =>
    have hstep : (cellAt (propStep ((k.val : Int) + 1) g p.1 p.2).2 i j).nVal ≠ 0 →
        forcedCell k (propStep ((k.val : Int) + 1) g p.1 p.2).2 i j := by
      intro hn
      by_cases hij : i = p.1 ∧ j = p.2
      · rw [hij.1, hij.2] at h0 hn ⊢
        exact propStep_forces g p.1 p.2 k h0 hn
      · rw [propStep_frame _ g p.1 p.2 i j hij] at hn
        exact absurd h0 hn
    rw [propLoop_cons] at hne ⊢
    split
    · rename_i hb
      rw [if_pos hb] at hne
      by_cases hn : (cellAt (propStep ((k.val : Int) + 1) g p.1 p.2).2 i j).nVal = 0
      · exact ih _ hn hne
      · exact propLoop_keeps_forced k ps _ i j (hstep hn)
    · rename_i hb
      rw [if_neg hb] at hne
      exact hstep hne

theorem numBlocked_eq_nine (c : Cell) (h : ∀ k : Idx, c.constraintsOnCell.get k = -1) :
    numBlocked c = 9 := by
  unfold numBlocked
  have hall : idx9.countP (fun k => decide (c.constraintsOnCell.get k = -1)) = idx9.length := by
    rw [List.countP_eq_length]
    intro k _
    simpa using h k
  rw [hall]
  rfl

/-- With exact counts, a cell that is not empty with 8 or more constraints, if empty, has a
free digit. -/
theorem settled_has_free (g : Grid) (hc : countsExact g) (k i j : Idx) (hs : settled k g i j)
    (h0 : (cellAt g i j).nVal = 0) : ∃ k2 : Idx, (cellAt g i j).constraintsOnCell.get k2 = 0 := by
  by_contra hnone
  have hall : ∀ k2 : Idx, (cellAt g i j).constraintsOnCell.get k2 = -1 := by
    intro k2
    rcases (hc i j).1 k2 with h | h
    · exact absurd ⟨k2, h⟩ hnone
    · exact h
  have h9 := numBlocked_eq_nine _ hall
  have hcount := (hc i j).2
  apply hs.2
  refine ⟨h0, ?_⟩
  rw [hcount, h9]
  decide

/-! ## The checked program never meets an index out of range -/

theorem gridIndex_cast (r : Idx) : gridIndex (r.val : Int) = some r := by
  have hr := r.isLt
  unfold gridIndex
  rw [dif_pos (by omega)]
  congr 1

theorem gridIndex_eq_some (i : Int) (r : Idx) (h : gridIndex i = some r) : i = (r.val : Int) := by
  unfold gridIndex at h
  split at h
  · rename_i hi
    have := Option.some.inj h
    rw [← this]
    simp only
    omega
  · cases h

theorem flagIndex_digit (k : Idx) : flagIndex ((k.val : Int) + 1) = some k := by
  unfold flagIndex
  have h : (k.val : Int) + 1 - 1 = (k.val : Int) := by omega
  rw [h]
  exact gridIndex_cast k

theorem cellRaw_cast (g : Grid) (r c : Idx) :
    cellRaw g (r.val : Int) (c.val : Int) = some (cellAt g r c) := by
  unfold cellRaw
  rw [gridIndex_cast, gridIndex_cast]

theorem setCellRaw_cast (g : Grid) (r c : Idx) (x : Cell) :
    setCellRaw g (r.val : Int) (c.val : Int) x = some (setCell g r c x) := by
  unfold setCellRaw
  rw [gridIndex_cast, gridIndex_cast]

theorem setValRaw_cast (g : Grid) (r c : Idx) (v : Int) :
    setValRaw g (r.val : Int) (c.val : Int) v = some (setVal g r c v) := by
  unfold setValRaw
  rw [gridIndex_cast, gridIndex_cast]

theorem setConstraintRaw_digit (c : Cell) (k : Idx) :
    c.setConstraintRaw ((k.val : Int) + 1) = some (c.setConstraint ((k.val : Int) + 1)) := by
  unfold Cell.setConstraintRaw
  rw [flagIndex_digit, setConstraint_digit]
  simp only
  split <;> rfl

theorem markRaw_cast (g : Grid) (r c k : Idx) :
    markRaw g (r.val : Int) (c.val : Int) ((k.val : Int) + 1)
      = some (markCell g r c ((k.val : Int) + 1)) := by
  unfold markRaw markCell
  rw [cellRaw_cast]
  simp only
  rw [setConstraintRaw_digit]
  simp only
  exact setCellRaw_cast g r c _

theorem int9_eq : int9 = idx9.map fun i => (i.val : Int) := by decide

theorem int3_eq : int3 = idx3.map fun i => (i.val : Int) := by decide

theorem digits_eq : digits = idx9.map fun k => (k.val : Int) + 1 := by decide

theorem colCellsRaw_cast (col : Idx) : colCellsRaw (col.val : Int) = (colCells col).map posInt := by
  unfold colCellsRaw colCells
  rw [int9_eq, List.map_map, List.map_map]
  rfl

theorem rowCellsRaw_cast (row : Idx) : rowCellsRaw (row.val : Int) = (rowCells row).map posInt := by
  unfold rowCellsRaw rowCells
  rw [int9_eq, List.map_map, List.map_map]
  rfl

theorem boxIdx_cast (r : Idx) (a : Fin 3) :
    ((boxIdx r a).val : Int) = (r.val : Int) - (r.val : Int) % 3 + (a.val : Int) := by
  have hr := r.isLt
  have ha := a.isLt
  simp only [boxIdx]
  omega

theorem boxCellsRaw_cast (row col : Idx) :
    boxCellsRaw (row.val : Int) (col.val : Int) = (boxCells row col).map posInt := by
  unfold boxCellsRaw boxCells
  rw [int3_eq, List.map_flatMap, List.flatMap_map]
  apply List.flatMap_congr
  intro a _
  rw [List.map_map, List.map_map]
  apply List.map_congr_left
  intro b _
  simp only [Function.comp, posInt, boxIdx_cast]

theorem scanOrderRaw_eq : scanOrderRaw = scanOrder.map posInt := by decide

theorem anyValRaw_map (g : Grid) (val : Int) (qs : List (Idx × Idx)) :
    anyValRaw g val (qs.map posInt)
      = some (qs.any fun p => decide ((cellAt g p.1 p.2).nVal = val)) := by
  induction qs with
  | nil => rfl
  | cons q qs ih =>
    rw [List.map_cons, anyValRaw]
    have hc : cellRaw g (posInt q).1 (posInt q).2 = some (cellAt g q.1 q.2) := cellRaw_cast g q.1 q.2
    rw [hc]
    simp only
    rw [List.any_cons]
    by_cases hv : (cellAt g q.1 q.2).nVal = val
    · rw [if_pos hv]; simp [hv]
    · rw [if_neg hv, ih]; simp [hv]

theorem isValidAssignmentRaw_cast (g : Grid) (row col : Idx) (val : Int) :
    isValidAssignmentRaw g (row.val : Int) (col.val : Int) val
      = some (isValidAssignment g row col val) := by
  unfold isValidAssignmentRaw isValidAssignment
  rw [colCellsRaw_cast, rowCellsRaw_cast, boxCellsRaw_cast, anyValRaw_map, anyValRaw_map,
    anyValRaw_map]
  by_cases h0 : val = -1
  · rw [if_pos h0, if_pos h0]
  · rw [if_neg h0, if_neg h0]
    cases (colCells col).any fun p => decide ((cellAt g p.1 p.2).nVal = val) <;>
    cases (rowCells row).any fun p => decide ((cellAt g p.1 p.2).nVal = val) <;>
    cases (boxCells row col).any fun p => decide ((cellAt g p.1 p.2).nVal = val) <;>
    rfl

theorem markRaw_digit (g : Grid) (r c : Idx) (d : Int) (h1 : 1 ≤ d) (h9 : d ≤ 9) :
    markRaw g (r.val : Int) (c.val : Int) d = some (markCell g r c d) := by
  have hd : d = (((⟨(d - 1).toNat, by omega⟩ : Idx).val : Int)) + 1 := by
    simp only; omega
  rw [hd]
  exact markRaw_cast g r c _

theorem constrainFromRaw_map (i j : Idx) (qs : List (Idx × Idx)) (g : Grid)
    (hr : ∀ a b, 0 ≤ (cellAt g a b).nVal ∧ (cellAt g a b).nVal ≤ 9) :
    constrainFromRaw (i.val : Int) (j.val : Int) (qs.map posInt) g
      = some (constrainFrom i j g qs) := by
  induction qs generalizing g with
  | nil => rfl
  | cons q qs ih =>
    rw [List.map_cons, constrainFromRaw, constrainFrom_cons]
    have hc : cellRaw g (posInt q).1 (posInt q).2 = some (cellAt g q.1 q.2) := cellRaw_cast g q.1 q.2
    rw [hc]
    simp only
    by_cases hne : (cellAt g q.1 q.2).nVal ≠ 0
    · rw [if_pos hne, if_pos hne]
      have hq := hr q.1 q.2
      rw [markRaw_digit g i j _ (by omega) hq.2]
      simp only
      apply ih
      intro a b
      rw [markCell_nVal]; exact hr a b
    · rw [if_neg hne, if_neg hne]
      exact ih g hr

theorem initCellRaw_cast (g : Grid) (p : Idx × Idx)
    (hr : ∀ a b, 0 ≤ (cellAt g a b).nVal ∧ (cellAt g a b).nVal ≤ 9) :
    initCellRaw g (posInt p) = some (initCell g p) := by
  unfold initCellRaw initCell
  have hc : cellRaw g (posInt p).1 (posInt p).2 = some (cellAt g p.1 p.2) := cellRaw_cast g p.1 p.2
  have h1 : (posInt p).1 = (p.1.val : Int) := rfl
  have h2 : (posInt p).2 = (p.2.val : Int) := rfl
  rw [hc]
  simp only
  by_cases h0 : (cellAt g p.1 p.2).nVal = 0
  · rw [if_pos h0, if_pos h0, h1, h2, rowCellsRaw_cast, colCellsRaw_cast, boxCellsRaw_cast,
      constrainFromRaw_map p.1 p.2 _ g hr]
    simp only
    have hr1 : ∀ a b, 0 ≤ (cellAt (constrainFrom p.1 p.2 g (rowCells p.1)) a b).nVal ∧
        (cellAt (constrainFrom p.1 p.2 g (rowCells p.1)) a b).nVal ≤ 9 := by
      intro a b; rw [constrainFrom_nVal]; exact hr a b
    rw [constrainFromRaw_map p.1 p.2 _ _ hr1]
    simp only
    apply constrainFromRaw_map
    intro a b
    rw [constrainFrom_nVal]; exact hr1 a b
  · rw [if_neg h0, if_neg h0]

theorem initLoopRaw_map (qs : List (Idx × Idx)) (g : Grid)
    (hr : ∀ a b, 0 ≤ (cellAt g a b).nVal ∧ (cellAt g a b).nVal ≤ 9) :
    initLoopRaw (qs.map posInt) g = some (qs.foldl initCell g) := by
  induction qs generalizing g with
  | nil => rfl
  | cons q qs ih =>
    rw [List.map_cons, initLoopRaw, initCellRaw_cast g q hr, List.foldl_cons]
    simp only
    apply ih
    intro a b
    rw [initCell_nVal]; exact hr a b

theorem setInitialCellConstraintsRaw_eq (g : Grid)
    (hr : ∀ a b, 0 ≤ (cellAt g a b).nVal ∧ (cellAt g a b).nVal ≤ 9) :
    setInitialCellConstraintsRaw g = some (setInitialCellConstraints g) := by
  unfold setInitialCellConstraintsRaw setInitialCellConstraints
  rw [scanOrderRaw_eq]
  exact initLoopRaw_map scanOrder g hr

theorem propStepRaw_cast (k : Idx) (g : Grid) (r c : Idx) :
    propStepRaw ((k.val : Int) + 1) g (r.val : Int) (c.val : Int)
      = some (propStep ((k.val : Int) + 1) g r c) := by
  unfold propStepRaw
  rw [markRaw_cast, propStep_eq]
  simp only
  rw [cellRaw_cast]
  simp only
  split
  · rw [isValidAssignmentRaw_cast]
    cases isValidAssignment (markCell g r c ((k.val : Int) + 1)) r c
      (cellAt (markCell g r c ((k.val : Int) + 1)) r c).getLastRemainingValue
    · simp
    · simp only [if_true]
      rw [setValRaw_cast]
  · rfl

theorem propLoopRaw_map (k : Idx) (qs : List (Idx × Idx)) (g : Grid) :
    propLoopRaw ((k.val : Int) + 1) (qs.map posInt) g
      = some (propLoop ((k.val : Int) + 1) qs g) := by
  induction qs generalizing g with
  | nil => rfl
  | cons q qs ih =>
    rw [List.map_cons, propLoopRaw, propLoop_cons]
    have hs : propStepRaw ((k.val : Int) + 1) g (posInt q).1 (posInt q).2
        = some (propStep ((k.val : Int) + 1) g q.1 q.2) := propStepRaw_cast k g q.1 q.2
    rw [hs]
    rcases hp : propStep ((k.val : Int) + 1) g q.1 q.2 with ⟨b, g1⟩
    cases b
    · simp
    · simp only [if_true]
      exact ih g1

theorem propogateConstraintRaw_cast (g : Grid) (row col k : Idx) :
    propogateConstraintRaw g (row.val : Int) (col.val : Int) ((k.val : Int) + 1)
      = some (propogateConstraint g row col ((k.val : Int) + 1)) := by
  unfold propogateConstraintRaw propogateConstraint
  rw [colCellsRaw_cast, rowCellsRaw_cast, boxCellsRaw_cast, propLoopRaw_map]
  rcases propLoop ((k.val : Int) + 1) (colCells col) g with ⟨b1, g1⟩
  cases b1
  · rfl
  · simp only
    rw [propLoopRaw_map]
    rcases propLoop ((k.val : Int) + 1) (rowCells row) g1 with ⟨b2, g2⟩
    cases b2
    · rfl
    · simp only
      rw [propLoopRaw_map]

theorem copyCellsRaw_map (src : Grid) (qs : List (Idx × Idx)) (dst : Grid) :
    copyCellsRaw src (qs.map posInt) dst = some (copyCells src qs dst) := by
  induction qs generalizing dst with
  | nil => rfl
  | cons q qs ih =>
    rw [List.map_cons, copyCellsRaw]
    have hc : cellRaw src (posInt q).1 (posInt q).2 = some (cellAt src q.1 q.2) :=
      cellRaw_cast src q.1 q.2
    have hs : ∀ x, setCellRaw dst (posInt q).1 (posInt q).2 x = some (setCell dst q.1 q.2 x) :=
      fun x => setCellRaw_cast dst q.1 q.2 x
    rw [hc]
    simp only
    rw [hs]
    simp only
    rw [ih]
    rfl

theorem copyUnitRaw_cast (row col : Idx) (src dst : Grid) :
    copyUnitRaw (row.val : Int) (col.val : Int) src dst = some (copyUnit row col src dst) := by
  unfold copyUnitRaw copyUnit
  rw [colCellsRaw_cast, rowCellsRaw_cast, boxCellsRaw_cast, copyCellsRaw_map]
  simp only
  rw [copyCellsRaw_map]
  simp only
  rw [copyCellsRaw_map]

theorem nextLoopRaw_map (g : Grid) (qs : List (Idx × Idx)) (raw : Int × Int × Int)
    (st : Option (Idx × Idx) × Int)
    (hR : raw.2.2 = st.2 ∧ (st.1 = none → raw.1 = -1 ∧ raw.2.1 = -1) ∧
      ∀ p : Idx × Idx, st.1 = some p → raw.1 = (p.1.val : Int) ∧ raw.2.1 = (p.2.val : Int)) :
    ∃ raw2, nextLoopRaw g (qs.map posInt) raw = some raw2 ∧
      raw2.2.2 = (qs.foldl (nextStep g) st).2 ∧
      ((qs.foldl (nextStep g) st).1 = none → raw2.1 = -1 ∧ raw2.2.1 = -1) ∧
      ∀ p : Idx × Idx, (qs.foldl (nextStep g) st).1 = some p →
        raw2.1 = (p.1.val : Int) ∧ raw2.2.1 = (p.2.val : Int) := by
  induction qs generalizing raw st with
  | nil => exact ⟨raw, rfl, hR⟩
  | cons q qs ih =>
    rw [List.map_cons, nextLoopRaw, List.foldl_cons]
    have hc : cellRaw g (posInt q).1 (posInt q).2 = some (cellAt g q.1 q.2) := cellRaw_cast g q.1 q.2
    rw [hc]
    simp only
    rw [nextStep_eq, hR.1]
    by_cases hcond : (cellAt g q.1 q.2).nVal = 0 ∧ (cellAt g q.1 q.2).nConstraintCount > st.2
    · rw [if_pos hcond, if_pos hcond]
      apply ih
      refine ⟨rfl, ?_, ?_⟩
      · intro h; cases h
      · intro p hp
        have : q = p := Option.some.inj hp
        subst this
        exact ⟨rfl, rfl⟩
    · rw [if_neg hcond, if_neg hcond]
      exact ih raw st hR

/-- The checked scan never meets an index out of range; it returns true with the
coordinates of the cell the scan of the model reports, or false with `row = col = -1`. -/
theorem getNextRaw_spec (g : Grid) :
    (getNextEmptyCellByConstraintCount g = none ∧
      getNextEmptyCellByConstraintCountRaw g = some (false, -1, -1)) ∨
    (∃ r c : Idx, getNextEmptyCellByConstraintCount g = some (r, c) ∧
      getNextEmptyCellByConstraintCountRaw g = some (true, (r.val : Int), (c.val : Int))) := by
  obtain ⟨raw2, hraw, _, hnone, hsome⟩ := nextLoopRaw_map g scanOrder (-1, -1, -1) (none, -1)
    ⟨rfl, fun _ => ⟨rfl, rfl⟩, fun p hp => by cases hp⟩
  unfold getNextEmptyCellByConstraintCountRaw getNextEmptyCellByConstraintCount
  rw [scanOrderRaw_eq, hraw]
  simp only
  rcases hst : (scanOrder.foldl (nextStep g) (none, -1)).1 with _ | ⟨r, c⟩
  · left
    obtain ⟨h1, h2⟩ := hnone hst
    refine ⟨rfl, ?_⟩
    rw [h1, h2]
    rfl
  · right
    obtain ⟨h1, h2⟩ := hsome (r, c) hst
    refine ⟨r, c, rfl, ?_⟩
    rw [h1, h2]
    have hr : ((r.val : Int) ≠ -1) := by omega
    simp [hr]

theorem solveLoopRaw_map (againRaw : Grid → Outcome) (again : Grid → Option (Bool × Grid))
    (hag : ∀ x, againRaw x = toOutcome (again x)) (r c : Idx) (ks : List Idx) :
    ∀ g, solveLoopRaw againRaw (r.val : Int) (c.val : Int)
        (ks.map fun k => (k.val : Int) + 1) g = toOutcome (solveLoop again r c ks g) := by
  induction ks with
  | nil => intro g; rfl
  | cons k ks ih =>
    intro g
    rw [List.map_cons, solveLoopRaw, solveLoop_cons, cellRaw_cast]
    simp only
    rw [flagIndex_digit]
    simp only
    by_cases h1 : (cellAt g r c).constraintsOnCell.get k = -1
    · rw [if_pos h1, if_pos h1]
      exact ih g
    · rw [if_neg h1, if_neg h1, isValidAssignmentRaw_cast]
      by_cases h2 : isValidAssignment g r c ((k.val : Int) + 1) = true
      · rw [if_pos h2, h2]
        simp only
        rw [copyUnitRaw_cast]
        simp only
        rw [setValRaw_cast]
        simp only
        rw [propogateConstraintRaw_cast]
        rcases hp : propogateConstraint (setVal g r c ((k.val : Int) + 1)) r c
          ((k.val : Int) + 1) with ⟨b, g2⟩
        cases b
        · simp only [Bool.false_eq_true, if_false]
          rw [copyUnitRaw_cast]
          simp only
          exact ih _
        · simp only [if_true]
          rw [hag]
          rcases again g2 with _ | ⟨b3, g3⟩
          · rfl
          · cases b3
            · simp only [toOutcome]
              rw [copyUnitRaw_cast]
              simp only
              exact ih _
            · rfl
      · rw [if_neg h2]
        have h2f : isValidAssignment g r c ((k.val : Int) + 1) = false := by simpa using h2
        rw [h2f]
        simp only
        exact ih g

/-- The checked solver never meets an index out of range: its outcome is the result of
`solveSudoku`. -/
theorem solveSudokuRaw_eq (fuel : Nat) :
    ∀ g, solveSudokuRaw fuel g = toOutcome (solveSudoku fuel g) := by
  induction fuel with
  | zero => intro g; rfl
  | succ n ih =>
    intro g
    rw [solveSudokuRaw, solveSudoku]
    rcases getNextRaw_spec g with ⟨hn, hraw⟩ | ⟨r, c, hn, hraw⟩
    · rw [hn, hraw]
      rfl
    · rw [hn, hraw]
      simp only
      rw [digits_eq]
      exact solveLoopRaw_map _ _ ih r c idx9 g

theorem gridIndex_isSome (i : Int) : (gridIndex i).isSome = true ↔ 0 ≤ i ∧ i ≤ 8 := by
  unfold gridIndex
  split
  · rename_i h; simp [h]
  · rename_i h; simp [h]

/-! ## The claims -/

/-- C1 as stated fails: the grid filled with 5 is well-formed, `doSolve` returns true on
it at once, and the grid it leaves is not a solved Sudoku. -/
theorem doSolve_true_unsolved_counterexample :
    wellFormed (fun _ _ => 5) ∧
    ∃ g', doSolve (loadGrid fun _ _ => 5) = some (true, g') ∧ ¬ isSolution (gridVals g') := by
  have hwf : wellFormed (fun _ _ => 5) :=
    fun _ _ => show (0 : Int) ≤ 5 ∧ (5 : Int) ≤ 9 from by decide
  refine ⟨hwf, loadGrid fun _ _ => 5, ?_, ?_⟩
  · apply solveSudoku_full
    intro i j
    rw [loadGrid_nVal _ hwf]
    decide
  · intro h
    obtain ⟨c, hc, _⟩ := (h 1 (by decide) (by decide)).1 0
    rw [gridVals_loadGrid _ hwf] at hc
    have hc5 : (5 : Int) = 1 := hc
    exact absurd hc5 (by decide)

/-- C1 amended: for a well-formed grid whose clues do not conflict (no two non-empty cells
of a common row, column or box hold the same value), `doSolve` returns, and if it returns
true then in the grid it leaves every row, every column and every 3x3 box contains each of
the digits 1..9 exactly once. -/
theorem doSolve_true_isSolution (vals : Idx → Idx → Int) (hwf : wellFormed vals)
    (hcf : conflictFree vals) :
    ∃ res, doSolve (loadGrid vals) = some res ∧ (res.1 = true → isSolution (gridVals res.2)) := by
  obtain ⟨⟨b, g'⟩, hres⟩ := doSolve_total (loadGrid vals)
  refine ⟨(b, g'), hres, ?_⟩
  intro hb
  simp only at hb
  subst hb
  have hrange : ∀ i j, 0 ≤ (cellAt (loadGrid vals) i j).nVal ∧
      (cellAt (loadGrid vals) i j).nVal ≤ 9 := by
    intro i j; rw [loadGrid_nVal vals hwf]; exact hwf i j
  apply isSolution_of_conflictFree
  · exact solveSudoku_true_digits 82 _ _ hrange (loadGrid_count_nonneg vals hwf) hres
  · intro i j i2 j2 hc
    have hold := (solveSudoku_reach 82 _ _ _ hres).conflict_old i j i2 j2 hc
    rw [gridVals_loadGrid vals hwf] at hold
    exact hcf i j i2 j2 hold

set_option maxRecDepth 1000000 in
/-- C1 amended, at a puzzle with three empty cells, on which `doSolve` returns true. -/
theorem doSolve_true_isSolution_witness :
    wellFormed puzzleVals ∧ conflictFree puzzleVals ∧
    (∃ res, doSolve (loadGrid puzzleVals) = some res ∧
      (res.1 = true → isSolution (gridVals res.2))) ∧
    (doSolve (loadGrid puzzleVals)).map Prod.fst = some true :=
  ⟨by decide, by decide, doSolve_true_isSolution puzzleVals (by decide) (by decide), by decide⟩

/-- C2: for a well-formed grid, if `doSolve` returns false then no assignment of digits
1..9 to the 81 cells agrees with every non-zero clue and has each digit exactly once in
every row, every column and every 3x3 box. -/
theorem doSolve_false_no_solution (vals : Idx → Idx → Int) (hwf : wellFormed vals)
    (g' : Grid) (hres : doSolve (loadGrid vals) = some (false, g')) :
    ¬ ∃ s : Idx → Idx → Int, (∀ i j, 1 ≤ s i j ∧ s i j ≤ 9) ∧
      (∀ i j, vals i j ≠ 0 → s i j = vals i j) ∧ isSolution s := by
  rintro ⟨s, hs, hclue, hsol⟩
  apply solveSudoku_false_complete 82 _ _ (loadGrid_countsExact vals hwf)
    (loadGrid_justified vals hwf) hres s hs (isSolution_distinctPeers s hsol hs)
  intro i j hne
  rw [loadGrid_nVal vals hwf] at hne ⊢
  exact hclue i j hne

set_option maxRecDepth 1000000 in
/-- C2 at a grid whose one empty cell sees all nine digits: `doSolve` returns false. -/
theorem doSolve_false_no_solution_witness :
    wellFormed deadVals ∧ doSolve (loadGrid deadVals) = some (false, loadGrid deadVals) ∧
    ¬ ∃ s : Idx → Idx → Int, (∀ i j, 1 ≤ s i j ∧ s i j ≤ 9) ∧
      (∀ i j, deadVals i j ≠ 0 → s i j = deadVals i j) ∧ isSolution s :=
  ⟨by decide, by decide,
   doSolve_false_no_solution deadVals (by decide) (loadGrid deadVals) (by decide)⟩

/-- C3: for every grid, `doSolve` returns and every cell whose value was non-zero holds the
same value afterwards; the branch cell chosen by `solveSudoku` is an empty cell, and a step
of `propogateConstraint` (hence the whole call) changes no non-zero value. -/
theorem doSolve_keeps_clues (g : Grid) :
    (∃ res, doSolve g = some res ∧
      ∀ i j, (cellAt g i j).nVal ≠ 0 → (cellAt res.2 i j).nVal = (cellAt g i j).nVal) ∧
    (∀ r c, getNextEmptyCellByConstraintCount g = some (r, c) → (cellAt g r c).nVal = 0) ∧
    (∀ val r c i j, (cellAt g i j).nVal ≠ 0 →
      (cellAt (propStep val g r c).2 i j).nVal = (cellAt g i j).nVal) ∧
    (∀ val r c i j, (cellAt g i j).nVal ≠ 0 →
      (cellAt (propogateConstraint g r c val).2 i j).nVal = (cellAt g i j).nVal) := by
  refine ⟨?_, ?_, ?_, ?_⟩
  · obtain ⟨⟨b, g'⟩, hres⟩ := doSolve_total g
    refine ⟨(b, g'), hres, ?_⟩
    intro i j hne
    exact (solveSudoku_reach 82 g b g' hres).nVal_keep i j hne
  · intro r c h
    exact (getNext_some g r c h).1
  · intro val r c i j hne
    exact propStep_nVal_keep val g r c i j hne
  · intro val r c i j hne
    exact propogateConstraint_nVal_keep g r c val i j hne

set_option maxRecDepth 1000000 in
/-- C4 as stated fails: on a well-formed grid with two 3s in row 0 and one empty cell,
`doSolve` fills the empty cell and returns true. -/
theorem doSolve_row_pair_counterexample :
    wellFormed repeatVals ∧ (0 : Idx) ≠ 1 ∧ repeatVals 0 0 = repeatVals 0 1 ∧
    repeatVals 0 0 ≠ 0 ∧ (doSolve (loadGrid repeatVals)).map Prod.fst = some true := by
  decide

/-- C4 amended: for a well-formed grid in which two cells of one row hold the same
non-zero clue, while no two cells of any other row and no two cells of any column hold the
same non-zero clue, `doSolve` returns false (and leaves the grid as it was). -/
theorem doSolve_row_pair_false (vals : Idx → Idx → Int) (hwf : wellFormed vals)
    (r a b : Idx) (hab : a ≠ b) (heq : vals r a = vals r b) (hnz : vals r a ≠ 0)
    (hrows : ∀ i j j2, i ≠ r → j ≠ j2 → vals i j ≠ 0 → vals i j ≠ vals i j2)
    (hcols : ∀ i i2 j, i ≠ i2 → vals i j ≠ 0 → vals i j ≠ vals i2 j) :
    doSolve (loadGrid vals) = some (false, loadGrid vals) := by
  obtain ⟨⟨res, g'⟩, hres⟩ := doSolve_total (loadGrid vals)
  cases res
  · rw [hres, solveSudoku_false 82 _ _ hres]
  · exfalso
    have hrange : ∀ i j, 0 ≤ (cellAt (loadGrid vals) i j).nVal ∧
        (cellAt (loadGrid vals) i j).nVal ≤ 9 := by
      intro i j; rw [loadGrid_nVal vals hwf]; exact hwf i j
    have hdig := solveSudoku_true_digits 82 _ _ hrange (loadGrid_count_nonneg vals hwf) hres
    have hreach := solveSudoku_reach 82 _ _ _ hres
    have hold : ∀ i j i2 j2, conflict (gridVals g') i j i2 j2 → conflict vals i j i2 j2 := by
      intro i j i2 j2 hc
      have h := hreach.conflict_old i j i2 j2 hc
      rw [gridVals_loadGrid vals hwf] at h
      exact h
    have hkeep : ∀ j, vals r j ≠ 0 → gridVals g' r j = vals r j := by
      intro j hj
      have h := hreach.nVal_keep r j (by rw [loadGrid_nVal vals hwf]; exact hj)
      rw [loadGrid_nVal vals hwf] at h
      exact h
    apply no_grid_with_row_pair (gridVals g') hdig r a b hab
    · rw [hkeep a hnz, hkeep b (by rw [← heq]; exact hnz), heq]
    · intro i i2 j hij
      by_contra hne
      have hnz2 : gridVals g' i j ≠ 0 := by have := hdig i j; unfold gridVals; omega
      obtain ⟨_, _, h3, h4⟩ := hold i j i2 j ⟨fun h => hne h.1, Or.inl rfl, hnz2, hij⟩
      exact hcols i i2 j hne h3 h4
    · intro i j j2 hi hij
      by_contra hne
      have hnz2 : gridVals g' i j ≠ 0 := by have := hdig i j; unfold gridVals; omega
      obtain ⟨_, _, h3, h4⟩ := hold i j i j2 ⟨fun h => hne h.2, Or.inr (Or.inl rfl), hnz2, hij⟩
      exact hrows i j j2 hi hne h3 h4

set_option maxRecDepth 1000000 in
/-- C4 amended, at the grid whose only clues are two 5s in row 0. -/
theorem doSolve_row_pair_false_witness :
    wellFormed twoFives ∧ (0 : Idx) ≠ 1 ∧ twoFives 0 0 = twoFives 0 1 ∧ twoFives 0 0 ≠ 0 ∧
    (∀ i j j2 : Idx, i ≠ 0 → j ≠ j2 → twoFives i j ≠ 0 → twoFives i j ≠ twoFives i j2) ∧
    (∀ i i2 j : Idx, i ≠ i2 → twoFives i j ≠ 0 → twoFives i j ≠ twoFives i2 j) ∧
    doSolve (loadGrid twoFives) = some (false, loadGrid twoFives) :=
  ⟨by decide, by decide, by decide, by decide, by decide, by decide,
   doSolve_row_pair_false twoFives (by decide) 0 0 1 (by decide) (by decide) (by decide)
     (by decide) (by decide)⟩

/-- C5: if `solveSudoku` returns false, the grid it leaves is the grid it was given, cell
by cell (value, flags and count); and restoring the snapshot after a tentative assignment
and its propagation gives back the grid as it was before the attempt. -/
theorem solveSudoku_false_restores (fuel : Nat) (g g' : Grid)
    (h : solveSudoku fuel g = some (false, g')) :
    g' = g ∧
    ∀ (r c : Idx) (v : Int),
      copyUnit r c (copyUnit r c g freshGrid) (propogateConstraint (setVal g r c v) r c v).2 = g :=
  ⟨solveSudoku_false fuel g g' h,
   fun r c v => copyUnit_restore r c g _ (attempt_frame g r c v)⟩

set_option maxRecDepth 1000000 in
/-- C5 at a grid on which `doSolve` returns false. -/
theorem solveSudoku_false_restores_witness :
    solveSudoku 82 (loadGrid deadVals) = some (false, loadGrid deadVals) ∧
    (loadGrid deadVals = loadGrid deadVals ∧
      ∀ (r c : Idx) (v : Int),
        copyUnit r c (copyUnit r c (loadGrid deadVals) freshGrid)
          (propogateConstraint (setVal (loadGrid deadVals) r c v) r c v).2 = loadGrid deadVals) :=
  ⟨by decide, solveSudoku_false_restores 82 (loadGrid deadVals) (loadGrid deadVals) (by decide)⟩

/-- C6: a grid has at most 81 empty cells; `solveSudoku` returns whenever the bound on the
recursion depth exceeds the number of empty cells, so the recursion is never deeper than
that number; `doSolve` always returns, with the result of any bound that gives one; and the
grid a recursive call is made on, the result of the tentative assignment to the branch
cell and its propagation, has strictly fewer empty cells. -/
theorem solveSudoku_terminates (g : Grid) :
    emptyCount g ≤ 81 ∧
    (∀ fuel, emptyCount g < fuel → ∃ res, solveSudoku fuel g = some res) ∧
    (∃ res, doSolve g = some res ∧ ∀ fuel res2, solveSudoku fuel g = some res2 → res2 = res) ∧
    (∀ (r c k : Idx), getNextEmptyCellByConstraintCount g = some (r, c) →
      emptyCount (propogateConstraint (setVal g r c ((k.val : Int) + 1)) r c
        ((k.val : Int) + 1)).2 < emptyCount g) := by
  refine ⟨emptyCount_le_81 g, fun fuel h => solveSudoku_total fuel g h, ?_, ?_⟩
  · obtain ⟨res, hres⟩ := doSolve_total g
    refine ⟨res, hres, ?_⟩
    intro fuel res2 h2
    have h3 := solveSudoku_agrees_doSolve fuel g res2 h2
    rw [hres] at h3
    exact (Option.some.inj h3).symm
  intro r c k hn
  have hk := k.isLt
  exact attempt_emptyCount_lt g r c _ (by omega) (by omega) (getNext_some g r c hn).1

/-- C7: on a grid without empty cell the scan for a branch cell finds nothing, so
`solveSudoku` returns true with the grid unchanged without entering the digit loop, at
recursion depth 1; so does `doSolve`. -/
theorem doSolve_full (g : Grid) (hfull : ∀ i j, (cellAt g i j).nVal ≠ 0) :
    getNextEmptyCellByConstraintCount g = none ∧
    solveSudoku 1 g = some (true, g) ∧ doSolve g = some (true, g) :=
  ⟨(getNext_none_iff g).2 (fun i j h => absurd h (hfull i j)),
   solveSudoku_full g hfull 0, solveSudoku_full g hfull 81⟩

/-- C7 at the grid filled with 5. -/
theorem doSolve_full_witness :
    (∀ i j, (cellAt (mkGrid fun _ _ => 5) i j).nVal ≠ 0) ∧
    doSolve (mkGrid fun _ _ => 5) = some (true, mkGrid fun _ _ => 5) :=
  ⟨by decide, (doSolve_full (mkGrid fun _ _ => 5) (by decide)).2.2⟩

/-- C8: for a digit `v` in 1..9, `isValidAssignment g r c v` is true exactly when no cell of
row `r`, no cell of column `c` and no cell of the 3x3 box with origin
`(r - r % 3, c - c % 3)` holds the value `v`. -/
theorem isValidAssignment_iff_absent (g : Grid) (r c : Idx) (v : Int)
    (h1 : 1 ≤ v) (h9 : v ≤ 9) :
    isValidAssignment g r c v = true ↔
      (∀ j : Idx, (cellAt g r j).nVal ≠ v) ∧ (∀ i : Idx, (cellAt g i c).nVal ≠ v) ∧
        (∀ i j : Idx, r.val - r.val % 3 ≤ i.val → i.val < r.val - r.val % 3 + 3 →
          c.val - c.val % 3 ≤ j.val → j.val < c.val - c.val % 3 + 3 →
          (cellAt g i j).nVal ≠ v) := by
  rw [isValidAssignment_iff_peer]
  have hr := r.isLt
  have hc := c.isLt
  constructor
  · rintro ⟨_, h⟩
    refine ⟨fun j => h r j (Or.inr (Or.inl rfl)), fun i => h i c (Or.inl rfl), ?_⟩
    intro i j a1 a2 a3 a4
    apply h i j
    right; right
    constructor <;> omega
  · rintro ⟨hrow, hcol, hbox⟩
    refine ⟨by omega, ?_⟩
    intro i j hp
    rcases hp with h | h | ⟨ha, hb⟩
    · subst h; exact hcol i
    · subst h; exact hrow j
    · have hi := i.isLt
      have hj := j.isLt
      apply hbox i j <;> omega

/-- C8 at the grid with 5 on the diagonal, position (1, 2), digit 5. -/
theorem isValidAssignment_iff_absent_witness :
    (1 : Int) ≤ 5 ∧ (5 : Int) ≤ 9 ∧
    (isValidAssignment (mkGrid fun i j => if i = j then 5 else 0) 1 2 5 = true ↔
      (∀ j : Idx, (cellAt (mkGrid fun i j => if i = j then 5 else 0) 1 j).nVal ≠ 5) ∧
      (∀ i : Idx, (cellAt (mkGrid fun i j => if i = j then 5 else 0) i 2).nVal ≠ 5) ∧
        (∀ i j : Idx, (1 : Idx).val - (1 : Idx).val % 3 ≤ i.val →
          i.val < (1 : Idx).val - (1 : Idx).val % 3 + 3 →
          (2 : Idx).val - (2 : Idx).val % 3 ≤ j.val → j.val < (2 : Idx).val - (2 : Idx).val % 3 + 3 →
          (cellAt (mkGrid fun i j => if i = j then 5 else 0) i j).nVal ≠ 5)) :=
  ⟨by decide, by decide, isValidAssignment_iff_absent _ 1 2 5 (by decide) (by decide)⟩

/-- C9 as stated fails: on the grid filled with 5, `isValidAssignment(0, 0, 0)` is true,
although 0 is the value of an empty cell. -/
theorem isValidAssignment_zero_counterexample :
    isValidAssignment (mkGrid fun _ _ => 5) 0 0 0 = true := by
  decide

/-- C9 amended: the value the check rejects outright is `-1` (an uninitialised value, and
what `getLastRemainingValue` returns when no digit remains); for the value 0 of an empty
cell the answer is not-valid exactly when some cell of the unit of `(r, c)` is empty, in
particular whenever cell `(r, c)` itself is empty. -/
theorem isValidAssignment_sentinel (g : Grid) (r c : Idx) :
    isValidAssignment g r c (-1) = false ∧
    (isValidAssignment g r c 0 = false ↔ ∃ i j, peer r c i j ∧ (cellAt g i j).nVal = 0) ∧
    ((cellAt g r c).nVal = 0 → isValidAssignment g r c 0 = false) := by
  have h0 : isValidAssignment g r c 0 = false ↔ ∃ i j, peer r c i j ∧ (cellAt g i j).nVal = 0 := by
    rw [← Bool.not_eq_true, isValidAssignment_iff_peer]
    constructor
    · intro h
      by_contra hc
      apply h
      refine ⟨by decide, ?_⟩
      intro i j hp hv
      exact hc ⟨i, j, hp, hv⟩
    · rintro ⟨i, j, hp, hv⟩ ⟨_, h⟩
      exact h i j hp hv
  refine ⟨?_, h0, ?_⟩
  · exact isValidAssignment_neg_one g r c
  · intro h
    exact h0.2 ⟨r, c, peer_self r c, h⟩

/-- C10: when all constraint counts are non-negative, `getNextEmptyCellByConstraintCount`
returns true exactly when some cell is empty; the cell it reports is empty, its count is at
least that of every empty cell and strictly greater than that of every empty cell before it
in row-major order. -/
theorem getNextEmptyCellByConstraintCount_spec (g : Grid)
    (hnn : ∀ i j, 0 ≤ (cellAt g i j).nConstraintCount) :
    ((getNextEmptyCellByConstraintCount g).isSome = true ↔ ∃ i j, (cellAt g i j).nVal = 0) ∧
    ∀ r c, getNextEmptyCellByConstraintCount g = some (r, c) →
      (cellAt g r c).nVal = 0 ∧
      (∀ i j, (cellAt g i j).nVal = 0 →
        (cellAt g i j).nConstraintCount ≤ (cellAt g r c).nConstraintCount) ∧
      (∀ i j, (cellAt g i j).nVal = 0 → (i < r ∨ (i = r ∧ j < c)) →
        (cellAt g i j).nConstraintCount < (cellAt g r c).nConstraintCount) := by
  constructor
  · cases hg : getNextEmptyCellByConstraintCount g with
    | none =>
      simp only [Option.isSome_none, Bool.false_eq_true, false_iff, not_exists]
      intro i j h0
      have := (getNext_none_iff g).1 hg i j h0
      have := hnn i j
      omega
    | some p =>
      simp only [Option.isSome_some, true_iff]
      exact ⟨p.1, p.2, (getNext_some g p.1 p.2 hg).1⟩
  · intro r c h
    obtain ⟨h1, _, h3, h4⟩ := getNext_some g r c h
    exact ⟨h1, h3, h4⟩

set_option maxRecDepth 100000 in
/-- C10 at the grid whose only clue is a 5 in the top-left corner, before any constraint is
recorded (all counts 0): the first empty cell in row-major order, (0, 1), is reported. -/
theorem getNextEmptyCellByConstraintCount_spec_witness :
    (∀ i j, 0 ≤ (cellAt (mkGrid fun i j => if i = 0 ∧ j = 0 then 5 else 0) i j).nConstraintCount) ∧
    (((getNextEmptyCellByConstraintCount
        (mkGrid fun i j => if i = 0 ∧ j = 0 then 5 else 0)).isSome = true ↔
      ∃ i j, (cellAt (mkGrid fun i j => if i = 0 ∧ j = 0 then 5 else 0) i j).nVal = 0)) ∧
    getNextEmptyCellByConstraintCount (mkGrid fun i j => if i = 0 ∧ j = 0 then 5 else 0)
      = some (0, 1) :=
  ⟨by decide,
   (getNextEmptyCellByConstraintCount_spec
      (mkGrid fun i j => if i = 0 ∧ j = 0 then 5 else 0) (by decide)).1,
   by decide⟩

/-! ## The claims C11 to C20 -/

/-- C11: for a grid of fresh cells with values in 0..9, after `setInitialCellConstraints`
no value has changed; on an empty cell digit `k + 1` is constrained exactly when some cell
of its row, column or box holds it, every flag is `0` or `-1`, and the count is the number
of such digits; a non-empty cell is still the fresh cell with its value (no flag set,
count 0). -/
theorem setInitialCellConstraints_spec (vals : Idx → Idx → Int) (hwf : wellFormed vals)
    (i j : Idx) :
    (cellAt (loadGrid vals) i j).nVal = vals i j ∧
    (vals i j = 0 →
      (∀ k : Idx, (cellAt (loadGrid vals) i j).constraintsOnCell.get k = -1 ↔
        ∃ i2 j2, peer i j i2 j2 ∧ vals i2 j2 = (k.val : Int) + 1) ∧
      (∀ k : Idx, (cellAt (loadGrid vals) i j).constraintsOnCell.get k = 0 ∨
        (cellAt (loadGrid vals) i j).constraintsOnCell.get k = -1) ∧
      (cellAt (loadGrid vals) i j).nConstraintCount =
        ((idx9.countP fun k => decide (∃ i2 j2, peer i j i2 j2 ∧
          vals i2 j2 = (k.val : Int) + 1) : Nat) : Int)) ∧
    (vals i j ≠ 0 → cellAt (loadGrid vals) i j = Cell.ofVal (vals i j)) := by
  have hcx := loadGrid_countsExact vals hwf
  refine ⟨loadGrid_nVal vals hwf i j, ?_, ?_⟩
  · intro h0
    have hiff : ∀ k : Idx, (cellAt (loadGrid vals) i j).constraintsOnCell.get k = -1 ↔
        ∃ i2 j2, peer i j i2 j2 ∧ vals i2 j2 = (k.val : Int) + 1 := by
      intro k
      constructor
      · intro hk
        obtain ⟨i2, j2, hp, hv⟩ := loadGrid_justified vals hwf i j k hk
        exact ⟨i2, j2, hp, by rw [← loadGrid_nVal vals hwf i2 j2]; exact hv⟩
      · rintro ⟨i2, j2, hp, hv⟩
        apply setInitialCellConstraints_sets (mkGrid vals) (mkGrid_countsExact vals) i j i2 j2 k
        · rw [cellAt_mkGrid]; exact h0
        · exact hp
        · rw [cellAt_mkGrid]; exact hv
    refine ⟨hiff, (hcx i j).1, ?_⟩
    have hcount : numBlocked (cellAt (loadGrid vals) i j) =
        idx9.countP fun k => decide (∃ i2 j2, peer i j i2 j2 ∧
          vals i2 j2 = (k.val : Int) + 1) := by
      unfold numBlocked
      apply List.countP_congr
      intro k _
      simp only [decide_eq_true_eq]
      exact hiff k
    rw [(hcx i j).2, hcount]
  · intro hne
    have h := setInitialCellConstraints_nonempty (mkGrid vals) i j
      (by rw [cellAt_mkGrid]; exact hne)
    rw [cellAt_mkGrid] at h
    exact h

set_option maxRecDepth 1000000 in
/-- C11 at the empty cell (0, 0) of a grid in which that cell sees all nine digits. -/
theorem setInitialCellConstraints_spec_witness :
    wellFormed deadVals ∧ deadVals 0 0 = 0 ∧
    (cellAt (loadGrid deadVals) 0 0).nVal = deadVals 0 0 ∧
    (cellAt (loadGrid deadVals) 0 0).nConstraintCount = 9 :=
  ⟨by decide, by decide, (setInitialCellConstraints_spec deadVals (by decide) 0 0).1, by decide⟩

/-- C12: for every cell and every digit `k + 1` of 1..9, `setConstraint` applied twice gives
the same cell as applied once; the first call adds one to the count exactly when the flag of
the digit was `0` (the digit was free), in which case it sets the flag to `-1`, and
otherwise changes nothing; for a flag that is `0` or `-1` this is exactly when the digit
was not yet constrained (`-1`). -/
theorem setConstraint_idempotent (c : Cell) (k : Idx) :
    (c.setConstraint ((k.val : Int) + 1)).setConstraint ((k.val : Int) + 1)
      = c.setConstraint ((k.val : Int) + 1) ∧
    ((c.setConstraint ((k.val : Int) + 1)).nConstraintCount = c.nConstraintCount + 1 ↔
      c.constraintsOnCell.get k = 0) ∧
    (c.constraintsOnCell.get k ≠ 0 → c.setConstraint ((k.val : Int) + 1) = c) ∧
    (c.constraintsOnCell.get k = 0 →
      (c.setConstraint ((k.val : Int) + 1)).constraintsOnCell.get k = -1) ∧
    (c.constraintsOnCell.get k = 0 ∨ c.constraintsOnCell.get k = -1 →
      ((c.setConstraint ((k.val : Int) + 1)).nConstraintCount = c.nConstraintCount + 1 ↔
        c.constraintsOnCell.get k ≠ -1)) := by
  have hcount : (c.setConstraint ((k.val : Int) + 1)).nConstraintCount = c.nConstraintCount + 1 ↔
      c.constraintsOnCell.get k = 0 := by
    rw [setConstraint_digit]
    split
    · rename_i h0; simp [h0]
    · rename_i h0
      constructor
      · intro h; omega
      · intro h; exact absurd h h0
  refine ⟨setConstraint_twice c k, hcount, ?_, ?_, ?_⟩
  · intro h
    rw [setConstraint_digit, if_neg h]
  · intro h
    rw [setConstraint_digit, if_pos h]
    simp only
    rw [Mathlib.Vector.get_set_same]
  · intro h
    rw [hcount]
    rcases h with h | h
    · rw [h]; simp
    · rw [h]; simp

/-- C13 as stated fails: on a default cell all nine digits are free, and
`getLastRemainingValue` returns 1, not `-1`. -/
theorem getLastRemainingValue_fresh_counterexample :
    (∀ k : Idx, Cell.fresh.constraintsOnCell.get k = 0) ∧ Cell.fresh.getLastRemainingValue = 1 := by
  decide

/-- C13 amended: `getLastRemainingValue` returns digit `k + 1` when it is the one and only
digit whose flag is `0`; in general it returns `k + 1` exactly when that is the lowest digit
whose flag is `0` (also when two or more digits are free), and it returns `-1` exactly when
no flag is `0`. -/
theorem getLastRemainingValue_spec (c : Cell) :
    (∀ k : Idx, c.constraintsOnCell.get k = 0 →
      (∀ k2 : Idx, k2 ≠ k → c.constraintsOnCell.get k2 ≠ 0) →
      c.getLastRemainingValue = (k.val : Int) + 1) ∧
    (∀ k : Idx, c.getLastRemainingValue = (k.val : Int) + 1 ↔
      c.constraintsOnCell.get k = 0 ∧ ∀ k2 : Idx, k2 < k → c.constraintsOnCell.get k2 ≠ 0) ∧
    (c.getLastRemainingValue = -1 ↔ ∀ k : Idx, c.constraintsOnCell.get k ≠ 0) := by
  refine ⟨?_, getLastRemainingValue_eq_digit c, getLastRemainingValue_eq_neg_one c⟩
  intro k h0 hothers
  exact (getLastRemainingValue_eq_digit c k).2 ⟨h0, fun k2 hlt => hothers k2 (ne_of_lt hlt)⟩

/-- C14: for every 9x9 puzzle with values in 0..9 in which no two non-empty cells of a
common row, column or box hold the same value, `doSolve` on the grid constructed from it
returns, and the grid it leaves, like every grid on which `solveSudoku` was entered, has
values in 0..9 and no two such cells; when `doSolve` returns true the grid it leaves is a
solved Sudoku. -/
theorem doSolve_keeps_sudoku_rule (vals : Idx → Idx → Int) (hwf : wellFormed vals)
    (hcf : conflictFree vals) :
    ∃ b g' log, doSolveLog (loadGrid vals) = some (b, g', log) ∧
      doSolve (loadGrid vals) = some (b, g') ∧
      (∀ i j, 0 ≤ (cellAt g' i j).nVal ∧ (cellAt g' i j).nVal ≤ 9) ∧
      conflictFree (gridVals g') ∧
      (∀ z ∈ log, (∀ i j, 0 ≤ (cellAt z i j).nVal ∧ (cellAt z i j).nVal ≤ 9) ∧
        conflictFree (gridVals z)) ∧
      (b = true → isSolution (gridVals g')) := by
  have hr : ∀ i j, 0 ≤ (cellAt (loadGrid vals) i j).nVal ∧
      (cellAt (loadGrid vals) i j).nVal ≤ 9 := by
    intro i j
    rw [loadGrid_nVal vals hwf i j]
    exact hwf i j
  have hcf0 : conflictFree (gridVals (loadGrid vals)) := by
    rw [gridVals_loadGrid vals hwf]
    exact hcf
  obtain ⟨b, g', log, hlog, hres⟩ := doSolveLog_total (loadGrid vals)
  have hreach := solveSudoku_reach 82 (loadGrid vals) b g' hres
  have hcf2 : ∀ z, Reach (loadGrid vals) z → conflictFree (gridVals z) :=
    fun z hz i j i2 j2 hc => hcf0 i j i2 j2 (hz.conflict_old i j i2 j2 hc)
  refine ⟨b, g', log, hlog, hres, hreach.range hr, hcf2 g' hreach, ?_, ?_⟩
  · intro z hz
    have hzr := (solveSudokuLog_reach 82 (loadGrid vals) b g' log hlog).2 z hz
    exact ⟨hzr.range hr, hcf2 z hzr⟩
  · intro hb
    subst hb
    exact isSolution_of_conflictFree _
      (solveSudoku_true_digits 82 (loadGrid vals) g' hr (loadGrid_count_nonneg vals hwf) hres)
      (hcf2 g' hreach)

set_option maxRecDepth 1000000 in
/-- C14 at a puzzle with three empty cells, on which `doSolve` returns true. -/
theorem doSolve_keeps_sudoku_rule_witness :
    wellFormed puzzleVals ∧ conflictFree puzzleVals ∧
    (∃ b g' log, doSolveLog (loadGrid puzzleVals) = some (b, g', log) ∧
      doSolve (loadGrid puzzleVals) = some (b, g') ∧
      (∀ i j, 0 ≤ (cellAt g' i j).nVal ∧ (cellAt g' i j).nVal ≤ 9) ∧
      conflictFree (gridVals g') ∧
      (∀ z ∈ log, (∀ i j, 0 ≤ (cellAt z i j).nVal ∧ (cellAt z i j).nVal ≤ 9) ∧
        conflictFree (gridVals z)) ∧
      (b = true → isSolution (gridVals g'))) ∧
    (doSolve (loadGrid puzzleVals)).map Prod.fst = some true :=
  ⟨by decide, by decide, doSolve_keeps_sudoku_rule puzzleVals (by decide) (by decide),
   by decide⟩

/-- C15: fresh cells have exact counts (every flag `0` or `-1`, count = number of flags
set, hence between 0 and 9), and so has the grid constructed from a puzzle with values in
0..9; `setInitialCellConstraints` on a grid with values in 0..9, `setConstraint` of a digit
1..9 on any cell, `propogateConstraint` of a digit 1..9, `copyUnit` between two such grids
and `solveSudoku` (which tries the digits 1..9 only) keep the counts exact; so has every
grid on which `solveSudoku` is entered. -/
theorem countsExact_invariant :
    (∀ vals, wellFormed vals → countsExact (mkGrid vals) ∧ countsExact (loadGrid vals)) ∧
    countsExact freshGrid ∧
    (∀ g, countsExact g → ∀ i j, 0 ≤ (cellAt g i j).nConstraintCount ∧
      (cellAt g i j).nConstraintCount ≤ 9) ∧
    (∀ g, (∀ i j, 0 ≤ (cellAt g i j).nVal ∧ (cellAt g i j).nVal ≤ 9) → countsExact g →
      countsExact (setInitialCellConstraints g)) ∧
    (∀ g r c d, 1 ≤ d → d ≤ 9 → countsExact g → countsExact (markCell g r c d)) ∧
    (∀ g r c val, 1 ≤ val → val ≤ 9 → countsExact g →
      countsExact (propogateConstraint g r c val).2) ∧
    (∀ r c src dst, countsExact src → countsExact dst → countsExact (copyUnit r c src dst)) ∧
    (∀ fuel g b g' log, countsExact g → solveSudokuLog fuel g = some (b, g', log) →
      solveSudoku fuel g = some (b, g') ∧ countsExact g' ∧ ∀ z ∈ log, countsExact z) := by
  refine ⟨?_, freshGrid_countsExact, ?_,
    fun g _ hc => setInitialCellConstraints_countsExact g hc,
    fun g r c d _ _ hc => markCell_countsExact g r c d hc,
    fun g r c val _ _ hc => propogateConstraint_countsExact g r c val hc,
    copyUnit_countsExact, ?_⟩
  · intro vals _
    exact ⟨mkGrid_countsExact vals,
      setInitialCellConstraints_countsExact _ (mkGrid_countsExact vals)⟩
  · intro g hc i j
    have h := (hc i j).2
    have hle := numBlocked_le (cellAt g i j)
    omega
  · intro fuel g b g' log hc hlog
    have hd := solveSudokuLog_dropLog fuel g
    rw [hlog] at hd
    have hres : solveSudoku fuel g = some (b, g') := hd.symm
    refine ⟨hres, (solveSudoku_reach fuel g b g' hres).countsExact hc, ?_⟩
    intro z hz
    exact ((solveSudokuLog_reach fuel g b g' log hlog).2 z hz).countsExact hc

set_option maxRecDepth 1000000 in
/-- C15 at a puzzle whose row 0 has two empty cells: the constructed grid, the grid after
`setConstraint(8)` on cell (0, 1), which takes its count from 7 to 8, and the grid after
writing 8 into cell (0, 0) and propagating it. -/
theorem countsExact_invariant_witness :
    wellFormed pairVals ∧
    countsExact (loadGrid pairVals) ∧
    (cellAt (loadGrid pairVals) 0 1).nConstraintCount = 7 ∧
    countsExact (markCell (loadGrid pairVals) 0 1 8) ∧
    (cellAt (markCell (loadGrid pairVals) 0 1 8) 0 1).nConstraintCount = 8 ∧
    countsExact (propogateConstraint (setVal (loadGrid pairVals) 0 0 8) 0 0 8).2 ∧
    (cellAt (propogateConstraint (setVal (loadGrid pairVals) 0 0 8) 0 0 8).2 0 1).nConstraintCount
      = 8 :=
  ⟨by decide, (countsExact_invariant.1 pairVals (by decide)).2, by decide,
   countsExact_invariant.2.2.2.2.1 _ 0 1 8 (by decide) (by decide)
     (countsExact_invariant.1 pairVals (by decide)).2,
   by decide,
   countsExact_invariant.2.2.2.2.2.1 _ 0 0 8 (by decide) (by decide)
     (setVal_countsExact _ 0 0 8 (countsExact_invariant.1 pairVals (by decide)).2),
   by decide⟩

/-- C16: for a well-formed grid initialised by `setInitialCellConstraints`, `doSolve`
returns, and in every grid on which `solveSudoku` was entered (the first being the initial
grid) and in the grid `doSolve` leaves, every digit constrained on a cell, empty or not, is
the value of some cell of that cell's row, column or box. -/
theorem doSolve_blocked_justified (vals : Idx → Idx → Int) (hwf : wellFormed vals) :
    ∃ b g' log, doSolveLog (loadGrid vals) = some (b, g', log) ∧
      doSolve (loadGrid vals) = some (b, g') ∧ loadGrid vals ∈ log ∧
      (∀ z ∈ log, ∀ i j k, (cellAt z i j).constraintsOnCell.get k = -1 →
        ∃ i2 j2, peer i j i2 j2 ∧ (cellAt z i2 j2).nVal = (k.val : Int) + 1) ∧
      (∀ i j k, (cellAt g' i j).constraintsOnCell.get k = -1 →
        ∃ i2 j2, peer i j i2 j2 ∧ (cellAt g' i2 j2).nVal = (k.val : Int) + 1) := by
  obtain ⟨b, g', log, hlog, hres⟩ := doSolveLog_total (loadGrid vals)
  have hj := loadGrid_justified vals hwf
  have htrace := solveSudokuLog_reach 82 _ b g' log hlog
  refine ⟨b, g', log, hlog, hres, htrace.1, ?_, ?_⟩
  · intro z hz
    exact (htrace.2 z hz).justified hj
  · exact (solveSudoku_reach 82 _ b g' hres).justified hj

set_option maxRecDepth 1000000 in
/-- C16 at a puzzle with three empty cells: `solveSudoku` is entered four times. -/
theorem doSolve_blocked_justified_witness :
    wellFormed puzzleVals ∧
    (∃ b g' log, doSolveLog (loadGrid puzzleVals) = some (b, g', log) ∧
      doSolve (loadGrid puzzleVals) = some (b, g') ∧ loadGrid puzzleVals ∈ log ∧
      (∀ z ∈ log, ∀ i j k, (cellAt z i j).constraintsOnCell.get k = -1 →
        ∃ i2 j2, peer i j i2 j2 ∧ (cellAt z i2 j2).nVal = (k.val : Int) + 1) ∧
      (∀ i j k, (cellAt g' i j).constraintsOnCell.get k = -1 →
        ∃ i2 j2, peer i j i2 j2 ∧ (cellAt g' i2 j2).nVal = (k.val : Int) + 1)) ∧
    (doSolveLog (loadGrid puzzleVals)).map (fun res => res.2.2.length) = some 4 :=
  ⟨by decide, doSolve_blocked_justified puzzleVals (by decide), by decide⟩

/-- C17: `propogateConstraint(row, col, val)` leaves every cell outside the unit of
`(row, col)` as it was, whichever boolean it returns (here for every `val`); `copyUnit` copies
exactly the cells of that unit, the unit being the cells the three loops visit; so restoring
a snapshot taken before the call gives back the grid as it was. -/
theorem propogateConstraint_outside_unit (g : Grid) (row col : Idx) (val : Int) :
    (∀ i j, ¬ peer row col i j →
      cellAt (propogateConstraint g row col val).2 i j = cellAt g i j) ∧
    (∀ i j, (i, j) ∈ unitCells row col ↔ peer row col i j) ∧
    (∀ (src dst : Grid) i j, cellAt (copyUnit row col src dst) i j =
      if peer row col i j then cellAt src i j else cellAt dst i j) ∧
    copyUnit row col (copyUnit row col g freshGrid) (propogateConstraint g row col val).2 = g :=
  ⟨fun i j h => propogateConstraint_frame g row col val i j h,
   fun i j => mem_unitCells row col (i, j),
   fun src dst i j => copyUnit_apply row col src dst i j,
   copyUnit_restore row col g _ (fun i j h => propogateConstraint_frame g row col val i j h)⟩

/-- C18: on a grid with exact counts, if `propogateConstraint(row, col, k + 1)` returns
true, then in the grid it leaves every cell of the unit of `(row, col)` has the digit
`k + 1` constrained, none is empty with 8 or more constraints, every value that was
non-zero is kept, and every cell of the unit the call filled holds a digit 1..9 that is
its last remaining value, with 8 or more constraints and every other digit constrained,
and that no other cell of its row, column or box holds. -/
theorem propogateConstraint_true_spec (g : Grid) (hc : countsExact g) (row col k : Idx)
    (htrue : (propogateConstraint g row col ((k.val : Int) + 1)).1 = true) (i j : Idx)
    (hp : peer row col i j) :
    (cellAt (propogateConstraint g row col ((k.val : Int) + 1)).2 i j).constraintsOnCell.get k
      = -1 ∧
    ¬ ((cellAt (propogateConstraint g row col ((k.val : Int) + 1)).2 i j).nVal = 0 ∧
      (cellAt (propogateConstraint g row col ((k.val : Int) + 1)).2 i j).nConstraintCount ≥ 8) ∧
    ((cellAt g i j).nVal ≠ 0 →
      (cellAt (propogateConstraint g row col ((k.val : Int) + 1)).2 i j).nVal
        = (cellAt g i j).nVal) ∧
    ((cellAt g i j).nVal = 0 →
      (cellAt (propogateConstraint g row col ((k.val : Int) + 1)).2 i j).nVal ≠ 0 →
      forcedCell k (propogateConstraint g row col ((k.val : Int) + 1)).2 i j ∧
      ∀ k2 : Idx, (k2.val : Int) + 1 ≠
          (cellAt (propogateConstraint g row col ((k.val : Int) + 1)).2 i j).nVal →
        (cellAt (propogateConstraint g row col ((k.val : Int) + 1)).2 i j).constraintsOnCell.get k2
          = -1) := by
  have hc2 := propogateConstraint_countsExact g row col ((k.val : Int) + 1) hc
  rw [propogateConstraint_eq] at htrue hc2 ⊢
  have hs := propLoop_settles k _ g htrue (i, j) ((mem_unitCells row col (i, j)).2 hp)
  refine ⟨?_, hs.2, ?_, ?_⟩
  · rcases (hc2 i j).1 k with h | h
    · exact absurd h hs.1
    · exact h
  · intro hne
    exact propLoop_nVal_keep _ _ g i j hne
  · intro h0 hne
    have hf := propLoop_forces k _ g i j h0 hne
    refine ⟨hf, ?_⟩
    intro k2 hk2
    apply last_remaining_forced _ (hc2 i j).1 (hc2 i j).2 hf.2.2.2.2.1 k2
    rw [← hf.2.2.2.1]
    exact hk2

set_option maxRecDepth 1000000 in
/-- C18 at a propagation that fills a cell: on the puzzle whose row 0 is
`0 0 7 1 2 3 4 5 6`, digit 8 is written into cell (0, 0) and propagated; cell (0, 1), empty
with 7 constraints before, gets its eighth constraint and is filled with 9, its last
remaining value, and the call returns true. -/
theorem propogateConstraint_true_spec_witness :
    countsExact (setVal (loadGrid pairVals) 0 0 8) ∧
    (propogateConstraint (setVal (loadGrid pairVals) 0 0 8) 0 0 (((7 : Idx).val : Int) + 1)).1
      = true ∧
    peer 0 0 0 1 ∧
    (cellAt (setVal (loadGrid pairVals) 0 0 8) 0 1).nVal = 0 ∧
    (cellAt (setVal (loadGrid pairVals) 0 0 8) 0 1).nConstraintCount = 7 ∧
    (cellAt (propogateConstraint (setVal (loadGrid pairVals) 0 0 8) 0 0
      (((7 : Idx).val : Int) + 1)).2 0 1).nVal = 9 ∧
    (cellAt (propogateConstraint (setVal (loadGrid pairVals) 0 0 8) 0 0
      (((7 : Idx).val : Int) + 1)).2 0 1).constraintsOnCell.get 7 = -1 ∧
    ¬ ((cellAt (propogateConstraint (setVal (loadGrid pairVals) 0 0 8) 0 0
        (((7 : Idx).val : Int) + 1)).2 0 1).nVal = 0 ∧
      (cellAt (propogateConstraint (setVal (loadGrid pairVals) 0 0 8) 0 0
        (((7 : Idx).val : Int) + 1)).2 0 1).nConstraintCount ≥ 8) ∧
    forcedCell 7 (propogateConstraint (setVal (loadGrid pairVals) 0 0 8) 0 0
      (((7 : Idx).val : Int) + 1)).2 0 1 ∧
    (∀ k2 : Idx, (k2.val : Int) + 1 ≠
        (cellAt (propogateConstraint (setVal (loadGrid pairVals) 0 0 8) 0 0
          (((7 : Idx).val : Int) + 1)).2 0 1).nVal →
      (cellAt (propogateConstraint (setVal (loadGrid pairVals) 0 0 8) 0 0
        (((7 : Idx).val : Int) + 1)).2 0 1).constraintsOnCell.get k2 = -1) :=
  ⟨setVal_countsExact _ 0 0 8 (loadGrid_countsExact pairVals (by decide)), by decide,
   by decide, by decide, by decide, by decide,
   (propogateConstraint_true_spec (setVal (loadGrid pairVals) 0 0 8)
      (setVal_countsExact _ 0 0 8 (loadGrid_countsExact pairVals (by decide))) 0 0 7
      (by decide) 0 1 (by decide)).1,
   (propogateConstraint_true_spec (setVal (loadGrid pairVals) 0 0 8)
      (setVal_countsExact _ 0 0 8 (loadGrid_countsExact pairVals (by decide))) 0 0 7
      (by decide) 0 1 (by decide)).2.1,
   ((propogateConstraint_true_spec (setVal (loadGrid pairVals) 0 0 8)
      (setVal_countsExact _ 0 0 8 (loadGrid_countsExact pairVals (by decide))) 0 0 7
      (by decide) 0 1 (by decide)).2.2.2 (by decide) (by decide)).1,
   ((propogateConstraint_true_spec (setVal (loadGrid pairVals) 0 0 8)
      (setVal_countsExact _ 0 0 8 (loadGrid_countsExact pairVals (by decide))) 0 0 7
      (by decide) 0 1 (by decide)).2.2.2 (by decide) (by decide)).2⟩

set_option maxRecDepth 1000000 in
/-- C19 as stated fails: in the first attempt of the run on a grid whose three empty cells
of row 0 can only take 8 or 9, digit 8 is written into the branch cell (0, 0);
`propogateConstraint(0, 0, 8)` forces 9 into (0, 1) and returns false at (0, 2), whose last
remaining value 9 is no longer valid, although every empty cell of the unit still has a
free digit. -/
theorem propogateConstraint_false_counterexample :
    getNextEmptyCellByConstraintCount (loadGrid triVals) = some (0, 0) ∧
    isValidAssignment (loadGrid triVals) 0 0 8 = true ∧
    (propogateConstraint (setVal (loadGrid triVals) 0 0 8) 0 0 8).1 = false ∧
    ∀ i j, peer 0 0 i j →
      (cellAt (propogateConstraint (setVal (loadGrid triVals) 0 0 8) 0 0 8).2 i j).nVal = 0 →
      ∃ k : Idx, (cellAt (propogateConstraint (setVal (loadGrid triVals) 0 0 8) 0 0 8).2
        i j).constraintsOnCell.get k = 0 := by
  decide

/-- C19 amended: for every grid and every digit `k + 1`, `propogateConstraint` returns true
exactly when, in the grid it leaves, no cell of the unit of `(row, col)` is empty with 8 or
more constraints and a last remaining value that is missing or not a valid assignment; on
a grid with exact counts, when it returns true every empty cell of the unit has a free
digit (none is fully constrained). -/
theorem propogateConstraint_returns (g : Grid) (row col k : Idx) :
    ((propogateConstraint g row col ((k.val : Int) + 1)).1 = true ↔
      ∀ i j, peer row col i j →
        ¬ ((cellAt (propogateConstraint g row col ((k.val : Int) + 1)).2 i j).nVal = 0 ∧
          (cellAt (propogateConstraint g row col ((k.val : Int) + 1)).2 i j).nConstraintCount
            ≥ 8 ∧
          isValidAssignment (propogateConstraint g row col ((k.val : Int) + 1)).2 i j
            (cellAt (propogateConstraint g row col ((k.val : Int) + 1)).2
              i j).getLastRemainingValue = false)) ∧
    (countsExact g → (propogateConstraint g row col ((k.val : Int) + 1)).1 = true →
      ∀ i j, peer row col i j →
        (cellAt (propogateConstraint g row col ((k.val : Int) + 1)).2 i j).nVal = 0 →
        ∃ k2 : Idx, (cellAt (propogateConstraint g row col ((k.val : Int) + 1)).2
          i j).constraintsOnCell.get k2 = 0) := by
  refine ⟨propogateConstraint_true_iff g row col k, ?_⟩
  intro hc htrue i j hp h0
  have hc2 := propogateConstraint_countsExact g row col ((k.val : Int) + 1) hc
  rw [propogateConstraint_eq] at htrue hc2 h0 ⊢
  have hs := propLoop_settles k _ g htrue (i, j) ((mem_unitCells row col (i, j)).2 hp)
  exact settled_has_free _ hc2 k i j hs h0

/-- C20: in the rendering of the program with `int` positions and checked accesses, where
an access `m_grid[i][j]` succeeds exactly for `i`, `j` in 0..8 and `constraintsOnCell[val - 1]`
exactly for `val` in 1..9, a well-formed grid never meets an index out of range:
`setInitialCellConstraints` runs to its end with the grid of the model, and so does
`doSolve` with the result of the model; the box indices of rows and columns 0..8 are in
0..8, and the branch cell reported by `getNextEmptyCellByConstraintCount` is in range
whenever it returns true. -/
theorem no_index_out_of_range (vals : Idx → Idx → Int) (hwf : wellFormed vals) :
    setInitialCellConstraintsRaw (mkGrid vals) = some (loadGrid vals) ∧
    (∃ b g', doSolve (loadGrid vals) = some (b, g') ∧
      doSolveRaw (loadGrid vals) = Outcome.done b g') ∧
    (∀ (g : Grid) (i j : Int), (cellRaw g i j).isSome = true ↔ (0 ≤ i ∧ i ≤ 8) ∧ (0 ≤ j ∧ j ≤ 8)) ∧
    (∀ val : Int, (flagIndex val).isSome = true ↔ 1 ≤ val ∧ val ≤ 9) ∧
    (∀ (c : Cell) (d : Int), (c.setConstraintRaw d).isSome = true ↔ 1 ≤ d ∧ d ≤ 9) ∧
    (∀ row i : Int, 0 ≤ row → row ≤ 8 → 0 ≤ i → i ≤ 2 →
      0 ≤ row - row % 3 + i ∧ row - row % 3 + i ≤ 8) ∧
    (∀ g : Grid, getNextEmptyCellByConstraintCountRaw g = some (false, -1, -1) ∨
      ∃ r c : Idx, getNextEmptyCellByConstraintCountRaw g
        = some (true, (r.val : Int), (c.val : Int))) ∧
    (∀ (fuel : Nat) (g : Grid), solveSudokuRaw fuel g = toOutcome (solveSudoku fuel g)) := by
  have hflag : ∀ val : Int, (flagIndex val).isSome = true ↔ 1 ≤ val ∧ val ≤ 9 := by
    intro val
    unfold flagIndex
    rw [gridIndex_isSome]
    constructor <;> intro h <;> constructor <;> omega
  refine ⟨?_, ?_, ?_, hflag, ?_, ?_, ?_, solveSudokuRaw_eq⟩
  · exact setInitialCellConstraintsRaw_eq (mkGrid vals) (mkGrid_range vals hwf)
  · obtain ⟨⟨b, g'⟩, hres⟩ := doSolve_total (loadGrid vals)
    refine ⟨b, g', hres, ?_⟩
    have h := solveSudokuRaw_eq 82 (loadGrid vals)
    rw [show solveSudoku 82 (loadGrid vals) = some (b, g') from hres] at h
    exact h
  · intro g i j
    rw [← gridIndex_isSome i, ← gridIndex_isSome j]
    unfold cellRaw
    cases gridIndex i <;> cases gridIndex j <;> simp
  · intro c d
    rw [← hflag d]
    unfold Cell.setConstraintRaw
    cases flagIndex d
    · simp
    · simp only [Option.isSome_some, iff_true]
      split <;> rfl
  · intro row i h1 h2 h3 h4
    constructor <;> omega
  · intro g
    rcases getNextRaw_spec g with ⟨_, h⟩ | ⟨r, c, _, h⟩
    · left; exact h
    · right; exact ⟨r, c, h⟩

set_option maxRecDepth 1000000 in
/-- C20 at a puzzle with three empty cells; on a grid holding the value 10 the checked
`setInitialCellConstraints` does stop at an index out of range. -/
theorem no_index_out_of_range_witness :
    wellFormed puzzleVals ∧
    setInitialCellConstraintsRaw (mkGrid puzzleVals) = some (loadGrid puzzleVals) ∧
    setInitialCellConstraintsRaw (mkGrid (valsOf [[10, 0]])) = none :=
  ⟨by decide, (no_index_out_of_range puzzleVals (by decide)).1, by decide⟩

end Sudoku
